import Mathlib

/-!
cdk-erigon sequencer: resource ledger, batch verifier, executor dispatch, rollback

A shallow embedding of the parts of the repository that the specification's
testable properties talk about:

* `core/vm/zk_counters.go`: `Counter`, `Counters`, `CounterCollector`,
  `NewCounterCollector`, `defaultCounters`, `Deduct`, the cost helpers up to
  `hashPoseidonLinearFromMemory` and `processContractCall`, and `ecRecover`;
* `zk/stages/stage_sequence_execute_verifier.go`: `BatchVerifier`,
  `AddNewCheck`, `CheckProgress`, `removeProcessedPromises`, `syncPromise`,
  `asyncPromise`;
* `zk/legacy_executor_verifier/legacy_executor_verifier.go`:
  `getNextOnlineAvailableExecutor`, `AddRequestUnsafe` and the function it
  hands to its promise, `ConsumeResultsUnsafe`, `writeBatchToStream`;
* `zk/stages/stage_sequence_execute_utils.go`: `updateStreamAndCheckRollback`,
  `BlockDataChecker`, `checkForBadBatch`, `prepareForkId`;
* `zk/stages/stage_sequence_execute_data_stream.go`: `writeBlockDetails`;
* `zk/stages/stage_dataStreamCatchup.go`: `TruncateDatastream`;
* `zk/txpool/pool_zk_limbo.go`: `flushLockedLimbo`, `fromDBLimbo`,
  `resizeBatches`;
* `zk/stages/stage_sequencer_executor_verify.go`:
  `SpawnSequencerExecutorVerifyStage`;
* `zk/stages/stage_sequence_execute.go`: the block loop of
  `SpawnSequencingStage`, with its transaction loop, its `select` loop and the
  re-run of a block after an overflow.

Go's `int` is the 64-bit two's complement integer; it is embedded as `Int`
with every arithmetic result wrapped by `wrapInt`.  Go's `uint64` is embedded
as `Nat` reduced modulo `2 ^ 64`.  A Go panic is an explicit outcome.  Calls on
collaborators (storage, executors, the unwinder) are embedded as their answers,
given as parameters, and as a list of the calls made.  A `uint256.Int` is
embedded as a `Nat` below `2 ^ 256`, with the library's methods as the values
they store in their receiver.  A `float64` is embedded as the fraction it
stands for, and a conversion or a division rounds to a significand of 53 bits,
half to even.

The promise type, `IsOverdue`, `CreateAsyncPromise` and the request and bundle
constructors are used by the source files above but defined elsewhere; they
are parameters of the embedding or follow the wording of the specification,
and the definitions say which.
-/

namespace Go

/-! ## Go machine integers and errors -/

/-- Two's complement wrap of an integer into the range of Go's 64-bit `int`. -/
def wrapInt (x : Int) : Int :=
  (x + 9223372036854775808) % 18446744073709551616 - 9223372036854775808

/-- The values a Go `int` can hold. -/
def inIntRange (x : Int) : Prop :=
  -9223372036854775808 ≤ x ∧ x ≤ 9223372036854775807

instance (x : Int) : Decidable (inIntRange x) := by
  unfold inIntRange; infer_instance

/-- Reduction of a natural number to Go's `uint64`. -/
def wrapU64 (x : Nat) : Nat := x % 18446744073709551616

/-- The Go expression `x - 1` on a `uint64`. -/
def subOneU64 (x : Nat) : Nat := wrapU64 (x + 18446744073709551615)

/-- Go `error` values, as far as the verifier code tells them apart: the two
sentinels, an error made by `fmt.Errorf`, and an error wrapping another. -/
inductive GoError where
  | ErrPromiseCancelled
  | ErrNoExecutorAvailable
  | errorf (msg : String)
  | wrapped (msg : String) (inner : GoError)
deriving DecidableEq, Repr

/-- The standard library's `errors.Is`: walk the chain of wrapped errors and
compare each link with the target. -/
def errorsIs (err target : GoError) : Bool :=
  if err = target then true
  else
    match err with
    | .wrapped _ inner => errorsIs inner target
    | _ => false

end Go

namespace ZkCounters

open Go

/-! ## `core/vm/zk_counters.go` -/

/-- The Go type `CounterKey`, a string. -/
abbrev CounterKey := String

def S : CounterKey := "S"
def A : CounterKey := "A"
def B : CounterKey := "B"
def M : CounterKey := "M"
def K : CounterKey := "K"
def D : CounterKey := "D"
def P : CounterKey := "P"

/-- The seven counter dimensions, in the order of the source's `var` block. -/
def dimensions : List CounterKey := [S, A, B, M, K, D, P]

/-- The Go struct `Counter`. -/
structure Counter where
  remaining : Int
  used : Int
  name : String
  initialAmount : Int
deriving DecidableEq, Repr

/-- The Go type `Counters`, a `map[CounterKey]*Counter`.  Every key of a map
built by `defaultCounters` points to a cell of its own, so the map is embedded
as a finite partial function from keys to counter values. -/
abbrev Counters := CounterKey → Option Counter

/-- The Go struct `CounterCollector`. -/
structure CounterCollector where
  counters : Counters

/-- The package variable `totalSteps = math.Pow(2, 23)`. -/
def totalSteps : Int := 2 ^ 23

/-- The Go function `defaultCounters`.  `math.Floor(totalSteps / c)` is the
floor of the real quotient, which for the positive operands here is `Int`
division; `remaining` and `initialAmount` get the same expression and `used`
is left at its zero value. -/
def defaultCounters : Counters := fun key =>
  if key = S then
    some { remaining := totalSteps, used := 0, name := "totalSteps", initialAmount := totalSteps }
  else if key = A then
    some { remaining := totalSteps / 32, used := 0, name := "arith", initialAmount := totalSteps / 32 }
  else if key = B then
    some { remaining := totalSteps / 16, used := 0, name := "binary", initialAmount := totalSteps / 16 }
  else if key = M then
    some { remaining := totalSteps / 32, used := 0, name := "memAlign", initialAmount := totalSteps / 32 }
  else if key = K then
    some { remaining := totalSteps / 155286 * 44, used := 0, name := "keccaks",
           initialAmount := totalSteps / 155286 * 44 }
  else if key = D then
    some { remaining := totalSteps / 56, used := 0, name := "padding", initialAmount := totalSteps / 56 }
  else if key = P then
    some { remaining := totalSteps / 30, used := 0, name := "poseidon", initialAmount := totalSteps / 30 }
  else none

/-- The Go function `NewCounterCollector`. -/
def NewCounterCollector : CounterCollector :=
  { counters := defaultCounters }

/-- The Go method `CounterCollector.Deduct`:
`cc.counters[key].used += amount; cc.counters[key].remaining -= amount`.
A key that is not in the map yields a nil pointer, whose dereference panics:
that is the result `none`. -/
def Deduct (cc : CounterCollector) (key : CounterKey) (amount : Int) : Option CounterCollector :=
  match cc.counters key with
  | none => none
  | some c =>
    let c1 : Counter := { c with used := wrapInt (c.used + amount) }
    let c2 : Counter := { c1 with remaining := wrapInt (c1.remaining - amount) }
    some { counters := fun k => if k = key then some c2 else cc.counters k }

/-- A finite sequence of `Deduct` calls, run from left to right. -/
def DeductAll (cc : CounterCollector) : List (CounterKey × Int) → Option CounterCollector
  | [] => some cc
  | (key, amount) :: rest =>
    match Deduct cc key amount with
    | none => none
    | some cc1 => DeductAll cc1 rest

/-- The Go expression `c.used + c.remaining == c.initialAmount`. -/
def counterBalanced (c : Counter) : Prop :=
  wrapInt (c.used + c.remaining) = c.initialAmount

instance (c : Counter) : Decidable (counterBalanced c) := by
  unfold counterBalanced; infer_instance

/-- Every one of the seven dimensions is present and balanced. -/
def ledgerBalanced (cc : CounterCollector) : Prop :=
  ∀ d ∈ dimensions, ∃ c, cc.counters d = some c ∧ counterBalanced c

end ZkCounters


namespace Verifier

open Go

/-! ## Values shared by the verifier packages -/

/-- A 32-byte hash, as a number. -/
abbrev Hash := Nat

/-- The Go struct `VerifierRequest`, with the fields the stage code reads
(`BlockNumber` is passed to `NewVerifierRequest` and copied by `syncPromise`). -/
structure VerifierRequest where
  BatchNumber : Nat
  BlockNumber : Nat
  ForkId : Nat
  StateRoot : Hash
  CheckCount : Int
  Counters : List (String × Int)
deriving DecidableEq, Repr

/-- The Go struct `VerifierResponse`, with the fields `syncPromise` sets. -/
structure VerifierResponse where
  BatchNumber : Nat
  BlockNumber : Nat
  Valid : Bool
  OriginalCounters : List (String × Int)
  Witness : Option (List Nat)
  ExecutorResponse : Option Nat
  Error : Option GoError
deriving DecidableEq, Repr

/-- The Go struct `VerifierBundle`. -/
structure VerifierBundle where
  Request : VerifierRequest
  Response : Option VerifierResponse
deriving DecidableEq, Repr

/-- The Go struct `VerifierBundleWithBlocks`. -/
structure VerifierBundleWithBlocks where
  Blocks : List Nat
  Bundle : VerifierBundle
deriving DecidableEq, Repr

/-- Modelled from the spec: the constructor `NewVerifierRequest`, whose body is
not in the source tree; it is "created once per closed batch" from the five
values passed by `AddNewCheck`, with the redispatch counter at zero. -/
def NewVerifierRequest (batchNumber blockNumber forkId : Nat) (stateRoot : Hash)
    (counters : List (String × Int)) : VerifierRequest :=
  { BatchNumber := batchNumber, BlockNumber := blockNumber, ForkId := forkId,
    StateRoot := stateRoot, CheckCount := 0, Counters := counters }

/-- Modelled from the spec: the constructor `NewVerifierBundle`, whose body is
not in the source tree; a bundle is `{Request, Response}`. -/
def NewVerifierBundle (request : VerifierRequest) (response : Option VerifierResponse) :
    VerifierBundle :=
  { Request := request, Response := response }

/-- Modelled from the spec: the generic `Promise[T]`, whose file is not in the
source tree.  The source builds one with the literal
`Promise{result: response, err: nil}`; a promise that is still pending holds
neither a result nor an error. -/
structure Promise (T : Type) where
  result : Option T
  err : Option GoError
deriving DecidableEq, Repr

namespace Promise

/-- Modelled from the spec: "non-blocking poll returns (nil, nil) while
pending; returns the memoized (result, err) once settled". -/
def TryGet {T : Type} (p : Promise T) : Option T × Option GoError :=
  (p.result, p.err)

/-- A promise whose work has not finished. -/
def pending {T : Type} : Promise T :=
  { result := none, err := none }

/-- A promise settled with what its function returned. -/
def settled {T : Type} (r : Option T × Option GoError) : Promise T :=
  { result := r.1, err := r.2 }

end Promise

/-- Modelled from the spec: `NewPromiseSync`, whose body is not in the source
tree: "a synchronous variant executes eagerly and is immediately resolved". -/
def NewPromiseSync {T : Type} (f : Unit → Option T × Option GoError) : Promise T :=
  Promise.settled (f ())

/-! ## `zk/stages/stage_sequence_execute_verifier.go` -/

/-- The Go struct `PromiseWithBlocks`. -/
structure PromiseWithBlocks where
  Promise : Promise VerifierBundleWithBlocks
  Blocks : List Nat
deriving DecidableEq, Repr

/-- What `BatchVerifier` calls but the source tree does not define: the
staleness test `VerifierRequest.IsOverdue` and the dispatcher's
`LegacyExecutorVerifier.CreateAsyncPromise`. -/
structure VerifierDeps where
  IsOverdue : VerifierRequest → Bool
  CreateAsyncPromise : VerifierRequest → List Nat → Promise VerifierBundleWithBlocks

/-- The Go struct `BatchVerifier` (the mutex, the channel and the condition
variable carry no data). -/
structure BatchVerifier where
  hasExecutor : Bool
  forkId : Nat
  promises : List PromiseWithBlocks
deriving DecidableEq, Repr

/-- The Go function `NewBatchVerifier`. -/
def NewBatchVerifier (hasExecutors : Bool) (forkId : Nat) : BatchVerifier :=
  { hasExecutor := hasExecutors, forkId := forkId, promises := [] }

/-- The Go method `BatchVerifier.syncPromise`. -/
def syncPromise (request : VerifierRequest) (blockNumbers : List Nat) : PromiseWithBlocks :=
  let valid := true
  let promise := NewPromiseSync (fun _ =>
    let response : VerifierResponse :=
      { BatchNumber := request.BatchNumber
        BlockNumber := request.BlockNumber
        Valid := valid
        OriginalCounters := request.Counters
        Witness := none
        ExecutorResponse := none
        Error := none }
    let bundle := NewVerifierBundle request (some response)
    ((some { Blocks := blockNumbers, Bundle := bundle } : Option VerifierBundleWithBlocks), none))
  { Blocks := blockNumbers, Promise := promise }

/-- The Go method `BatchVerifier.asyncPromise`. -/
def asyncPromise (deps : VerifierDeps) (request : VerifierRequest) (blockNumbers : List Nat) :
    PromiseWithBlocks :=
  let promise := deps.CreateAsyncPromise request blockNumbers
  { Blocks := blockNumbers, Promise := promise }

/-- The Go method `BatchVerifier.appendPromise`. -/
def appendPromise (bv : BatchVerifier) (promise : PromiseWithBlocks) : BatchVerifier :=
  { bv with promises := bv.promises ++ [promise] }

/-- The Go method `BatchVerifier.AddNewCheck`. -/
def AddNewCheck (deps : VerifierDeps) (bv : BatchVerifier) (batchNumber blockNumber : Nat)
    (stateRoot : Hash) (counters : List (String × Int)) (blockNumbers : List Nat) : BatchVerifier :=
  let request := NewVerifierRequest batchNumber blockNumber bv.forkId stateRoot counters
  let promise :=
    if bv.hasExecutor then asyncPromise deps request blockNumbers
    else syncPromise request blockNumbers
  appendPromise bv promise

/-- The Go method `BatchVerifier.removeProcessedPromises`: the new queue and
the returned count. -/
def removeProcessedPromises (bv : BatchVerifier) (processed : Nat) : BatchVerifier × Nat :=
  let count := bv.promises.length
  if processed = 0 then (bv, count)
  else if processed = bv.promises.length then ({ bv with promises := [] }, 0)
  else
    let bv1 := { bv with promises := bv.promises.drop processed }
    (bv1, bv1.promises.length)

/-- How the `for ... range bv.promises` loop of `CheckProgress` ends. -/
inductive LoopExit where
  | finished (processed : Nat) (responses : List VerifierBundle) (promises : List PromiseWithBlocks)
  | overdue (err : GoError)
  | panicked (msg : String)
deriving DecidableEq, Repr

/-- The loop of `CheckProgress`: `rest` is what `range` has still to visit,
`idx` the index of its head, `promises` the slice `bv.promises`.  The slice is
written only by the re-queue branch, which breaks right after. -/
def checkLoop (deps : VerifierDeps) (hasExecutor : Bool) (promises : List PromiseWithBlocks) :
    List PromiseWithBlocks → Nat → Nat → List VerifierBundle → LoopExit
  | [], _, processed, responses => .finished processed responses promises
  | promise :: rest, idx, processed, responses =>
    match promise.Promise.TryGet with
    | (none, none) => .finished processed responses promises
    | (bundleWithBlocks, some err) =>
      if errorsIs err .ErrPromiseCancelled then .panicked "this should never happen"
      else
        match bundleWithBlocks with
        | none => .finished processed responses promises
        | some bwb =>
          if deps.IsOverdue bwb.Bundle.Request then
            .overdue (.errorf ("error: batch " ++ toString bwb.Bundle.Request.BatchNumber ++
              " couldn't be processed in 30 minutes"))
          else if hasExecutor then
            let prom := asyncPromise deps bwb.Bundle.Request bwb.Blocks
            .finished processed responses (promises.set idx prom)
          else
            let prom := syncPromise bwb.Bundle.Request bwb.Blocks
            .finished processed responses (promises.set idx prom)
    | (some bwb, none) =>
      checkLoop deps hasExecutor promises rest (idx + 1) (processed + 1) (responses ++ [bwb.Bundle])

/-- What a call of `CheckProgress` gives back to its caller. -/
inductive CheckOutcome where
  | returned (responses : List VerifierBundle) (remaining : Nat) (err : Option GoError)
  | panicked (msg : String)
deriving DecidableEq, Repr

/-- The Go method `BatchVerifier.CheckProgress`: the outcome and the verifier
after the call. -/
def CheckProgress (deps : VerifierDeps) (bv : BatchVerifier) : CheckOutcome × BatchVerifier :=
  match checkLoop deps bv.hasExecutor bv.promises bv.promises 0 0 [] with
  | .panicked msg => (.panicked msg, bv)
  | .overdue err => (.returned [] 0 (some err), bv)
  | .finished processed responses promises =>
    let r := removeProcessedPromises { bv with promises := promises } processed
    (.returned responses r.2 none, r.1)

/-- The bundle that the walk of `CheckProgress` takes from an entry: the one
its promise resolved with, when it resolved with a result and no error. -/
def okBundle (p : PromiseWithBlocks) : Option VerifierBundle :=
  match p.Promise.TryGet with
  | (some bwb, none) => some bwb.Bundle
  | _ => none

/-- The promise that the re-queue branch of `CheckProgress` builds for a
request and its block numbers. -/
def requeued (deps : VerifierDeps) (hasExecutor : Bool) (request : VerifierRequest)
    (blockNumbers : List Nat) : PromiseWithBlocks :=
  if hasExecutor then asyncPromise deps request blockNumbers
  else syncPromise request blockNumbers

/-- The arguments of one `AddNewCheck` call. -/
structure CheckArgs where
  batchNumber : Nat
  blockNumber : Nat
  stateRoot : Hash
  counters : List (String × Int)
  blockNumbers : List Nat
deriving DecidableEq, Repr

/-- A sequence of `AddNewCheck` calls, run from left to right. -/
def AddNewChecks (deps : VerifierDeps) (bv : BatchVerifier) : List CheckArgs → BatchVerifier
  | [] => bv
  | c :: rest =>
    AddNewChecks deps
      (AddNewCheck deps bv c.batchNumber c.blockNumber c.stateRoot c.counters c.blockNumbers) rest

/-- The bundle that `syncPromise` resolves with for the request that
`AddNewCheck` builds from its arguments: the request and a valid response
carrying the request's batch number, block number and counters. -/
def trustedBundle (forkId : Nat) (c : CheckArgs) : VerifierBundle :=
  let request := NewVerifierRequest c.batchNumber c.blockNumber forkId c.stateRoot c.counters
  { Request := request
    Response := some
      { BatchNumber := request.BatchNumber
        BlockNumber := request.BlockNumber
        Valid := true
        OriginalCounters := request.Counters
        Witness := none
        ExecutorResponse := none
        Error := none } }

/-! ### Sample queues -/

/-- A sample of the two collaborators: a request counts as overdue from its
third redispatch on, and a promise made by the dispatcher is still pending. -/
def sampleDeps : VerifierDeps :=
  { IsOverdue := fun request => decide (request.CheckCount ≥ 3)
    CreateAsyncPromise := fun _ _ => Promise.pending }

/-- A sample request for a batch, with a given redispatch count. -/
def sampleRequest (batch : Nat) (checkCount : Int) : VerifierRequest :=
  { NewVerifierRequest batch (10 * batch) 9 0 [] with CheckCount := checkCount }

/-- A queue entry whose promise resolved with a valid response. -/
def resolvedEntry (batch : Nat) : PromiseWithBlocks :=
  syncPromise (sampleRequest batch 0) [10 * batch]

/-- A queue entry whose promise is still pending. -/
def pendingEntry (batch : Nat) : PromiseWithBlocks :=
  { Promise := Promise.pending, Blocks := [10 * batch] }

/-- A queue entry whose promise resolved with a bundle and an error. -/
def failedEntry (batch : Nat) (checkCount : Int) (err : GoError) : PromiseWithBlocks :=
  { Promise := Promise.settled
      (some { Blocks := [10 * batch], Bundle := NewVerifierBundle (sampleRequest batch checkCount) none },
       some err)
    Blocks := [10 * batch] }

/-- A queue entry whose promise resolved with an error and no bundle. -/
def failedEntryNoBundle (batch : Nat) (err : GoError) : PromiseWithBlocks :=
  { Promise := Promise.settled (none, some err), Blocks := [10 * batch] }

/-- A verifier with an executor and the given queue. -/
def sampleVerifier (promises : List PromiseWithBlocks) : BatchVerifier :=
  { hasExecutor := true, forkId := 9, promises := promises }

end Verifier

namespace LegacyVerifier

open Go Verifier

/-! ## `zk/legacy_executor_verifier/legacy_executor_verifier.go` -/

/-- The Go struct `Payload`, with the fields `AddRequestUnsafe` sets. -/
structure Payload where
  Witness : List Nat
  DataStream : List Nat
  Coinbase : String
  OldAccInputHash : List Nat
  L1InfoRoot : Option (List Nat)
  TimestampLimit : Nat
  ForcedBlockhashL1 : List Nat
  ContextId : String
  L1InfoTreeMinTimestamps : List (Nat × Nat)
deriving DecidableEq, Repr

/-- One executor behind the Go interface `ILegacyExecutor`: `handle` is the
identity of the interface value, `CheckOnline` the answer of its liveness
probe (fixed while a call runs) and `Verify` its verification call, returning
the verdict, the executor's response and the error. -/
structure ILegacyExecutor where
  handle : Nat
  CheckOnline : Bool
  Verify : Payload → VerifierRequest → Hash → Bool × Option Nat × Option GoError

/-- The Go struct `LegacyExecutorVerifier`, with the fields the modelled
methods read or write. -/
structure LegacyExecutorVerifier where
  executors : List ILegacyExecutor
  executorNumber : Int
  promises : List (Promise VerifierResponse)
  addedBatches : List Nat

/-- The Go function `NewLegacyExecutorVerifier`. -/
def NewLegacyExecutorVerifier (executors : List ILegacyExecutor) : LegacyExecutorVerifier :=
  { executors := executors, executorNumber := 0, promises := [], addedBatches := [] }

/-- The Go method `LegacyExecutorVerifier.HasExecutors`. -/
def HasExecutors (v : LegacyExecutorVerifier) : Bool :=
  decide (v.executors.length > 0)

/-- The first two statements of the loop body of
`getNextOnlineAvailableExecutor`: `v.executorNumber++`, then
`if v.executorNumber >= len(v.executors) { v.executorNumber = 0 }`. -/
def advance (len : Nat) (executorNumber : Int) : Int :=
  let n1 := wrapInt (executorNumber + 1)
  if n1 ≥ (len : Int) then 0 else n1

/-- The `for i := 0; i < len(v.executors); i++` loop of
`getNextOnlineAvailableExecutor`, with the number of iterations left and the
current `v.executorNumber`.  The result is the executor found (if any) and the
new `v.executorNumber`; `none` is an index-out-of-range panic. -/
def nextOnlineLoop (executors : List ILegacyExecutor) :
    Nat → Int → Option (Option ILegacyExecutor × Int)
  | 0, executorNumber => some (none, executorNumber)
  | left + 1, executorNumber =>
    let n2 := advance executors.length executorNumber
    if n2 < 0 then none
    else
      match executors[n2.toNat]? with
      | none => none
      | some temp =>
        if temp.CheckOnline then some (some temp, n2)
        else nextOnlineLoop executors left n2

/-- The Go method `LegacyExecutorVerifier.getNextOnlineAvailableExecutor`. -/
def getNextOnlineAvailableExecutor (v : LegacyExecutorVerifier) :
    Option (Option ILegacyExecutor × LegacyExecutorVerifier) :=
  match nextOnlineLoop v.executors v.executors.length v.executorNumber with
  | none => none
  | some (exec, n) => some (exec, { v with executorNumber := n })

/-- The number of iterations after which the loop of
`getNextOnlineAvailableExecutor`, entered with `v.executorNumber = s` on a pool
of `n` executors, probes the executor at index `i`. -/
def probeTurn (n s i : Int) : Int :=
  if s < i then i - s else if s ≥ n then i + 1 else i - s + n

/-- A sample executor: only its handle and liveness matter. -/
def sampleExecutor (handle : Nat) (online : Bool) : ILegacyExecutor :=
  { handle := handle, CheckOnline := online, Verify := fun _ _ _ => (true, none, none) }

/-- A sample pool of three executors of which only the one at index 1 is
online, with the round-robin index at `executorNumber`. -/
def samplePool (executorNumber : Int) : LegacyExecutorVerifier :=
  { executors := [sampleExecutor 100 false, sampleExecutor 101 true, sampleExecutor 102 false]
    executorNumber := executorNumber, promises := [], addedBatches := [] }

/-- A sample pool of three executors that are all offline. -/
def offlinePool (executorNumber : Int) : LegacyExecutorVerifier :=
  { executors := [sampleExecutor 100 false, sampleExecutor 101 false, sampleExecutor 102 false]
    executorNumber := executorNumber, promises := [], addedBatches := [] }

/-- A block as read by `rawdb.ReadBlockByNumber`: its timestamp and root. -/
structure Block where
  Time : Nat
  Root : Hash
deriving DecidableEq, Repr

/-- The storage reads and the witness generator that `AddRequestUnsafe` calls;
each may fail with an error. -/
structure LegacyDeps where
  GetL2BlockNosByBatch : Nat → Except GoError (List Nat)
  getStreamBytes : VerifierRequest → List Nat → Except GoError (List Nat × List (Nat × Nat))
  GenerateWitness : Nat → Nat → Except GoError (List Nat)
  ReadBlockByNumber : Nat → Except GoError Block
  AddressSequencer : String

/-- What the function handed to `NewPromise` by `AddRequestUnsafe` captures. -/
structure VerifyTask where
  payload : Payload
  request : VerifierRequest
  witness : List Nat
  previousRoot : Hash
deriving DecidableEq, Repr

/-- The function handed to `NewPromise` by `AddRequestUnsafe`, run on the
verifier and on the package variable `counter`.  The result is what the
function returns, the verifier and `counter` afterwards; `none` is a panic. -/
def runVerifyTask (v : LegacyExecutorVerifier) (counter : Int) (t : VerifyTask) :
    Option ((Option VerifierResponse × Option GoError) × LegacyExecutorVerifier × Int) :=
  match getNextOnlineAvailableExecutor v with
  | none => none
  | some (none, v1) => some ((none, some .ErrNoExecutorAvailable), v1, counter)
  | some (some e, v1) =>
    let r := e.Verify t.payload t.request t.previousRoot
    let forced := t.request.BatchNumber == 3 && counter == 0
    let ok := if forced then false else r.1
    let counter1 := if forced then 1 else counter
    let response : VerifierResponse :=
      { BatchNumber := t.request.BatchNumber
        BlockNumber := 0
        Valid := ok
        OriginalCounters := []
        Witness := some t.witness
        ExecutorResponse := r.2.1
        Error := r.2.2 }
    some ((some response, none), v1, counter1)

/-- What `AddRequestUnsafe` leaves behind: the returned promise and error, the
function given to `NewPromise` when one was started, the request (whose
`CheckCount` the call may increment) and the verifier. -/
structure AddRequestResult where
  promise : Option (Promise VerifierResponse)
  err : Option GoError
  task : Option VerifyTask
  request : VerifierRequest
  verifier : LegacyExecutorVerifier

/-- The Go method `LegacyExecutorVerifier.AddRequestUnsafe`.  `NewPromise`
starts the function on a goroutine of its own, so the promise it returns is
pending at that point; it later settles with what `runVerifyTask` returns.
`ContextId` is `strconv.Itoa(int(request.BatchNumber))`, the decimal of the
batch number read as a signed 64-bit integer. -/
def AddRequestUnsafe (deps : LegacyDeps) (v : LegacyExecutorVerifier) (request : VerifierRequest) :
    AddRequestResult :=
  let fail (err : GoError) : AddRequestResult :=
    { promise := none, err := some err, task := none, request := request, verifier := v }
  if !HasExecutors v then
    let response : VerifierResponse :=
      { BatchNumber := request.BatchNumber
        BlockNumber := 0
        Valid := true
        OriginalCounters := []
        Witness := none
        ExecutorResponse := none
        Error := none }
    { promise := some { result := some response, err := none }, err := none, task := none,
      request := request, verifier := v }
  else
    match deps.GetL2BlockNosByBatch request.BatchNumber with
    | .error err => fail err
    | .ok blocks =>
      match blocks.head?, blocks.getLast? with
      | some first, some last =>
        match deps.getStreamBytes request blocks with
        | .error err => fail err
        | .ok (streamBytes, l1InfoTreeMinTimestamps) =>
          match deps.GenerateWitness first last with
          | .error err => fail err
          | .ok witness =>
            match deps.ReadBlockByNumber last with
            | .error err => fail err
            | .ok lastBlock =>
              let timestampLimit := lastBlock.Time
              let payload : Payload :=
                { Witness := witness
                  DataStream := streamBytes
                  Coinbase := deps.AddressSequencer
                  OldAccInputHash := List.replicate 32 0
                  L1InfoRoot := none
                  TimestampLimit := timestampLimit
                  ForcedBlockhashL1 := [0]
                  ContextId := toString (wrapInt (request.BatchNumber : Int))
                  L1InfoTreeMinTimestamps := l1InfoTreeMinTimestamps }
              match deps.ReadBlockByNumber (subOneU64 first) with
              | .error err => fail err
              | .ok previousBlock =>
                let task : VerifyTask :=
                  { payload := payload, request := request, witness := witness,
                    previousRoot := previousBlock.Root }
                let promise : Promise VerifierResponse := Promise.pending
                { promise := some promise, err := none, task := some task, request := request,
                  verifier := { v with addedBatches := v.addedBatches ++ [request.BatchNumber],
                                       promises := v.promises ++ [promise] } }
      | _, _ =>
        { promise := none, err := none, task := none,
          request := { request with CheckCount := wrapInt (request.CheckCount + 1) }, verifier := v }

end LegacyVerifier

namespace Rollback

open Go

/-! ## `zk/stages/stage_sequence_execute_utils.go`: `updateStreamAndCheckRollback` -/

/-- The Go struct `BlockStatus`. -/
structure BlockStatus where
  BlockNumber : Nat
  Valid : Bool
  Error : Option GoError
deriving DecidableEq, Repr

/-- A block header as read by `rawdb.ReadHeaderByNumber`: its root and what
`Hash()` returns for it. -/
structure Header where
  Root : Nat
  Hash : Nat
deriving DecidableEq, Repr

/-- The calls `updateStreamAndCheckRollback` makes on its collaborators, in the
order it makes them. -/
inductive Effect where
  | WriteJustUnwound (batchNumber : Nat)
  | WriteForkId (batchNumber forkId : Nat)
  | ReadHeaderByNumber (blockNumber : Nat)
  | Commit
  | UnwindTo (unwindPoint : Nat) (badBlock : Nat)
deriving DecidableEq, Repr

/-- The answers of the collaborators: the two `hermezDb` writes and the
transaction commit return an error or nil, the header read a header or nil. -/
structure RollbackDeps where
  WriteJustUnwound : Nat → Option GoError
  WriteForkId : Nat → Nat → Option GoError
  ReadHeaderByNumber : Nat → Option Header
  Commit : Option GoError

/-- The returned triple of `updateStreamAndCheckRollback` and the calls made. -/
structure RollbackResult where
  rolledBack : Bool
  remaining : Int
  err : Option GoError
  effects : List Effect
deriving DecidableEq, Repr

/-- The `for _, commit := range committed` loop of
`updateStreamAndCheckRollback`. -/
def rollbackLoop (deps : RollbackDeps) (batchNumber forkId : Nat) (remaining : Int) :
    List BlockStatus → RollbackResult
  | [] => { rolledBack := false, remaining := remaining, err := none, effects := [] }
  | commit :: rest =>
    if !commit.Valid then
      match deps.WriteJustUnwound batchNumber with
      | some err =>
        { rolledBack := false, remaining := 0, err := some err,
          effects := [.WriteJustUnwound batchNumber] }
      | none =>
        match deps.WriteForkId batchNumber forkId with
        | some err =>
          { rolledBack := false, remaining := 0, err := some err,
            effects := [.WriteJustUnwound batchNumber, .WriteForkId batchNumber forkId] }
        | none =>
          let unwindTo := subOneU64 commit.BlockNumber
          match deps.ReadHeaderByNumber commit.BlockNumber with
          | none =>
            { rolledBack := false, remaining := 0,
              err := some (.errorf ("could not find header for block " ++
                toString commit.BlockNumber)),
              effects := [.WriteJustUnwound batchNumber, .WriteForkId batchNumber forkId,
                .ReadHeaderByNumber commit.BlockNumber] }
          | some unwindHeader =>
            match deps.Commit with
            | some err =>
              { rolledBack := false, remaining := 0, err := some err,
                effects := [.WriteJustUnwound batchNumber, .WriteForkId batchNumber forkId,
                  .ReadHeaderByNumber commit.BlockNumber, .Commit] }
            | none =>
              { rolledBack := true, remaining := 0, err := none,
                effects := [.WriteJustUnwound batchNumber, .WriteForkId batchNumber forkId,
                  .ReadHeaderByNumber commit.BlockNumber, .Commit,
                  .UnwindTo unwindTo unwindHeader.Hash] }
    else rollbackLoop deps batchNumber forkId remaining rest

/-- The Go function `updateStreamAndCheckRollback`.  `committed`, `remaining`
and `commitErr` are what `streamWriter.CommitNewUpdates(forkId)` returned. -/
def updateStreamAndCheckRollback (deps : RollbackDeps) (committed : List BlockStatus)
    (remaining : Int) (commitErr : Option GoError) (batchNumber forkId : Nat) : RollbackResult :=
  match commitErr with
  | some err => { rolledBack := false, remaining := remaining, err := some err, effects := [] }
  | none => rollbackLoop deps batchNumber forkId remaining committed

/-- The `UnwindTo` calls among a list of effects. -/
def unwindCalls (effects : List Effect) : List (Nat × Nat) :=
  effects.filterMap (fun e =>
    match e with
    | .UnwindTo unwindPoint badBlock => some (unwindPoint, badBlock)
    | _ => none)

/-- Sample collaborators: every write and the commit succeed, and the header
of block `n` has root `n + 1000` and hash `n + 2000`. -/
def sampleRollbackDeps : RollbackDeps :=
  { WriteJustUnwound := fun _ => none
    WriteForkId := fun _ _ => none
    ReadHeaderByNumber := fun n => some { Root := n + 1000, Hash := n + 2000 }
    Commit := none }

end Rollback

namespace LegacyVerifier

/-- Sample storage for `AddRequestUnsafe`: batch `b` holds the blocks
`10 * b` and `10 * b + 1`, every read succeeds, and block `n` has the
timestamp `1000 + n`. -/
def sampleLegacyDeps : LegacyDeps :=
  { GetL2BlockNosByBatch := fun b => .ok [10 * b, 10 * b + 1]
    getStreamBytes := fun _ _ => .ok ([], [])
    GenerateWitness := fun _ _ => .ok []
    ReadBlockByNumber := fun n => .ok { Time := 1000 + n, Root := n }
    AddressSequencer := "0x0" }

/-- Successive calls of `getNextOnlineAvailableExecutor`: the executors
returned, in call order, and the verifier after the last call; `none` is a
panic of one of the calls. -/
def selectTimes : Nat → LegacyExecutorVerifier →
    Option (List (Option ILegacyExecutor) × LegacyExecutorVerifier)
  | 0, v => some ([], v)
  | calls + 1, v =>
    match getNextOnlineAvailableExecutor v with
    | none => none
    | some (exec, v1) =>
      match selectTimes calls v1 with
      | none => none
      | some (execs, v2) => some (exec :: execs, v2)

/-- The pool index that the `j`-th of a run of calls (counted from 1) lands
on when every executor is online and the run starts from index `s` in a pool
of `n`: `(s + j) mod n`. -/
def turnIndex (n s j : Nat) : Nat := (s + j) % n

/-- A sample pool of three executors that are all online. -/
def onlinePool (executorNumber : Int) : LegacyExecutorVerifier :=
  { executors := [sampleExecutor 100 true, sampleExecutor 101 true, sampleExecutor 102 true]
    executorNumber := executorNumber, promises := [], addedBatches := [] }

end LegacyVerifier

namespace BlockData

open Go

/-! ## `zk/stages/stage_sequence_execute_utils.go`: `BlockDataChecker` -/

/-- The Go constant `LIMIT_120_KB`. -/
def LIMIT_120_KB : Nat := 120000

/-- The Go struct `BlockDataChecker`; both fields are `uint64`. -/
structure BlockDataChecker where
  limit : Nat
  counter : Nat
deriving DecidableEq, Repr

/-- The Go function `NewBlockDataChecker`. -/
def NewBlockDataChecker : BlockDataChecker :=
  { limit := LIMIT_120_KB, counter := 0 }

/-- The Go method `BlockDataChecker.AddBlockStartData`: the returned flag and
the checker after the call.  `startSize` is the constant
`tx.START_BLOCK_BATCH_L2_DATA_SIZE`, which the source tree does not define;
the two arguments of the method are not read by its body. -/
def AddBlockStartData (startSize : Nat) (bdc : BlockDataChecker)
    (_deltaTimestamp _l1InfoTreeIndex : Nat) : Bool × BlockDataChecker :=
  let blockStartBytesAmount := startSize
  if wrapU64 (bdc.counter + blockStartBytesAmount) > bdc.limit then (true, bdc)
  else (false, { bdc with counter := wrapU64 (bdc.counter + blockStartBytesAmount) })

/-- The Go method `BlockDataChecker.AddTransactionData`: the returned flag and
the checker after the call. -/
def AddTransactionData (bdc : BlockDataChecker) (txL2Data : List Nat) : Bool × BlockDataChecker :=
  let encodedLen := wrapU64 txL2Data.length
  if wrapU64 (bdc.counter + encodedLen) > bdc.limit then (true, bdc)
  else (false, { bdc with counter := wrapU64 (bdc.counter + encodedLen) })

/-- One call on a checker. -/
inductive CheckerCall where
  | blockStart (deltaTimestamp l1InfoTreeIndex : Nat)
  | transaction (txL2Data : List Nat)
deriving DecidableEq, Repr

/-- A sequence of calls on a checker, run from left to right, the returned
flags dropped. -/
def runCalls (startSize : Nat) (bdc : BlockDataChecker) : List CheckerCall → BlockDataChecker
  | [] => bdc
  | .blockStart deltaTimestamp l1InfoTreeIndex :: rest =>
    runCalls startSize (AddBlockStartData startSize bdc deltaTimestamp l1InfoTreeIndex).2 rest
  | .transaction txL2Data :: rest =>
    runCalls startSize (AddTransactionData bdc txL2Data).2 rest

/-- The length of the slice that a call passes. -/
def sliceLen (call : CheckerCall) : Nat :=
  match call with
  | .blockStart _ _ => 0
  | .transaction txL2Data => txL2Data.length

end BlockData

namespace VerifyStage

open Go Verifier

/-! ## `zk/stages/stage_sequencer_executor_verify.go` -/

/-- The collaborators of `SpawnSequencerExecutorVerifyStage`: the transaction
it may open and commit, the two stage progress reads, the responses the
verifier hands back from `GetAllResponses` (a method the source tree does not
define), the progress write and the batch lookup. -/
structure VerifyStageDeps where
  BeginRw : Option GoError
  GetStageProgressSequenceExecutorVerify : Except GoError Nat
  GetAllResponses : List VerifierResponse
  SaveStageProgress : Nat → Option GoError
  GetStageProgressIntermediateHashes : Except GoError Nat
  GetBatchNoByL2Block : Nat → Except GoError Nat
  Commit : Option GoError

/-- The calls that change something outside the function, in the order the
function makes them.  `SaveStageProgress` is listed when the write succeeded
and `SaveStageProgressFailed` when it returned an error. -/
inductive StageEffect where
  | SaveStageProgress (batchNumber : Nat)
  | SaveStageProgressFailed (batchNumber : Nat)
  | RemoveResponse (batchNumber : Nat)
  | AddRequest (batchNumber : Nat)
  | Commit
  | Rollback
deriving DecidableEq, Repr

/-- How the `for _, response := range responses` loop ends: it ran to the end
of the slice, it hit `return nil`, or it hit `return err`. -/
inductive VerifyLoopExit where
  | completed
  | stopped
  | failed (err : GoError)
deriving DecidableEq, Repr

/-- The state of the loop when it ends. -/
structure VerifyLoopResult where
  exit : VerifyLoopExit
  progress : Nat
  effects : List StageEffect
deriving DecidableEq, Repr

/-- The `for _, response := range responses` loop of
`SpawnSequencerExecutorVerifyStage`.  The body of `if !response.Valid` holds
comments only. -/
def verifyLoop (deps : VerifyStageDeps) :
    Nat → List StageEffect → List VerifierResponse → VerifyLoopResult
  | progress, effects, [] => { exit := .completed, progress := progress, effects := effects }
  | progress, effects, response :: rest =>
    if response.BatchNumber ≠ wrapU64 (progress + 1) then
      { exit := .stopped, progress := progress, effects := effects }
    else
      let effects1 := if !response.Valid then effects else effects
      match deps.SaveStageProgress response.BatchNumber with
      | some err =>
        { exit := .failed err, progress := progress,
          effects := effects1 ++ [.SaveStageProgressFailed response.BatchNumber] }
      | none =>
        verifyLoop deps response.BatchNumber
          (effects1 ++ [.SaveStageProgress response.BatchNumber,
            .RemoveResponse response.BatchNumber]) rest

/-- The call `sort.Slice(responses, less)` with `less` comparing batch
numbers: the responses in ascending order of batch number.  (Go does not fix
the order of responses with equal batch numbers; the loop reads only the
batch numbers.) -/
def sortResponses (responses : List VerifierResponse) : List VerifierResponse :=
  responses.insertionSort (fun a b => a.BatchNumber ≤ b.BatchNumber)

/-- What `SpawnSequencerExecutorVerifyStage` returns and the calls it made. -/
structure VerifyStageResult where
  err : Option GoError
  effects : List StageEffect
deriving DecidableEq, Repr

/-- The effects of the deferred `tx.Rollback()`, which runs at every return
once the function has opened a transaction of its own. -/
def deferred (freshTx : Bool) : List StageEffect :=
  if freshTx then [.Rollback] else []

/-- The Go function `SpawnSequencerExecutorVerifyStage`; `freshTx` is
`tx == nil`.  The last loop, `for batch := progress + 1; batch <= intersBatch;
batch++`, is embedded for `intersBatch` below the largest `uint64`. -/
def SpawnSequencerExecutorVerifyStage (deps : VerifyStageDeps) (freshTx : Bool) :
    VerifyStageResult :=
  match (if freshTx then deps.BeginRw else none) with
  | some err => { err := some err, effects := [] }
  | none =>
    match deps.GetStageProgressSequenceExecutorVerify with
    | .error err => { err := some err, effects := deferred freshTx }
    | .ok progress =>
      let responses := sortResponses deps.GetAllResponses
      let r := verifyLoop deps progress [] responses
      match r.exit with
      | .stopped => { err := none, effects := r.effects ++ deferred freshTx }
      | .failed err => { err := some err, effects := r.effects ++ deferred freshTx }
      | .completed =>
        match deps.GetStageProgressIntermediateHashes with
        | .error err => { err := some err, effects := r.effects ++ deferred freshTx }
        | .ok intersProgress =>
          match deps.GetBatchNoByL2Block intersProgress with
          | .error err => { err := some err, effects := r.effects ++ deferred freshTx }
          | .ok intersBatch =>
            let requests :=
              (List.range' (r.progress + 1) (intersBatch - r.progress)).map StageEffect.AddRequest
            if freshTx then
              match deps.Commit with
              | some err =>
                { err := some err, effects := r.effects ++ requests ++ [.Commit, .Rollback] }
              | none => { err := none, effects := r.effects ++ requests ++ [.Commit, .Rollback] }
            else { err := none, effects := r.effects ++ requests }

/-- The batch numbers that a run of the function wrote as stage progress, in
the order of the writes. -/
def savedProgress (effects : List StageEffect) : List Nat :=
  effects.filterMap (fun e =>
    match e with
    | .SaveStageProgress n => some n
    | _ => none)

/-- The batch numbers of the responses that a run of the function released,
in the order of the calls. -/
def releasedResponses (effects : List StageEffect) : List Nat :=
  effects.filterMap (fun e =>
    match e with
    | .RemoveResponse n => some n
    | _ => none)

/-- A response for a batch, valid or not. -/
def sampleResponse (batch : Nat) (valid : Bool) : VerifierResponse :=
  { BatchNumber := batch, BlockNumber := 0, Valid := valid, OriginalCounters := [],
    Witness := none, ExecutorResponse := none, Error := none }

/-- Sample collaborators: the stored progress is `progress`, every read and
write succeeds, and the intermediate hashes stage is at the batch of the
stored progress, so that no new request is sent. -/
def sampleStageDeps (progress : Nat) (responses : List VerifierResponse) : VerifyStageDeps :=
  { BeginRw := none
    GetStageProgressSequenceExecutorVerify := .ok progress
    GetAllResponses := responses
    SaveStageProgress := fun _ => none
    GetStageProgressIntermediateHashes := .ok 0
    GetBatchNoByL2Block := fun _ => .ok 0
    Commit := none }

end VerifyStage

namespace VerifyStage

/-- The calls by which the loop consumes the `k` responses for the batches
`p + 1, ..., p + k`: for each batch the progress write, then the release. -/
def consumed (p k : Nat) : List StageEffect :=
  (List.range' (p + 1) k).flatMap (fun n => [.SaveStageProgress n, .RemoveResponse n])

end VerifyStage

namespace Sequencer

open Go

/-! ## `zk/stages/stage_sequence_execute.go`: the block loop of `SpawnSequencingStage` -/

/-- A transaction: what `Hash()` returns for it and its content. -/
structure Transaction where
  hash : Nat
  data : List Nat
deriving DecidableEq, Repr

/-- A receipt, as returned by `attemptAddTransaction`. -/
abbrev Receipt := Nat

/-- The Go struct `types.Header`: the six fields that the re-run of a block
copies, and `Rest` for all the others, which the copy leaves at zero. -/
structure Header where
  ParentHash : Nat
  Coinbase : Nat
  Difficulty : Nat
  Number : Nat
  GasLimit : Nat
  Time : Nat
  Rest : Nat
deriving DecidableEq, Repr

/-- The Go struct `zktx.DecodedBatchL2Data`, with the fields the loop reads. -/
structure DecodedBatchL2Data where
  Transactions : List Transaction
  EffectiveGasPricePercentages : List Nat
  DeltaTimestamp : Nat
  L1InfoTreeIndex : Nat
deriving DecidableEq, Repr

/-- What `prepareL1AndInfoTreeRelatedStuff` returns. -/
structure L1Stuff where
  infoTreeIndexProgress : Nat
  l1TreeUpdate : Option Nat
  l1TreeUpdateIndex : Nat
  l1BlockHash : Nat
  ger : Nat
  shouldWriteGerToContract : Bool
deriving DecidableEq, Repr

/-- The functions that the block loop calls and the source tree does not
define, or defines in another file.  `ω` is everything they read and write
outside the loop's own variables (the database transaction, the intra-block
state, the pool) and `κ` is a batch counter collector.  A call returns an
error or its results with the new state. -/
structure SeqDeps (ω κ : Type) where
  prepareHeader : ω → Nat → Nat → Nat → Nat → Except GoError (Header × Nat)
  prepareL1AndInfoTreeRelatedStuff : ω → DecodedBatchL2Data → Bool → Except GoError (L1Stuff × ω)
  StartNewBlock : κ → κ
  stateNew : ω → ω
  handleStateForNewBlockStarting : ω → Nat → Nat → L1Stuff → Except GoError ω
  getNextPoolTransactions : ω → List Nat → Except GoError (List Transaction × ω × List Nat)
  DeriveEffectiveGasPrice : Transaction → Nat
  attemptAddTransaction :
    ω → κ → Header → Transaction → Nat → Bool → Except GoError (Receipt × Bool × ω × κ)
  WriteBlockL1InfoTreeIndex : ω → Nat → Nat → Except GoError ω
  doFinishBlockAndUpdateState :
    ω → Header → List Transaction → List Receipt → L1Stuff → Except GoError ω

/-- The values fixed before the block loop starts. -/
structure StageCfg where
  l1Recovery : Bool
  workRemaining : Bool
  decodedBlocks : List DecodedBatchL2Data
  forkId : Nat
  coinbase : Nat
deriving DecidableEq, Repr

/-- The variables that the transaction loop of one block reads and writes. -/
structure BlockState (ω κ : Type) where
  world : ω
  batchCounters : κ
  addedTransactions : List Transaction
  addedReceipts : List Receipt
  yielded : List Nat
  overflow : Bool

/-- The statement `for ; i < txSize; i++ { yielded.Remove(transaction.Hash()) }`
with the number of iterations it makes: every iteration removes the hash
of the same transaction, the one that overflowed. -/
def removeFromYielded (yielded : List Nat) (hash : Nat) : Nat → List Nat
  | 0 => yielded
  | iterations + 1 => removeFromYielded (yielded.filter (fun h => h != hash)) hash iterations

/-- How the loop `for i, transaction := range blockTransactions` ends. -/
inductive TxLoopExit (ω κ : Type) where
  | completed (st : BlockState ω κ)
  | overflowed (st : BlockState ω κ)
  | returned (err : GoError)
  | panicked (msg : String)

/-- The loop `for i, transaction := range blockTransactions` of the first run
of a block: `txSize` is `len(blockTransactions)`, the list is what `range`
has still to visit and `i` the index of its head. -/
def txLoop {ω κ : Type} (deps : SeqDeps ω κ) (cfg : StageCfg) (header : Header)
    (effectiveGases : List Nat) (txSize : Nat) :
    List Transaction → Nat → BlockState ω κ → TxLoopExit ω κ
  | [], _, st => .completed st
  | transaction :: rest, i, st =>
    match (if cfg.l1Recovery then effectiveGases[i]?
           else some (deps.DeriveEffectiveGasPrice transaction)) with
    | none => .panicked "index out of range"
    | some effectiveGas =>
      match deps.attemptAddTransaction st.world st.batchCounters header transaction effectiveGas
          cfg.l1Recovery with
      | .error err => .returned err
      | .ok (receipt, overflow, world1, counters1) =>
        if !cfg.l1Recovery && overflow then
          if st.addedTransactions.length == 0 then
            .returned (.errorf ("single transaction " ++ toString transaction.hash ++
              " overflow counters"))
          else
            .overflowed
              { world := world1, batchCounters := counters1
                addedTransactions := st.addedTransactions
                addedReceipts := st.addedReceipts
                yielded := removeFromYielded st.yielded transaction.hash (txSize - i)
                overflow := overflow }
        else
          txLoop deps cfg header effectiveGases txSize rest (i + 1)
            { world := world1, batchCounters := counters1
              addedTransactions := st.addedTransactions ++ [transaction]
              addedReceipts := st.addedReceipts ++ [receipt]
              yielded := st.yielded
              overflow := overflow }

/-- The case that one iteration of `select` runs.  Which channel is ready is
decided by the clock and the scheduler, so the cases come as an input. -/
inductive SelectCase where
  | ctxDone
  | logTicker
  | blockTicker
  | batchTicker
  | default
deriving DecidableEq, Repr

/-- How the loop `LOOP_TRANSACTIONS` ends: by a `break` out of it (with the
value of `runLoopBlocks` and the cases not yet used), by a `return`, by a
panic, or not at all within the given cases. -/
inductive WaitExit (ω κ : Type) where
  | broke (st : BlockState ω κ) (runLoopBlocks : Bool) (blockTransactions : List Transaction)
      (events : List SelectCase)
  | returned (err : Option GoError)
  | panicked (msg : String)
  | waiting

/-- The loop `LOOP_TRANSACTIONS: for { select { ... } }`. -/
def waitLoop {ω κ : Type} (deps : SeqDeps ω κ) (cfg : StageCfg) (header : Header)
    (effectiveGases : List Nat) :
    List SelectCase → List Transaction → BlockState ω κ → WaitExit ω κ
  | [], _, _ => .waiting
  | .ctxDone :: _, _, _ => .returned none
  | .logTicker :: events, blockTransactions, st =>
    waitLoop deps cfg header effectiveGases events blockTransactions st
  | .blockTicker :: events, blockTransactions, st => .broke st true blockTransactions events
  | .batchTicker :: events, blockTransactions, st => .broke st false blockTransactions events
  | .default :: events, blockTransactions, st =>
    let polled : Except GoError (List Transaction × BlockState ω κ) :=
      if !cfg.l1Recovery then
        match deps.getNextPoolTransactions st.world st.yielded with
        | .error err => .error err
        | .ok (txs, world1, yielded1) => .ok (txs, { st with world := world1, yielded := yielded1 })
      else .ok (blockTransactions, st)
    match polled with
    | .error err => .returned (some err)
    | .ok (txs, st1) =>
      match txLoop deps cfg header effectiveGases txs.length txs 0 st1 with
      | .returned err => .returned (some err)
      | .panicked msg => .panicked msg
      | .overflowed st2 => .broke st2 true txs events
      | .completed st2 =>
        if cfg.l1Recovery then
          if txs.length == 0 && !cfg.workRemaining then
            waitLoop deps cfg header effectiveGases events txs st2
          else .broke st2 false txs events
        else waitLoop deps cfg header effectiveGases events txs st2

/-- How the loop over `addedTransactions` in the re-run of a block ends. -/
inductive RerunExit (ω κ : Type) where
  | completed (world : ω) (batchCounters : κ) (addedReceipts : List Receipt)
  | returned (err : GoError)
  | panicked (msg : String)

/-- The loop `for idx, transaction := range addedTransactions` of the re-run
of a block after an overflow. -/
def rerunLoop {ω κ : Type} (deps : SeqDeps ω κ) (header : Header) :
    List Transaction → Nat → ω → κ → List Receipt → RerunExit ω κ
  | [], _, world, counters, receipts => .completed world counters receipts
  | transaction :: rest, idx, world, counters, receipts =>
    let effectiveGas := deps.DeriveEffectiveGasPrice transaction
    match deps.attemptAddTransaction world counters header transaction effectiveGas false with
    | .error err => .returned err
    | .ok (receipt, innerOverflow, world1, counters1) =>
      if innerOverflow then
        .panicked ("overflowed twice during execution while adding tx with index " ++
          toString idx)
      else if idx < receipts.length then
        rerunLoop deps header rest (idx + 1) world1 counters1 (receipts.set idx receipt)
      else .panicked "index out of range"

/-- A call of `doFinishBlockAndUpdateState` that succeeded: the block and what
it was finished with. -/
structure FinishedBlock where
  blockNumber : Nat
  transactions : List Transaction
  receipts : List Receipt
deriving DecidableEq, Repr

/-- The variables of `SpawnSequencingStage` that live across iterations of the
block loop, with the state outside (`world`), the `select` cases still to
come and the blocks finished so far. -/
structure LoopVars (ω κ : Type) where
  bn : Nat
  lastStartedBn : Nat
  header : Option Header
  parentBlock : Option Nat
  addedTransactions : List Transaction
  addedReceipts : List Receipt
  batchCounters : κ
  clonedBatchCounters : Option κ
  decodedBlock : DecodedBatchL2Data
  deltaTimestamp : Nat
  effectiveGases : List Nat
  blockTransactions : List Transaction
  yielded : List Nat
  blockTracking : Nat
  world : ω
  events : List SelectCase
  finished : List FinishedBlock

/-- How one iteration of the block loop ends: it reaches the end of the body
or a `continue` (then `bn++` and the test of `runLoopBlocks` follow), it
breaks out of the block loop, the function returns, it panics, or it is still
waiting in `LOOP_TRANSACTIONS` when the given cases are used up. -/
inductive IterExit (ω κ : Type) where
  | next (vars : LoopVars ω κ) (runLoopBlocks : Bool)
  | broke (vars : LoopVars ω κ)
  | returned (err : Option GoError) (finished : List FinishedBlock)
  | panicked (msg : String) (finished : List FinishedBlock)
  | waiting (finished : List FinishedBlock)

/-- The last statements of the body of the block loop, from
`WriteBlockL1InfoTreeIndex` to `blockTracking++`. -/
def finishBlock {ω κ : Type} (deps : SeqDeps ω κ) (vars : LoopVars ω κ) (header : Header)
    (l1 : L1Stuff) (runLoopBlocks : Bool) : IterExit ω κ :=
  let thisBlockNumber := header.Number
  match deps.WriteBlockL1InfoTreeIndex vars.world thisBlockNumber l1.l1TreeUpdateIndex with
  | .error err => .returned (some err) vars.finished
  | .ok world1 =>
    match deps.doFinishBlockAndUpdateState world1 header vars.addedTransactions
        vars.addedReceipts l1 with
    | .error err => .returned (some err) vars.finished
    | .ok world2 =>
      .next
        { vars with
          world := world2
          finished := vars.finished ++
            [{ blockNumber := thisBlockNumber, transactions := vars.addedTransactions,
               receipts := vars.addedReceipts }]
          blockTracking := vars.blockTracking + 1 }
        runLoopBlocks

/-- The body of the loop `for bn := executionAt; runLoopBlocks; bn++`, entered
with `runLoopBlocks` true.  A `continue` after `bn--` is the exit `next` with
`bn` one lower, so that the `bn++` that follows gives the same block again. -/
def blockIter {ω κ : Type} (deps : SeqDeps ω κ) (cfg : StageCfg) (vars0 : LoopVars ω κ) :
    IterExit ω κ :=
  if cfg.l1Recovery && decide (vars0.blockTracking ≥ cfg.decodedBlocks.length) then .broke vars0
  else
    let vars : LoopVars ω κ :=
      if cfg.l1Recovery then
        match cfg.decodedBlocks[vars0.blockTracking]? with
        | some decodedBlock =>
          { vars0 with
            decodedBlock := decodedBlock
            deltaTimestamp := decodedBlock.DeltaTimestamp
            effectiveGases := decodedBlock.EffectiveGasPricePercentages
            blockTransactions := decodedBlock.Transactions }
        | none => vars0
      else vars0
    let reRunBlockAfterOverflow := vars.bn == vars.lastStartedBn
    let vars := { vars with lastStartedBn := vars.bn }
    let prepared : Except GoError (Option Header × LoopVars ω κ) :=
      if !reRunBlockAfterOverflow then
        match deps.prepareHeader vars.world vars.bn vars.deltaTimestamp cfg.forkId cfg.coinbase with
        | .error err => .error err
        | .ok (header, parentBlock) =>
          .ok (some header,
            { vars with
              clonedBatchCounters := some vars.batchCounters
              addedTransactions := []
              addedReceipts := []
              header := some header
              parentBlock := some parentBlock })
      else
        match vars.clonedBatchCounters, vars.header with
        | some cloned, some header =>
          let copy : Header :=
            { ParentHash := header.ParentHash, Coinbase := header.Coinbase
              Difficulty := header.Difficulty, Number := header.Number
              GasLimit := header.GasLimit, Time := header.Time, Rest := 0 }
          .ok (some copy, { vars with batchCounters := cloned, header := some copy })
        | _, _ => .ok (none, vars)
    match prepared with
    | .error err => .returned (some err) vars.finished
    | .ok (none, vars) => .panicked "nil pointer dereference" vars.finished
    | .ok (some header, vars) =>
      let thisBlockNumber := header.Number
      match deps.prepareL1AndInfoTreeRelatedStuff vars.world vars.decodedBlock cfg.l1Recovery with
      | .error err => .returned (some err) vars.finished
      | .ok (l1, world1) =>
        let counters1 := deps.StartNewBlock vars.batchCounters
        let world2 := deps.stateNew world1
        match deps.handleStateForNewBlockStarting world2 thisBlockNumber header.Time l1 with
        | .error err => .returned (some err) vars.finished
        | .ok world3 =>
          let vars := { vars with world := world3, batchCounters := counters1 }
          if !reRunBlockAfterOverflow then
            let st : BlockState ω κ :=
              { world := vars.world, batchCounters := vars.batchCounters
                addedTransactions := vars.addedTransactions
                addedReceipts := vars.addedReceipts
                yielded := vars.yielded, overflow := false }
            match waitLoop deps cfg header vars.effectiveGases vars.events vars.blockTransactions
                st with
            | .waiting => .waiting vars.finished
            | .returned err => .returned err vars.finished
            | .panicked msg => .panicked msg vars.finished
            | .broke st1 runLoopBlocks blockTransactions events =>
              let vars :=
                { vars with
                  world := st1.world, batchCounters := st1.batchCounters
                  addedTransactions := st1.addedTransactions
                  addedReceipts := st1.addedReceipts
                  yielded := st1.yielded
                  blockTransactions := blockTransactions
                  events := events }
              if !cfg.l1Recovery && st1.overflow then
                .next { vars with bn := subOneU64 vars.bn } runLoopBlocks
              else finishBlock deps vars header l1 runLoopBlocks
          else
            match rerunLoop deps header vars.addedTransactions 0 vars.world vars.batchCounters
                vars.addedReceipts with
            | .returned err => .returned (some err) vars.finished
            | .panicked msg => .panicked msg vars.finished
            | .completed world4 counters4 receipts =>
              finishBlock deps
                { vars with world := world4, batchCounters := counters4, addedReceipts := receipts }
                header l1 false

/-- How the block loop ends. -/
inductive LoopExit (ω κ : Type) where
  | done (vars : LoopVars ω κ)
  | returned (err : Option GoError) (finished : List FinishedBlock)
  | panicked (msg : String) (finished : List FinishedBlock)
  | waiting (finished : List FinishedBlock)
  | outOfFuel

/-- The loop `for bn := executionAt; runLoopBlocks; bn++` of
`SpawnSequencingStage`, entered with `runLoopBlocks` true, for at most `fuel`
iterations. -/
def blockLoop {ω κ : Type} (deps : SeqDeps ω κ) (cfg : StageCfg) :
    Nat → LoopVars ω κ → LoopExit ω κ
  | 0, _ => .outOfFuel
  | fuel + 1, vars =>
    match blockIter deps cfg vars with
    | .broke vars1 => .done vars1
    | .returned err finished => .returned err finished
    | .panicked msg finished => .panicked msg finished
    | .waiting finished => .waiting finished
    | .next vars1 runLoopBlocks =>
      let vars2 := { vars1 with bn := wrapU64 (vars1.bn + 1) }
      if runLoopBlocks then blockLoop deps cfg fuel vars2 else .done vars2

/-- The variables as `SpawnSequencingStage` sets them before the block loop
(it returns before the loop when `executionAt` is 0). -/
def initialVars {ω κ : Type} (executionAt : Nat) (world : ω) (batchCounters : κ)
    (events : List SelectCase) : LoopVars ω κ :=
  { bn := executionAt
    lastStartedBn := subOneU64 executionAt
    header := none
    parentBlock := none
    addedTransactions := []
    addedReceipts := []
    batchCounters := batchCounters
    clonedBatchCounters := none
    decodedBlock := { Transactions := [], EffectiveGasPricePercentages := [],
                      DeltaTimestamp := 0, L1InfoTreeIndex := 0 }
    deltaTimestamp := 18446744073709551615
    effectiveGases := []
    blockTransactions := []
    yielded := []
    blockTracking := 0
    world := world
    events := events
    finished := [] }

/-! ### Sample pool and budget -/

/-- A sample transaction whose content has `size` bytes. -/
def sampleTx (hash size : Nat) : Transaction :=
  { hash := hash, data := List.replicate size 0 }

/-- Sample collaborators.  The state outside the loop is the content of the
pool and a batch counter collector is the budget left.  A poll yields the pool
transactions that are not yet in the yielded set and adds them to it; an
attempt reports an overflow when the transaction is larger than the budget
left, and otherwise spends its size and returns its hash as the receipt;
every other call succeeds, and the header of block `bn` has the number
`bn + 1`. -/
def sampleSeqDeps : SeqDeps (List Transaction) Nat :=
  { prepareHeader := fun _ bn _ _ coinbase =>
      .ok ({ ParentHash := bn, Coinbase := coinbase, Difficulty := 0, Number := bn + 1,
             GasLimit := 30000000, Time := 1000 + bn, Rest := 7 }, bn)
    prepareL1AndInfoTreeRelatedStuff := fun world _ _ =>
      .ok ({ infoTreeIndexProgress := 0, l1TreeUpdate := none, l1TreeUpdateIndex := 0,
             l1BlockHash := 0, ger := 0, shouldWriteGerToContract := false }, world)
    StartNewBlock := fun budget => budget
    stateNew := fun world => world
    handleStateForNewBlockStarting := fun world _ _ _ => .ok world
    getNextPoolTransactions := fun pool yielded =>
      .ok (pool.filter (fun t => !yielded.contains t.hash), pool,
           yielded ++ (pool.filter (fun t => !yielded.contains t.hash)).map (fun t => t.hash))
    DeriveEffectiveGasPrice := fun _ => 255
    attemptAddTransaction := fun world budget _ transaction _ _ =>
      if transaction.data.length > budget then .ok (0, true, world, budget)
      else .ok (transaction.hash, false, world, budget - transaction.data.length)
    WriteBlockL1InfoTreeIndex := fun world _ _ => .ok world
    doFinishBlockAndUpdateState := fun world _ _ _ _ => .ok world }

/-- Sequencing from the pool. -/
def poolCfg : StageCfg :=
  { l1Recovery := false, workRemaining := true, decodedBlocks := [], forkId := 9, coinbase := 1 }

/-- Recovery from L1 data of one block with the given transactions. -/
def recoveryCfg (transactions : List Transaction) : StageCfg :=
  { l1Recovery := true, workRemaining := false
    decodedBlocks := [{ Transactions := transactions
                        EffectiveGasPricePercentages := transactions.map (fun _ => 255)
                        DeltaTimestamp := 5, L1InfoTreeIndex := 0 }]
    forkId := 9, coinbase := 1 }

/-- The blocks finished when the block loop ended. -/
def LoopExit.finishedBlocks {ω κ : Type} : LoopExit ω κ → List FinishedBlock
  | .done vars => vars.finished
  | .returned _ finished => finished
  | .panicked _ finished => finished
  | .waiting finished => finished
  | .outOfFuel => []

/-- The yielded set when the block loop ran to its end. -/
def LoopExit.yieldedSet {ω κ : Type} : LoopExit ω κ → Option (List Nat)
  | .done vars => some vars.yielded
  | _ => none

/-- The error with which the function returned out of the block loop. -/
def LoopExit.returnedError {ω κ : Type} : LoopExit ω κ → Option GoError
  | .returned err _ => err
  | _ => none

end Sequencer

namespace LegacyVerifier

open Go Verifier

/-! ## `zk/legacy_executor_verifier/legacy_executor_verifier.go`: `ConsumeResultsUnsafe` -/

/-- Modelled from the spec: `Promise.GetNonBlocking`, whose file is not in the
source tree: the "non-blocking poll returns (nil, nil) while pending; returns
the memoized (result, err) once settled". -/
def GetNonBlocking {T : Type} (p : Promise T) : Option T × Option GoError :=
  (p.result, p.err)

/-- The storage read and the stream write that `writeBatchToStream` calls. -/
structure ConsumeDeps where
  GetL2BlockNosByBatch : Nat → Except GoError (List Nat)
  WriteBlocksToStream : Nat → Nat → Option GoError

/-- The Go method `LegacyExecutorVerifier.writeBatchToStream`: the error it
returns and the range of blocks it asked the stream server to write; `none`
is the index-out-of-range panic of `blks[0]` on an empty list. -/
def writeBatchToStream (deps : ConsumeDeps) (result : VerifierResponse) :
    Option (Option GoError × List (Nat × Nat)) :=
  match deps.GetL2BlockNosByBatch result.BatchNumber with
  | .error err => some (some err, [])
  | .ok blks =>
    match blks.head?, blks.getLast? with
    | some first, some last => some (deps.WriteBlocksToStream first last, [(first, last)])
    | _, _ => none

/-- The variables that the loop of `ConsumeResultsUnsafe` writes: `results`,
the set `v.addedBatches` and the stream writes requested so far. -/
structure ConsumeState where
  results : List (Option VerifierResponse)
  addedBatches : List Nat
  streamed : List (Nat × Nat)
deriving DecidableEq, Repr

/-- How the loop of `ConsumeResultsUnsafe` ends. -/
inductive ConsumeExit where
  | finished (st : ConsumeState)
  | panicked (msg : String) (st : ConsumeState)
deriving DecidableEq, Repr

/-- The loop `for _, promise := range v.promises` of `ConsumeResultsUnsafe`.
The errors are only logged.  After `results = append(results, result)` the
statement `delete(v.addedBatches, result.BatchNumber)` reads a field of
`result`, which is a nil pointer when the promise settled without one. -/
def consumeLoop (deps : ConsumeDeps) : List (Promise VerifierResponse) → ConsumeState → ConsumeExit
  | [], st => .finished st
  | promise :: rest, st =>
    match GetNonBlocking promise with
    | (none, none) => .finished st
    | (some result, _) =>
      match writeBatchToStream deps result with
      | none => .panicked "index out of range" st
      | some (_, calls) =>
        consumeLoop deps rest
          { results := st.results ++ [some result]
            addedBatches := st.addedBatches.filter (fun b => b != result.BatchNumber)
            streamed := st.streamed ++ calls }
    | (none, some _) =>
      .panicked "nil pointer dereference" { st with results := st.results ++ [none] }

/-- How `ConsumeResultsUnsafe` ends: it returns the results and the error, with
the verifier and the stream writes it made, or it panics. -/
inductive ConsumeOutcome where
  | returned (results : List (Option VerifierResponse)) (err : Option GoError)
      (v : LegacyExecutorVerifier) (streamed : List (Nat × Nat))
  | panicked (msg : String)

/-- The Go method `LegacyExecutorVerifier.ConsumeResultsUnsafe`. -/
def ConsumeResultsUnsafe (deps : ConsumeDeps) (v : LegacyExecutorVerifier) : ConsumeOutcome :=
  match consumeLoop deps v.promises
      { results := [], addedBatches := v.addedBatches, streamed := [] } with
  | .panicked msg _ => .panicked msg
  | .finished st =>
    .returned st.results none
      { v with promises := v.promises.drop st.results.length, addedBatches := st.addedBatches }
      st.streamed

/-- Whether a call of `ConsumeResultsUnsafe` panicked. -/
def ConsumeOutcome.isPanic : ConsumeOutcome → Bool
  | .panicked _ => true
  | .returned _ _ _ _ => false

/-- The results of a call of `ConsumeResultsUnsafe` that returned, and the
promises it left in the queue. -/
def ConsumeOutcome.view : ConsumeOutcome →
    Option (List (Option VerifierResponse) × List (Promise VerifierResponse))
  | .panicked _ => none
  | .returned results _ v _ => some (results, v.promises)

/-- Sample storage: batch `b` holds the blocks `10 b` and `10 b + 1`, and the
stream accepts every write. -/
def sampleConsumeDeps : ConsumeDeps :=
  { GetL2BlockNosByBatch := fun b => .ok [10 * b, 10 * b + 1]
    WriteBlocksToStream := fun _ _ => none }

/-- A sample payload. -/
def samplePayload : Payload :=
  { Witness := [], DataStream := [], Coinbase := "", OldAccInputHash := [],
    L1InfoRoot := none, TimestampLimit := 0, ForcedBlockhashL1 := [0],
    ContextId := "", L1InfoTreeMinTimestamps := [] }

/-- A sample verification task for the batch `batch`. -/
def sampleTask (batch : Nat) : VerifyTask :=
  { payload := samplePayload, request := sampleRequest batch 0, witness := [], previousRoot := 0 }

/-- What the promise of `AddRequestUnsafe` resolves with when its function is
run on the verifier `v` with the package variable `counter`: the `Valid` and
the `Error` of the response, and `counter` afterwards. -/
def verdictOf (v : LegacyExecutorVerifier) (counter : Int) (t : VerifyTask) :
    Option (Option (Bool × Option GoError) × Int) :=
  (runVerifyTask v counter t).map (fun r => (r.1.1.map (fun resp => (resp.Valid, resp.Error)), r.2.2))

end LegacyVerifier

namespace Sequencer

open Go

/-! ### The re-run of a block, in the words of the specification -/

end Sequencer

namespace ZkCounters

open Go

/-! ## `core/vm/zk_counters.go`: the cost helpers -/

/-- The integer nearest to the fraction `a / b`, the even one of the two when
`a / b` lies half way between them. -/
def roundHalfEven (a b : Nat) : Nat :=
  let q := a / b
  let r := a % b
  if 2 * r < b then q else if b < 2 * r then q + 1 else if q % 2 = 0 then q else q + 1

/-- The number of halvings that bring `n` down to 1, within `fuel` steps. -/
def halvings : Nat → Nat → Nat
  | 0, _ => 0
  | fuel + 1, n => if n ≤ 1 then 0 else halvings fuel (n / 2) + 1

/-- The binary logarithm of `n` rounded down (0 for 0). -/
def log2Floor (n : Nat) : Nat := halvings n n

/-- The `float64` nearest to the fraction `a / b` of two numbers (`b` not
zero), as a fraction: a significand of 53 bits, rounded half to even, times a
power of two.  The exponent `e` is chosen so that `a / b` lies between
`2 ^ 52` and `2 ^ 53` when divided by `2 ^ e`; the bounds of the exponent of a
`float64` are not reached by the values of the cost helpers. -/
def float64Of (a b : Nat) : Nat × Nat :=
  if a = 0 then (0, 1)
  else
    let k : Int := (log2Floor a : Int) - (log2Floor b : Int)
    let reached : Bool :=
      if 0 ≤ k then decide (b * 2 ^ k.toNat ≤ a) else decide (b ≤ a * 2 ^ (-k).toNat)
    let e : Int := (if reached then k else k - 1) - 52
    let m := roundHalfEven (a * 2 ^ (-e).toNat) (b * 2 ^ e.toNat)
    (m * 2 ^ e.toNat, 2 ^ (-e).toNat)

/-- The Go conversion `float64(n)` of an integer, which is an integer again. -/
def float64Int (n : Int) : Int :=
  n.sign * (((float64Of n.natAbs 1).1 / (float64Of n.natAbs 1).2 : Nat) : Int)

/-- The `float64` quotient `float64(n) / d` for a positive constant `d`, as
its sign and the fraction that is its absolute value. -/
def float64Quotient (n d : Int) : Int × Nat × Nat :=
  ((float64Int n).sign, float64Of (float64Int n).natAbs d.natAbs)

/-- The Go expression `int(math.Ceil(float64(n)) / d)` for a positive constant
`d`: `float64(n)` is an integer, which `math.Ceil` returns unchanged, the
division is the `float64` quotient and `int(..)` drops its fraction (rounding
towards zero). -/
def ceilThenDivide (n d : Int) : Int :=
  (float64Quotient n d).1 * (((float64Quotient n d).2.1 / (float64Quotient n d).2.2 : Nat) : Int)

/-- The Go expression `int(math.Ceil(float64(n) / d))` for a positive constant
`d`: the `float64` quotient rounded up to an integer. -/
def ceilOfQuotient (n d : Int) : Int :=
  let q := float64Quotient n d
  if q.1 < 0 then -((q.2.1 / q.2.2 : Nat) : Int)
  else (((q.2.1 + q.2.2 - 1) / q.2.2 : Nat) : Int)

/-- The Go expression `int(math.Floor(float64(n) / d))` for a positive
constant `d`: the `float64` quotient rounded down to an integer. -/
def floorOfQuotient (n d : Int) : Int :=
  let q := float64Quotient n d
  if q.1 < 0 then -(((q.2.1 + q.2.2 - 1) / q.2.2 : Nat) : Int)
  else ((q.2.1 / q.2.2 : Nat) : Int)

/-- The Go method `CounterCollector.multiCall`: `for i := 0; i < times; i++`
runs `call`, here the list of `Deduct` calls that one run of `call` makes. -/
def multiCall (call : List (CounterKey × Int)) (times : Int) : List (CounterKey × Int) :=
  (List.replicate times.toNat call).flatten

/-- The `Deduct` calls of the Go method `divArith`, in program order.  The
cost helpers below read nothing of the ledger and branch on their arguments
only, so each is embedded as the list of the `Deduct` calls it makes; a call
of another helper contributes that helper's list at its place. -/
def divArith : List (CounterKey × Int) := [(S, 50), (B, 3), (A, 1)]

/-- The `Deduct` calls of the Go method `SHRarith`. -/
def SHRarith : List (CounterKey × Int) := [(S, 50), (B, 2), (A, 1)] ++ divArith

/-- The `Deduct` calls of the Go method `SHLarith`. -/
def SHLarith : List (CounterKey × Int) := [(S, 100), (B, 4), (A, 2)]

/-- The `Deduct` calls of the Go method `offsetUtil`. -/
def offsetUtil : List (CounterKey × Int) := [(S, 10), (B, 1)]

/-- The `Deduct` calls of the Go method `mLoadX`. -/
def mLoadX : List (CounterKey × Int) :=
  [(S, 40), (B, 2), (M, 1)] ++ offsetUtil ++ SHRarith ++ SHLarith

/-- The `Deduct` calls of the Go method `mLoad32`. -/
def mLoad32 : List (CounterKey × Int) :=
  [(S, 40), (B, 2), (M, 1)] ++ offsetUtil ++ SHRarith ++ SHLarith

/-- The `Deduct` calls of the Go method `moveBalances`. -/
def moveBalances (smtLevels : Int) : List (CounterKey × Int) :=
  [(S, 25), (B, 3 + 2), (P, wrapInt (4 * smtLevels))]

/-- The `Deduct` calls of the Go method `checkBytecodeStartsEF`. -/
def checkBytecodeStartsEF : List (CounterKey × Int) := [(S, 20)] ++ mLoadX ++ SHRarith

/-- The `Deduct` calls of the Go method `maskAddress`. -/
def maskAddress : List (CounterKey × Int) := [(S, 6), (B, 1)]

/-- The `Deduct` calls of the Go method `hashPoseidonLinearFromMemoryLoop`. -/
def hashPoseidonLinearFromMemoryLoop : List (CounterKey × Int) := [(S, 8)] ++ mLoad32

/-- The `Deduct` calls of the Go method `hashPoseidonLinearFromMemory`.  The
amount for `P` and `D` is the source's
`int(math.Ceil(float64(memSize+1))/56)`, where the call of `math.Ceil` closes
before the division. -/
def hashPoseidonLinearFromMemory (memSize : Int) : List (CounterKey × Int) :=
  [(S, 50), (B, 1 + 1),
   (P, ceilThenDivide (wrapInt (memSize + 1)) 56),
   (D, ceilThenDivide (wrapInt (memSize + 1)) 56)] ++
  divArith ++
  multiCall hashPoseidonLinearFromMemoryLoop (floorOfQuotient memSize 32) ++
  mLoadX ++ SHRarith

/-- The `Deduct` calls of the Go method `processContractCall`.  The amount for
`K` in the branch of `isCreate2` is
`int(math.Ceil(float64(bytecodeLength+1)/136)+1)`, where the 1 is added to the
`float64`. -/
def processContractCall (smtLevels bytecodeLength : Int) (isDeploy isCreate isCreate2 : Bool) :
    List (CounterKey × Int) :=
  [(S, 40), (B, 4 + 1), (P, 1), (D, 1), (P, wrapInt (2 * smtLevels))] ++
  moveBalances smtLevels ++
  (if isDeploy || isCreate || isCreate2 then
    [(S, 15), (B, 2), (P, wrapInt (2 * smtLevels))] ++ checkBytecodeStartsEF ++
    hashPoseidonLinearFromMemory bytecodeLength ++
    (if isCreate then [(S, 40), (K, 1)]
     else if isCreate2 then
      [(S, 40)] ++ divArith ++
      [(K, float64Int (ceilOfQuotient (wrapInt (bytecodeLength + 1)) 136 + 1))] ++
      multiCall mLoad32 (floorOfQuotient bytecodeLength 32) ++ mLoadX ++ SHRarith ++
      [(K, 1)] ++ maskAddress
     else [])
  else
    [(P, ceilOfQuotient (wrapInt (bytecodeLength + 1)) 56),
     (D, ceilOfQuotient (wrapInt (bytecodeLength + 1)) 56)] ++
    (if bytecodeLength ≥ 56 then divArith else []))

/-- What a list of `Deduct` calls takes from the dimension `key` in total. -/
def charged (calls : List (CounterKey × Int)) (key : CounterKey) : Int :=
  ((calls.filter (fun c => c.1 == key)).map (fun c => c.2)).sum

/-- The `used` amount of the dimension `key` after the calls were run on a
new collector; `none` when a call panicked or the dimension is missing. -/
def usedAfter (calls : List (CounterKey × Int)) (key : CounterKey) : Option Int :=
  ((DeductAll NewCounterCollector calls).bind (fun cc => cc.counters key)).map (fun c => c.used)

end ZkCounters

namespace ZkCounters

open Go

/-! ## `core/vm/zk_counters.go`: `ecRecover` -/

/-- The number of values of a `uint256.Int`. -/
def two256 : Nat := 2 ^ 256

/-- The constant `fnecHex`, the order of the group of secp256k1, as the
number that `uint256.FromHex` parses it to. -/
def fnec : Nat := 0xFFFFFFFFFFFFFFFFFFFFFFFFFFFFFFFEBAAEDCE6AF48A03BBFD25E8CD0364141

/-- The constant `fpecHex`, the prime of the field of secp256k1, as the number
that `uint256.FromHex` parses it to. -/
def fpec : Nat := 0xFFFFFFFFFFFFFFFFFFFFFFFFFFFFFFFFFFFFFFFFFFFFFFFFFFFFFFFEFFFFFC2F

/-- The library method `(*uint256.Int).Uint64`: the lower 64 bits. -/
def Uint64 (x : Nat) : Nat := x % 2 ^ 64

/-- The value that the library method `z.Sub(x, y)` stores in `z`: the
difference modulo `2 ^ 256`. -/
def u256Sub (x y : Nat) : Nat := (x + two256 - y % two256) % two256

/-- The value that the library method `z.Div(x, y)` stores in `z`: the
quotient, and 0 for a zero divisor. -/
def u256Div (x y : Nat) : Nat := if y = 0 then 0 else x / y

/-- The value that the library method `z.Exp(base, exponent)` stores in `z`:
the power modulo `2 ^ 256`. -/
def u256Exp (base exponent : Nat) : Nat := base ^ exponent % two256

/-- The value that the library method `z.Add(x, y)` stores in `z`: the sum
modulo `2 ^ 256`. -/
def u256Add (x y : Nat) : Nat := (x + y) % two256

/-- The value that the library method `z.Mod(x, y)` stores in `z`: the
remainder, and 0 for a zero modulus. -/
def u256Mod (x y : Nat) : Nat := if y = 0 then 0 else x % y

/-- The value that the library method `z.Sqrt(x)` stores in `z`: the integer
square root, the largest number whose square is at most `x`. -/
def u256Sqrt (x : Nat) : Nat := Nat.sqrt x

/-- The value that the library method `z.Neg(x)` stores in `z`: the negation
modulo `2 ^ 256`. -/
def u256Neg (x : Nat) : Nat := (two256 - x % two256) % two256

/-- The three `Deduct` calls of the branch of `ecRecover` under the comment
"handle a dodgy signature". -/
def invalidSignatureCost : List (CounterKey × Int) := [(S, 45), (A, 2), (B, 8)]

/-- The three `Deduct` calls of the branch of `ecRecover` under the comment
"do not have a root". -/
def noRootCost : List (CounterKey × Int) := [(S, 4527), (A, 1014), (B, 10)]

/-- The four `Deduct` calls of the branch of `ecRecover` under the comment
"has a root". -/
def hasRootCost : List (CounterKey × Int) := [(S, 6294), (A, 528), (B, 523), (K, 1)]

/-- How `ecRecover` ends: it returns its error after the `Deduct` calls
listed, or it panics. -/
inductive EcRecoverOutcome where
  | returned (err : Option GoError) (calls : List (CounterKey × Int))
  | panicked (msg : String)
deriving DecidableEq, Repr

/-- The Go method `CounterCollector.ecRecover` on the values of `v`, `r` and
`s` (numbers below `2 ^ 256`), as the `Deduct` calls it makes.

The methods of `uint256.Int` store their result in the receiver and return
the receiver.  So `fnecMinusOne := fnec.Sub(fnec, 1)` makes `fnecMinusOne`
another name of the cell `fnec`, and `upperLimit = fnec.Div(fnec, 2)` stores
the quotient in that same cell: `cell` below is its content when the test of
the signature reads `fnecMinusOne` and `upperLimit`.  `Sqrt` returns its
receiver as well, so `r2` is not nil after `fpec.Clone().Sqrt(c)` and the
`if r2 != nil` branch replaces it by `2 ^ 256 - 1`; the branch for a nil `r2`,
the only reader of `parity`, dereferences `r2`.  The calls of
`uint256.FromHex` are on well-formed constants and return no error. -/
def ecRecover (v r s : Nat) (isPrecompiled : Bool) : EcRecoverOutcome :=
  let cell0 := u256Sub fnec 1
  let cell := if isPrecompiled then cell0 else u256Div cell0 2
  let fnecMinusOne := cell
  let upperLimit := cell
  if Uint64 r == 0 || decide (fnecMinusOne < r) || Uint64 s == 0 || decide (upperLimit < s) ||
      (Uint64 v != 27 && Uint64 v != 28) then
    .returned none invalidSignatureCost
  else
    let rExp := u256Exp r 3
    let c := u256Mod (u256Add rExp 7) fpec
    let r2 : Option Nat := some (u256Sqrt c)
    match r2 with
    | none => .panicked "nil pointer dereference"
    | some _ =>
      let r2 : Nat := 0xFFFFFFFFFFFFFFFFFFFFFFFFFFFFFFFFFFFFFFFFFFFFFFFFFFFFFFFFFFFFFFFF
      if r2 < fpec then .returned none noRootCost
      else .returned none hasRootCost

end ZkCounters

namespace BadBatch

open Go Sequencer

/-! ## `zk/stages/stage_sequence_execute_utils.go`: `checkForBadBatch` -/

/-- The Go struct `zktypes.L1InfoTreeUpdate`, with the field the check reads:
the minimum timestamp. -/
structure L1InfoTreeUpdate where
  Timestamp : Nat
deriving DecidableEq, Repr

/-- The Go interface `batchChecker`: the lookup returns an error, or the
stored update, or nil when none is stored. -/
structure batchChecker where
  GetL1InfoTreeUpdate : Nat → Except GoError (Option L1InfoTreeUpdate)

/-- The loop `for _, decodedBlock := range decodedBlocks` of
`checkForBadBatch`, with the blocks still to visit and the current value of
`timestamp`, a `uint64`. -/
def checkLoop (hermezDb : batchChecker) (highestAllowedInfoTreeIndex limitTimestamp : Nat) :
    List DecodedBatchL2Data → Nat → Bool × Option GoError
  | [], _ => (false, none)
  | decodedBlock :: rest, timestamp0 =>
    let timestamp := wrapU64 (timestamp0 + decodedBlock.DeltaTimestamp)
    if timestamp > limitTimestamp then (true, none)
    else if decodedBlock.L1InfoTreeIndex > 0 then
      match hermezDb.GetL1InfoTreeUpdate decodedBlock.L1InfoTreeIndex with
      | .error err => (false, some err)
      | .ok none => (true, none)
      | .ok (some l1Info) =>
        if timestamp < l1Info.Timestamp then (true, none)
        else if decodedBlock.L1InfoTreeIndex > highestAllowedInfoTreeIndex then (true, none)
        else checkLoop hermezDb highestAllowedInfoTreeIndex limitTimestamp rest timestamp
    else checkLoop hermezDb highestAllowedInfoTreeIndex limitTimestamp rest timestamp

/-- The Go function `checkForBadBatch`; `batchNo` is only logged. -/
def checkForBadBatch (_batchNo : Nat) (hermezDb : batchChecker)
    (latestTimestamp highestAllowedInfoTreeIndex limitTimestamp : Nat)
    (decodedBlocks : List DecodedBatchL2Data) : Bool × Option GoError :=
  checkLoop hermezDb highestAllowedInfoTreeIndex limitTimestamp decodedBlocks latestTimestamp

/-- The timestamp of block `i` in the words of the specification:
`latestTimestamp` plus the sum of the delta timestamps of the blocks `0..i`,
as a `uint64`. -/
def timestampAt (latestTimestamp : Nat) (decodedBlocks : List DecodedBatchL2Data) (i : Nat) :
    Nat :=
  wrapU64 (latestTimestamp + ((decodedBlocks.take (i + 1)).map (fun b => b.DeltaTimestamp)).sum)

/-- A bad block in the words of the specification, for stored updates given
by `stored`: its timestamp is above the limit, or it has an L1 info tree
index above 0 for which no update is stored, or whose update has a minimum
timestamp above the block's timestamp, or which is above the highest allowed
index. -/
def badBlock (stored : Nat → Option L1InfoTreeUpdate) (highestAllowedInfoTreeIndex
    limitTimestamp timestamp : Nat) (b : DecodedBatchL2Data) : Prop :=
  timestamp > limitTimestamp ∨
  (b.L1InfoTreeIndex > 0 ∧
    (stored b.L1InfoTreeIndex = none ∨
     (∃ u, stored b.L1InfoTreeIndex = some u ∧ u.Timestamp > timestamp) ∨
     b.L1InfoTreeIndex > highestAllowedInfoTreeIndex))

/-- Some decoded block is bad, each judged at its own timestamp. -/
def someBlockBad (stored : Nat → Option L1InfoTreeUpdate) (latestTimestamp
    highestAllowedInfoTreeIndex limitTimestamp : Nat) (decodedBlocks : List DecodedBatchL2Data) :
    Prop :=
  ∃ i b, decodedBlocks[i]? = some b ∧
    badBlock stored highestAllowedInfoTreeIndex limitTimestamp
      (timestampAt latestTimestamp decodedBlocks i) b

/-- A sample decoded block without transactions. -/
def sampleBlock (deltaTimestamp l1InfoTreeIndex : Nat) : DecodedBatchL2Data :=
  { Transactions := [], EffectiveGasPricePercentages := [], DeltaTimestamp := deltaTimestamp,
    L1InfoTreeIndex := l1InfoTreeIndex }

/-- Sample stored updates: the indexes 1 to 4 are stored, the update of index
`i` with the minimum timestamp `100 i`. -/
def sampleStored (idx : Nat) : Option L1InfoTreeUpdate :=
  if 1 ≤ idx ∧ idx ≤ 4 then some { Timestamp := 100 * idx } else none

/-- Sample storage: the sample updates, and an error for the index 9. -/
def sampleChecker : batchChecker :=
  { GetL1InfoTreeUpdate := fun idx =>
      if idx = 9 then .error (.errorf "read failed") else .ok (sampleStored idx) }

/-- Sample storage whose every lookup succeeds. -/
def sampleTotalChecker : batchChecker :=
  { GetL1InfoTreeUpdate := fun idx => .ok (sampleStored idx) }

end BadBatch

namespace ForkId

open Go

/-! ## `zk/stages/stage_sequence_execute_utils.go`: `prepareForkId` -/

/-- The Go interface `forkDb`, with the three methods `prepareForkId` calls.
`GetAllForkHistory` returns the fork ids and the batch boundaries as two
slices. -/
structure forkDb where
  GetAllForkHistory : Except GoError (List Nat × List Nat)
  GetForkId : Nat → Except GoError Nat
  WriteForkIdBlockOnce : Nat → Nat → Option GoError

/-- How `prepareForkId` ends: it returns a fork id and an error, after the
calls of `WriteForkIdBlockOnce` listed, or it panics. -/
inductive ForkOutcome where
  | returned (fork : Nat) (err : Option GoError) (writes : List (Nat × Nat))
  | panicked (msg : String)
deriving DecidableEq, Repr

/-- The loop `for idx, batch := range allBatches` of `prepareForkId`, with the
boundaries still to visit, the index of the first of them and the current
value of `latest`; `none` is the index-out-of-range panic of `allForks[idx]`. -/
def latestLoop (allForks : List Nat) (nextBatch : Nat) : List Nat → Nat → Nat → Option Nat
  | [], _, latest => some latest
  | batch :: rest, idx, latest =>
    if nextBatch > batch then
      match allForks[idx]? with
      | none => none
      | some fork => latestLoop allForks nextBatch rest (idx + 1) fork
    else latestLoop allForks nextBatch rest (idx + 1) latest

/-- The Go function `prepareForkId`. -/
def prepareForkId (lastBatch executionAt : Nat) (hermezDb : forkDb) : ForkOutcome :=
  match hermezDb.GetAllForkHistory with
  | .error err => .returned 0 (some err) []
  | .ok (allForks, allBatches) =>
    let nextBatch := wrapU64 (lastBatch + 1)
    match latestLoop allForks nextBatch allBatches 0 0 with
    | none => .panicked "index out of range"
    | some latest =>
      if latest == 0 then
        .returned 0
          (some (.errorf ("could not find a suitable fork for batch " ++
            toString (wrapU64 (lastBatch + 1)) ++
            ", cannot start sequencer, check contract configuration")))
          []
      else
        match hermezDb.GetForkId lastBatch with
        | .error err => .returned 0 (some err) []
        | .ok lastBatchFork =>
          if lastBatchFork < latest then
            match hermezDb.WriteForkIdBlockOnce latest (wrapU64 (executionAt + 1)) with
            | some err => .returned latest (some err) [(latest, wrapU64 (executionAt + 1))]
            | none => .returned latest none [(latest, wrapU64 (executionAt + 1))]
          else .returned latest none []

/-- The selected fork in the words of the specification, for a history of
pairs of a fork id and its batch boundary: `fork` is attached to a boundary
strictly below `nextBatch` that is the greatest such boundary of the history
(and the last entry with it). -/
def IsSelectedFork (history : List (Nat × Nat)) (nextBatch fork : Nat) : Prop :=
  ∃ pre post boundary, history = pre ++ (fork, boundary) :: post ∧ boundary < nextBatch ∧
    (∀ e ∈ history, e.2 < nextBatch → e.2 ≤ boundary) ∧
    (∀ e ∈ post, ¬ e.2 < nextBatch)

/-- Sample storage: the forks 7, 9 and 11 start at the batches 0, 100 and 200,
the fork recorded for every batch is `recorded`, and the write succeeds unless
`writeFails`; the recorded fork of batch 666 cannot be read. -/
def sampleForkDb (recorded : Nat) (writeFails : Bool) : forkDb :=
  { GetAllForkHistory := .ok ([7, 9, 11], [0, 100, 200])
    GetForkId := fun batch =>
      if batch = 666 then .error (.errorf "read failed") else .ok recorded
    WriteForkIdBlockOnce := fun _ _ => if writeFails then some (.errorf "write failed") else none }

end ForkId

namespace ForkId

/-- The last entry of a history whose batch boundary is strictly below
`nextBatch`. -/
def lastBelow (history : List (Nat × Nat)) (nextBatch : Nat) : Option (Nat × Nat) :=
  (history.filter (fun e => decide (e.2 < nextBatch))).getLast?

end ForkId

namespace StreamWriter

open Go Verifier

/-! ## `zk/stages/stage_sequence_execute_data_stream.go`: `writeBlockDetails` -/

/-- The Go struct `BlockStatus`, declared in this source file and embedded
with the function that consumes it. -/
abbrev BlockStatus := Rollback.BlockStatus

/-- A block as read by `rawdb.ReadBlockByNumber`, identified by its number. -/
structure Block where
  Number : Nat
deriving DecidableEq, Repr

/-- The arguments of one call of `WriteBlockWithBatchStartToStream`. -/
structure StreamWrite where
  forkId : Nat
  batchNumber : Nat
  lastBatch : Nat
  parentBlock : Block
  block : Block
deriving DecidableEq, Repr

/-- The block reader and the stream server that `writeBlockDetails` calls.
The reader returns an error, or the block, or nil for a block it does not
have. -/
structure WriterDeps where
  ReadBlockByNumber : Nat → Except GoError (Option Block)
  WriteBlockWithBatchStartToStream : StreamWrite → Option GoError

/-- How `writeBlockDetails` ends: it returns the statuses and the error, with
`sbc.lastBatch` and the stream writes it called for, or it panics. -/
inductive WriteOutcome where
  | returned (written : List BlockStatus) (err : Option GoError) (lastBatch : Nat)
      (calls : List StreamWrite)
  | panicked (msg : String)
deriving DecidableEq, Repr

/-- The loop `for _, bundle := range verifiedBundles` of `writeBlockDetails`,
with the bundles still to visit, `written`, `sbc.lastBatch` and the stream
writes called for so far. -/
def writeLoop (deps : WriterDeps) (forkId : Nat) :
    List VerifierBundle → List BlockStatus → Nat → List StreamWrite → WriteOutcome
  | [], written, lastBatch, calls => .returned written none lastBatch calls
  | bundle :: rest, written, lastBatch, calls =>
    match bundle.Response with
    | none => .panicked "nil pointer dereference"
    | some response =>
      let status : BlockStatus :=
        { BlockNumber := response.BlockNumber, Valid := response.Valid, Error := response.Error }
      if response.Valid then
        match deps.ReadBlockByNumber (subOneU64 response.BlockNumber) with
        | .error err => .returned written (some err) lastBatch calls
        | .ok parentBlock =>
          match deps.ReadBlockByNumber response.BlockNumber with
          | .error err => .returned written (some err) lastBatch calls
          | .ok block =>
            match parentBlock, block with
            | some parentBlock, some block =>
              let call : StreamWrite :=
                { forkId := forkId, batchNumber := response.BatchNumber, lastBatch := lastBatch,
                  parentBlock := parentBlock, block := block }
              match deps.WriteBlockWithBatchStartToStream call with
              | some err => .returned written (some err) lastBatch (calls ++ [call])
              | none =>
                writeLoop deps forkId rest (written ++ [status]) response.BatchNumber
                  (calls ++ [call])
            | _, _ => .panicked "nil pointer dereference"
      else .returned (written ++ [status]) none lastBatch calls

/-- The Go method `SequencerBatchStreamWriter.writeBlockDetails`, on the value
of `sbc.lastBatch`. -/
def writeBlockDetails (deps : WriterDeps) (lastBatch : Nat) (verifiedBundles : List VerifierBundle)
    (forkId : Nat) : WriteOutcome :=
  writeLoop deps forkId verifiedBundles [] lastBatch []

/-- The status that `writeBlockDetails` builds for a response. -/
def statusOf (response : VerifierResponse) : BlockStatus :=
  { BlockNumber := response.BlockNumber, Valid := response.Valid, Error := response.Error }

/-- The responses up to and including the first invalid one, in the words of
the specification: the leading valid responses, and the first response after
them if there is one. -/
def uptoFirstInvalid (responses : List VerifierResponse) : List VerifierResponse :=
  responses.takeWhile (fun r => r.Valid) ++ (responses.dropWhile (fun r => r.Valid)).take 1

/-- Sample storage: every block is there and every stream write succeeds. -/
def sampleWriterDeps : WriterDeps :=
  { ReadBlockByNumber := fun n => .ok (some { Number := n })
    WriteBlockWithBatchStartToStream := fun _ => none }

/-- A sample bundle for the batch `batch`, whose last block is `10 * batch`. -/
def sampleBundle (batch : Nat) (valid : Bool) : VerifierBundle :=
  { Request := sampleRequest batch 0
    Response := some { BatchNumber := batch, BlockNumber := 10 * batch, Valid := valid,
                       OriginalCounters := [], Witness := none, ExecutorResponse := none,
                       Error := if valid then none else some (.errorf "invalid") } }

end StreamWriter

namespace Catchup

open Go

/-! ## `zk/stages/stage_dataStreamCatchup.go`: `TruncateDatastream` -/

/-- The stage progress store and the stream server that `TruncateDatastream`
calls.  `TruncateBlock` is a method of the stream server that the source tree
does not define. -/
structure TruncateDeps where
  GetStageProgress : Except GoError Nat
  TruncateBlock : Nat → Option GoError
  SaveStageProgress : Nat → Option GoError

/-- The calls of `TruncateDatastream` that write. -/
inductive TruncateEffect where
  | TruncateBlock (blockNum : Nat)
  | SaveStageProgress (progress : Nat)
deriving DecidableEq, Repr

/-- The Go function `TruncateDatastream`: the error it returns and the writing
calls it made, in order.  `truncateBlockNum-1` is a `uint64` subtraction. -/
def TruncateDatastream (deps : TruncateDeps) (truncateBlockNum : Nat) :
    Option GoError × List TruncateEffect :=
  match deps.GetStageProgress with
  | .error err => (some err, [])
  | .ok previousProgress =>
    if truncateBlockNum ≥ previousProgress then
      (some (.errorf ("cannot truncate to a block number greater than or equal to the " ++
        "current progress, " ++ toString truncateBlockNum ++ "," ++ toString previousProgress)),
       [])
    else
      match deps.TruncateBlock truncateBlockNum with
      | some err => (some err, [.TruncateBlock truncateBlockNum])
      | none =>
        match deps.SaveStageProgress (subOneU64 truncateBlockNum) with
        | some err =>
          (some err, [.TruncateBlock truncateBlockNum,
                      .SaveStageProgress (subOneU64 truncateBlockNum)])
        | none =>
          (none, [.TruncateBlock truncateBlockNum,
                  .SaveStageProgress (subOneU64 truncateBlockNum)])

/-- Sample storage: the DataStream progress is `previousProgress` and every
write succeeds. -/
def sampleTruncateDeps (previousProgress : Nat) : TruncateDeps :=
  { GetStageProgress := .ok previousProgress
    TruncateBlock := fun _ => none
    SaveStageProgress := fun _ => none }

end Catchup

namespace PoolLimbo

open Go

/-! ## `zk/txpool/pool_zk_limbo.go`: `flushLockedLimbo` and `fromDBLimbo` -/

/-- A Go `[]byte`, one number below 256 per byte; a nil slice is the empty
list. -/
abbrev Bytes := List Nat

def DbKeyInvalidTxPrefix : Nat := 1
def DbKeySlotsPrefix : Nat := 2
def DbKeyBatchesPrefix : Nat := 3
def DbKeyAwaitingBlockHandlingPrefix : Nat := 4

def DbKeyBatchesWitnessPrefix : Nat := 1
def DbKeyBatchesStreamBytesPrefix : Nat := 2
def DbKeyBatchesL1InfoTreePrefix : Nat := 3
def DbKeyBatchesTimestampLimitPrefix : Nat := 4
def DbKeyBatchesFirstBlockNumberPrefix : Nat := 5
def DbKeyBatchesBatchNumberPrefix : Nat := 6
def DbKeyBatchesForkIdPrefix : Nat := 7
def DbKeyBatchesRootPrefix : Nat := 8
def DbKeyBatchesBadTransactionsPrefix : Nat := 9

/-- The Go struct `LimboBatchDetails`.  A Go map is a list of its entries, and
`none` is the nil map, which can be read but not written. -/
structure LimboBatchDetails where
  Witness : Bytes
  StreamBytes : List Bytes
  L1InfoTreeMinTimestamps : Option (List (Nat × Nat))
  TimestampLimit : Nat
  FirstBlockNumber : Nat
  BatchNumber : Nat
  ForkId : Nat
  Root : Bytes
  BadTransactionsHashes : List Bytes
deriving DecidableEq, Repr

/-- The zero value `LimboBatchDetails{}`: nil slices, a nil map, zero
numbers and the zero hash. -/
def zeroBatch : LimboBatchDetails :=
  { Witness := [], StreamBytes := [], L1InfoTreeMinTimestamps := none, TimestampLimit := 0,
    FirstBlockNumber := 0, BatchNumber := 0, ForkId := 0, Root := List.replicate 32 0,
    BadTransactionsHashes := [] }

/-- The Go struct `types.TxSlot`, with the fields the two functions read or
write. -/
structure TxSlot where
  IDHash : Bytes
  Rlp : Option Bytes
  SenderID : Nat
deriving DecidableEq, Repr

/-- One row of the Go struct `types.TxSlots`: `Txs[i]`, `Senders.At(i)` and
`IsLocal[i]`. -/
structure SlotEntry where
  txn : TxSlot
  sender : Bytes
  isLocal : Bool
deriving DecidableEq, Repr

/-- The Go struct `Limbo`. -/
structure Limbo where
  invalidTxsMap : List (String × Nat)
  limboSlots : List SlotEntry
  limboBatches : List LimboBatchDetails
  awaitingBlockHandling : Bool
deriving DecidableEq, Repr

/-- The Go function `newLimbo`. -/
def newLimbo : Limbo :=
  { invalidTxsMap := [], limboSlots := [], limboBatches := [], awaitingBlockHandling := false }

/-- The Go method `Limbo.resizeBatches`, on the slice `limboBatches`: it
appends zero values until the length is `newSize`. -/
def resizeBatches (limboBatches : List LimboBatchDetails) (newSize : Int) :
    List LimboBatchDetails :=
  limboBatches ++ List.replicate (newSize - limboBatches.length).toNat zeroBatch

/-- The Go method `LimboBatchDetails.resizeStreamBytes`, on the slice
`StreamBytes`. -/
def resizeStreamBytes (streamBytes : List Bytes) (newSize : Int) : List Bytes :=
  streamBytes ++ List.replicate (newSize - streamBytes.length).toNat []

/-- The Go method `LimboBatchDetails.resizeBadTransactionsHashes`, on the
slice `BadTransactionsHashes`. -/
def resizeBadTransactionsHashes (hashes : List Bytes) (newSize : Int) : List Bytes :=
  hashes ++ List.replicate (newSize - hashes.length).toNat (List.replicate 32 0)

/-- The content of the table `PoolLimbo` inside the database transaction: the
pairs of a key and a value, in the order of the keys. -/
abbrev Table := List (Bytes × Bytes)

/-- The order of the keys of a table: byte by byte, a proper beginning of a key
before the key. -/
def keyLt : Bytes → Bytes → Bool
  | [], [] => false
  | [], _ :: _ => true
  | _ :: _, [] => false
  | a :: as, b :: bs => if a < b then true else if b < a then false else keyLt as bs

/-- The call `tx.Put(TablePoolLimbo, k, v)`: the value of an existing key is
replaced, a new key is entered at its place in the order.  The table stores a
copy of `k` and `v`. -/
def Put : Table → Bytes → Bytes → Table
  | [], k, v => [(k, v)]
  | (k1, v1) :: rest, k, v =>
    if k = k1 then (k, v) :: rest
    else if keyLt k k1 then (k, v) :: (k1, v1) :: rest
    else (k1, v1) :: Put rest k v

/-- The bytes written by `binary.LittleEndian.PutUint32`. -/
def PutUint32 (x : Nat) : Bytes :=
  [x % 256, x / 256 % 256, x / 65536 % 256, x / 16777216 % 256]

/-- The bytes written by `binary.LittleEndian.PutUint64`. -/
def PutUint64 (x : Nat) : Bytes :=
  [x % 256, x / 256 % 256, x / 65536 % 256, x / 16777216 % 256, x / 4294967296 % 256,
   x / 1099511627776 % 256, x / 281474976710656 % 256, x / 72057594037927936 % 256]

/-- The number that a list of bytes is in little-endian order. -/
def leValue : Bytes → Nat
  | [] => 0
  | x :: rest => x + 256 * leValue rest

/-- The Go function `binary.LittleEndian.Uint32`; `none` is its panic on a
slice of fewer than 4 bytes. -/
def Uint32 (b : Bytes) : Option Nat :=
  if b.length < 4 then none else some (leValue (b.take 4))

/-- The Go function `binary.LittleEndian.Uint64`; `none` is its panic on a
slice of fewer than 8 bytes. -/
def Uint64 (b : Bytes) : Option Nat :=
  if b.length < 8 then none else some (leValue (b.take 8))

/-- The Go builtin `copy(dst, src)` on a destination of fixed length. -/
def copyInto (dst src : Bytes) : Bytes :=
  src.take dst.length ++ dst.drop src.length

/-- The Go statement `m[k] = v` on a map that is not nil. -/
def mapSet {κ ν : Type} [DecidableEq κ] : List (κ × ν) → κ → ν → List (κ × ν)
  | [], k, v => [(k, v)]
  | (k1, v1) :: rest, k, v => if k1 = k then (k, v) :: rest else (k1, v1) :: mapSet rest k v

/-- What the two functions call outside the limbo: the hexadecimal codec of
the package `hexutils`, the pool's store of transaction encodings, its sender
table, the transaction parser and the transaction validation (`true` for the
reasons `NotSet` and `Success`). -/
structure PoolDeps where
  HexToBytes : String → Bytes
  BytesToHex : Bytes → String
  getRlpLocked : Bytes → Except GoError Bytes
  senderID2Addr : Nat → Option Bytes
  ParseTransaction : Bytes → Option TxSlot
  getOrCreateID : Bytes → Nat
  validateTx : TxSlot → Bool

/-- The key of a field of the limbo batch `i`: the batches prefix, `uint32(i)`
in 4 bytes, the prefix of the field and the `uint64` `j` in 8 bytes. -/
def batchKey (i field j : Nat) : Bytes :=
  [DbKeyBatchesPrefix] ++ PutUint32 (i % 4294967296) ++ [field] ++
    PutUint64 (j % 18446744073709551616)

/-- The loop `for hash, handled := range p.limbo.invalidTxsMap` of
`flushLockedLimbo`. -/
def flushInvalidTxs (deps : PoolDeps) : List (String × Nat) → Table → Table
  | [], t => t
  | (hash, handled) :: rest, t =>
    flushInvalidTxs deps rest (Put t (DbKeyInvalidTxPrefix :: deps.HexToBytes hash) [handled])

/-- The loop `for _, txSlot := range p.limbo.limboSlots.Txs` of
`flushLockedLimbo`: the table and the slots afterwards, or the error
returned.  A slot without an encoding gets it from the pool and is not
written; a slot whose sender is unknown is skipped. -/
def flushSlots (deps : PoolDeps) : List SlotEntry → Table → Except GoError (Table × List SlotEntry)
  | [], t => .ok (t, [])
  | e :: rest, t =>
    match e.txn.Rlp with
    | none =>
      match deps.getRlpLocked e.txn.IDHash with
      | .error err => .error err
      | .ok rlp =>
        match flushSlots deps rest t with
        | .error err => .error err
        | .ok (t1, es) => .ok (t1, { e with txn := { e.txn with Rlp := some rlp } } :: es)
    | some rlp =>
      match deps.senderID2Addr e.txn.SenderID with
      | none =>
        match flushSlots deps rest t with
        | .error err => .error err
        | .ok (t1, es) => .ok (t1, e :: es)
      | some addr =>
        let v := copyInto (List.replicate 20 0) addr ++ rlp
        match flushSlots deps rest (Put t (DbKeySlotsPrefix :: e.txn.IDHash) v) with
        | .error err => .error err
        | .ok (t1, es) => .ok (t1, e :: es)

/-- A loop `for j, x := range xs` of `flushLockedLimbo` that writes `x` under
the key of the field with the index `j`. -/
def flushList (i field : Nat) : List Bytes → Nat → Table → Table
  | [], _, t => t
  | x :: rest, j, t => flushList i field rest (j + 1) (Put t (batchKey i field j) x)

/-- The loop `for k, v := range limboBatch.L1InfoTreeMinTimestamps` of
`flushLockedLimbo`. -/
def flushL1InfoTree (i : Nat) : List (Nat × Nat) → Table → Table
  | [], t => t
  | (k, v) :: rest, t =>
    flushL1InfoTree i rest
      (Put t (batchKey i DbKeyBatchesL1InfoTreePrefix k) (PutUint64 (v % 18446744073709551616)))

/-- The body of the loop `for i, limboBatch := range p.limbo.limboBatches` of
`flushLockedLimbo`. -/
def flushBatch (i : Nat) (limboBatch : LimboBatchDetails) (t : Table) : Table :=
  let t := Put t (batchKey i DbKeyBatchesWitnessPrefix 0) limboBatch.Witness
  let t := flushList i DbKeyBatchesStreamBytesPrefix limboBatch.StreamBytes 0 t
  let t := flushL1InfoTree i (limboBatch.L1InfoTreeMinTimestamps.getD []) t
  let t := Put t (batchKey i DbKeyBatchesTimestampLimitPrefix 0)
    (PutUint64 (limboBatch.TimestampLimit % 18446744073709551616))
  let t := Put t (batchKey i DbKeyBatchesFirstBlockNumberPrefix 0)
    (PutUint64 (limboBatch.FirstBlockNumber % 18446744073709551616))
  let t := Put t (batchKey i DbKeyBatchesBatchNumberPrefix 0)
    (PutUint64 (limboBatch.BatchNumber % 18446744073709551616))
  let t := Put t (batchKey i DbKeyBatchesForkIdPrefix 0)
    (PutUint64 (limboBatch.ForkId % 18446744073709551616))
  let t := Put t (batchKey i DbKeyBatchesRootPrefix 0) limboBatch.Root
  flushList i DbKeyBatchesBadTransactionsPrefix limboBatch.BadTransactionsHashes 0 t

/-- The loop `for i, limboBatch := range p.limbo.limboBatches` of
`flushLockedLimbo`. -/
def flushBatches : List LimboBatchDetails → Nat → Table → Table
  | [], _, t => t
  | limboBatch :: rest, i, t => flushBatches rest (i + 1) (flushBatch i limboBatch t)

/-- The Go method `TxPool.flushLockedLimbo`, on the limbo of the pool: the
table `PoolLimbo` and the limbo afterwards, or the error returned.
`CreateBucket` and `ClearBucket` leave the table empty, and the writes of the
database transaction do not fail. -/
def flushLockedLimbo (deps : PoolDeps) (limbo : Limbo) : Except GoError (Table × Limbo) :=
  let t := flushInvalidTxs deps limbo.invalidTxsMap []
  match flushSlots deps limbo.limboSlots t with
  | .error err => .error err
  | .ok (t, slots) =>
    let t := flushBatches limbo.limboBatches 0 t
    let v := if limbo.awaitingBlockHandling then [1] else [0]
    .ok (Put t [DbKeyAwaitingBlockHandlingPrefix] v, { limbo with limboSlots := slots })

/-- How the handling of one entry of the table by `fromDBLimbo` ends: the loop
goes on, the function returns nil, or it panics. -/
inductive LoadStep where
  | next (limbo : Limbo)
  | stop (limbo : Limbo)
  | panicked (msg : String)
deriving DecidableEq, Repr

/-- The inner `switch k[5]` of `fromDBLimbo`, on the batch
`p.limbo.limboBatches[batchesI]`; an error is the message of a panic. -/
def loadBatchField (b : LimboBatchDetails) (field batchesJ : Nat) (v : Bytes) :
    Except String LimboBatchDetails :=
  if field = DbKeyBatchesWitnessPrefix then .ok { b with Witness := v }
  else if field = DbKeyBatchesStreamBytesPrefix then
    let streamBytes := resizeStreamBytes b.StreamBytes (wrapInt (wrapInt batchesJ + 1))
    if batchesJ < streamBytes.length then .ok { b with StreamBytes := streamBytes.set batchesJ v }
    else .error "index out of range"
  else if field = DbKeyBatchesL1InfoTreePrefix then
    match Uint64 v with
    | none => .error "index out of range"
    | some x =>
      match b.L1InfoTreeMinTimestamps with
      | none => .error "assignment to entry in nil map"
      | some m => .ok { b with L1InfoTreeMinTimestamps := some (mapSet m batchesJ x) }
  else if field = DbKeyBatchesTimestampLimitPrefix then
    match Uint64 v with
    | none => .error "index out of range"
    | some x => .ok { b with TimestampLimit := x }
  else if field = DbKeyBatchesFirstBlockNumberPrefix then
    match Uint64 v with
    | none => .error "index out of range"
    | some x => .ok { b with FirstBlockNumber := x }
  else if field = DbKeyBatchesBatchNumberPrefix then
    match Uint64 v with
    | none => .error "index out of range"
    | some x => .ok { b with BatchNumber := x }
  else if field = DbKeyBatchesForkIdPrefix then
    match Uint64 v with
    | none => .error "index out of range"
    | some x => .ok { b with ForkId := x }
  else if field = DbKeyBatchesRootPrefix then .ok { b with Root := copyInto b.Root v }
  else if field = DbKeyBatchesBadTransactionsPrefix then
    let hashes := resizeBadTransactionsHashes b.BadTransactionsHashes
      (wrapInt (wrapInt batchesJ + 1))
    match hashes[batchesJ]? with
    | none => .error "index out of range"
    | some h => .ok { b with BadTransactionsHashes := hashes.set batchesJ (copyInto h v) }
  else .ok b

/-- The body of the loop `for it.HasNext()` of `fromDBLimbo`, for the entry
with the key `k` and the value `v`. -/
def loadEntry (deps : PoolDeps) (limbo : Limbo) (k v : Bytes) : LoadStep :=
  match k with
  | [] => .panicked "index out of range"
  | k0 :: k1 =>
    if k0 = DbKeyInvalidTxPrefix then
      match v with
      | [] => .panicked "index out of range"
      | v0 :: _ =>
        .next { limbo with invalidTxsMap := mapSet limbo.invalidTxsMap (deps.BytesToHex k1) v0 }
    else if k0 = DbKeySlotsPrefix then
      if v.length < 20 then .panicked "slice bounds out of range"
      else
        let addr := v.take 20
        let txRlp := v.drop 20
        match deps.ParseTransaction txRlp with
        | none => .next limbo
        | some parsed =>
          let txn : TxSlot := { parsed with SenderID := deps.getOrCreateID addr }
          if !deps.validateTx txn then .stop limbo
          else
            .next { limbo with
                    limboSlots := limbo.limboSlots ++ [{ txn := txn, sender := addr, isLocal := true }] }
    else if k0 = DbKeyBatchesPrefix then
      if k.length < 14 then .panicked "slice bounds out of range"
      else
        match Uint32 (k.drop 1), Uint64 (k.drop 6), k[5]? with
        | some batchesI, some batchesJ, some field =>
          let limboBatches := resizeBatches limbo.limboBatches (wrapInt ((batchesI : Int) + 1))
          match limboBatches[batchesI]? with
          | none => .panicked "index out of range"
          | some b =>
            match loadBatchField b field batchesJ v with
            | .error msg => .panicked msg
            | .ok b1 => .next { limbo with limboBatches := limboBatches.set batchesI b1 }
        | _, _, _ => .panicked "slice bounds out of range"
    else if k0 = DbKeyAwaitingBlockHandlingPrefix then
      match v with
      | [] => .panicked "index out of range"
      | v0 :: _ => .next { limbo with awaitingBlockHandling := !(v0 == 0) }
    else .next limbo

/-- How `fromDBLimbo` ends: it returns its error, with the limbo of the pool,
or it panics. -/
inductive LoadOutcome where
  | returned (err : Option GoError) (limbo : Limbo)
  | panicked (msg : String)
deriving DecidableEq, Repr

/-- The loop `for it.HasNext()` of `fromDBLimbo` over the entries of the table
in the order of their keys. -/
def loadLoop (deps : PoolDeps) : Table → Limbo → LoadOutcome
  | [], limbo => .returned none limbo
  | (k, v) :: rest, limbo =>
    match loadEntry deps limbo k v with
    | .panicked msg => .panicked msg
    | .stop limbo1 => .returned none limbo1
    | .next limbo1 => loadLoop deps rest limbo1

/-- The Go method `TxPool.fromDBLimbo`, on the table `PoolLimbo` and the limbo
of the pool; the read of the table does not fail. -/
def fromDBLimbo (deps : PoolDeps) (t : Table) (limbo : Limbo) : LoadOutcome :=
  loadLoop deps t { limbo with limboSlots := [] }

/-- The upper-case hexadecimal digit of a number below 16. -/
def hexChar (n : Nat) : Char :=
  if n < 10 then Char.ofNat (48 + n) else Char.ofNat (55 + n)

/-- The value of a hexadecimal digit. -/
def hexValue (c : Char) : Nat :=
  if c.toNat ≥ 97 then c.toNat - 87 else if c.toNat ≥ 65 then c.toNat - 55 else c.toNat - 48

/-- The bytes that a list of hexadecimal digits stands for, two digits a
byte. -/
def hexPairs : List Char → Bytes
  | a :: b :: rest => (16 * hexValue a + hexValue b) :: hexPairs rest
  | _ => []

/-- Sample collaborators: the hexadecimal codec in upper case, no stored
encodings, no known senders, a parser that accepts nothing. -/
def samplePoolDeps : PoolDeps :=
  { HexToBytes := fun s => hexPairs s.toList
    BytesToHex := fun b => String.mk (b.flatMap (fun x => [hexChar (x / 16), hexChar (x % 16)]))
    getRlpLocked := fun _ => .error (.errorf "not found")
    senderID2Addr := fun _ => none
    ParseTransaction := fun _ => none
    getOrCreateID := fun _ => 0
    validateTx := fun _ => true }

/-- A sample limbo batch with the given minimum timestamps. -/
def sampleBatch (l1InfoTreeMinTimestamps : Option (List (Nat × Nat))) : LimboBatchDetails :=
  { Witness := [7, 8], StreamBytes := [[1], [2, 3]]
    L1InfoTreeMinTimestamps := l1InfoTreeMinTimestamps
    TimestampLimit := 1000, FirstBlockNumber := 40, BatchNumber := 4, ForkId := 9
    Root := List.replicate 32 5, BadTransactionsHashes := [List.replicate 32 6] }

/-- A sample limbo with one batch and one invalid transaction. -/
def sampleLimbo (l1InfoTreeMinTimestamps : Option (List (Nat × Nat))) : Limbo :=
  { invalidTxsMap := [("AB01", 1)], limboSlots := []
    limboBatches := [sampleBatch l1InfoTreeMinTimestamps], awaitingBlockHandling := true }

/-- Flush the limbo, then load what was written into a new limbo. -/
def flushThenLoad (deps : PoolDeps) (limbo : Limbo) : Option LoadOutcome :=
  match flushLockedLimbo deps limbo with
  | .error _ => none
  | .ok (t, _) => some (fromDBLimbo deps t newLimbo)

end PoolLimbo

namespace Sequencer

open Go

/-! ### Idle waiting and earlier blocks -/

/-- The wait loop idles through the given cases: a log tick does nothing, and
a poll of the pool returns no transaction (with the state it leaves).  The
result is the state outside and the yielded set after the cases; `none` when
a case is another one or a poll returns a transaction or an error. -/
def idlePolls {ω κ : Type} (deps : SeqDeps ω κ) :
    List SelectCase → ω → List Nat → Option (ω × List Nat)
  | [], world, yielded => some (world, yielded)
  | .logTicker :: events, world, yielded => idlePolls deps events world yielded
  | .default :: events, world, yielded =>
    match deps.getNextPoolTransactions world yielded with
    | .ok ([], world1, yielded1) => idlePolls deps events world1 yielded1
    | _ => none
  | _ :: _, _, _ => none

/-- The variables after `k` iterations of the block loop each of which ends
with `runLoopBlocks` still true (the `bn++` included); `none` when one of
them ends the loop. -/
def advanceBlocks {ω κ : Type} (deps : SeqDeps ω κ) (cfg : StageCfg) :
    Nat → LoopVars ω κ → Option (LoopVars ω κ)
  | 0, vars => some vars
  | k + 1, vars =>
    match blockIter deps cfg vars with
    | .next vars1 true => advanceBlocks deps cfg k { vars1 with bn := wrapU64 (vars1.bn + 1) }
    | _ => none

/-- Sample collaborators for a pool that fills over time: the state outside
the loop is the list of the arrivals still to come, and each poll takes the
first of them (no transaction once the list is used up).  Budget, attempts
and the other calls are those of `sampleSeqDeps`. -/
def arrivalSeqDeps : SeqDeps (List (List Transaction)) Nat :=
  { prepareHeader := fun _ bn _ _ coinbase =>
      .ok ({ ParentHash := bn, Coinbase := coinbase, Difficulty := 0, Number := bn + 1,
             GasLimit := 30000000, Time := 1000 + bn, Rest := 7 }, bn)
    prepareL1AndInfoTreeRelatedStuff := fun world _ _ =>
      .ok ({ infoTreeIndexProgress := 0, l1TreeUpdate := none, l1TreeUpdateIndex := 0,
             l1BlockHash := 0, ger := 0, shouldWriteGerToContract := false }, world)
    StartNewBlock := fun budget => budget
    stateNew := fun world => world
    handleStateForNewBlockStarting := fun world _ _ _ => .ok world
    getNextPoolTransactions := fun arrivals yielded =>
      .ok (arrivals.headD [], arrivals.tail, yielded ++ (arrivals.headD []).map (fun t => t.hash))
    DeriveEffectiveGasPrice := fun _ => 255
    attemptAddTransaction := fun world budget _ transaction _ _ =>
      if transaction.data.length > budget then .ok (0, true, world, budget)
      else .ok (transaction.hash, false, world, budget - transaction.data.length)
    WriteBlockL1InfoTreeIndex := fun world _ _ => .ok world
    doFinishBlockAndUpdateState := fun world _ _ _ _ => .ok world }

end Sequencer

/-! # Theorems -/

namespace ZkCounters

open Go

/-! ## Resource ledger -/

theorem wrapInt_of_inIntRange (x : Int) (h : inIntRange x) : wrapInt x = x := by
  unfold inIntRange at h
  unfold wrapInt
  omega

theorem wrapInt_deduct (u r a : Int) :
    wrapInt (wrapInt (u + a) + wrapInt (r - a)) = wrapInt (u + r) := by
  unfold wrapInt
  omega

theorem defaultCounters_start (d : CounterKey) (hd : d ∈ dimensions) :
    ∃ c, NewCounterCollector.counters d = some c ∧ c.used = 0 ∧ c.remaining = c.initialAmount := by
  simp only [dimensions, List.mem_cons, List.mem_singleton, List.not_mem_nil, or_false] at hd
  rcases hd with h | h | h | h | h | h | h <;> subst h <;>
    simp [NewCounterCollector, defaultCounters, S, A, B, M, K, D, P]

theorem ledgerBalanced_new : ledgerBalanced NewCounterCollector := by
  intro d hd
  obtain ⟨c, hc, hu, hr⟩ := defaultCounters_start d hd
  refine ⟨c, hc, ?_⟩
  have hrange : inIntRange c.initialAmount := by
    simp only [dimensions, List.mem_cons, List.mem_singleton, List.not_mem_nil, or_false] at hd
    rcases hd with h | h | h | h | h | h | h <;> subst h <;>
      simp [NewCounterCollector, defaultCounters, S, A, B, M, K, D, P] at hc <;>
      subst hc <;> simp [inIntRange, totalSteps]
  unfold counterBalanced
  rw [hu, hr, Int.zero_add]
  exact wrapInt_of_inIntRange _ hrange

theorem Deduct_present (cc : CounterCollector) (key : CounterKey) (amount : Int) (c : Counter)
    (hc : cc.counters key = some c) :
    Deduct cc key amount = some (CounterCollector.mk (fun k =>
      if k = key then
        some { remaining := wrapInt (c.remaining - amount), used := wrapInt (c.used + amount),
               name := c.name, initialAmount := c.initialAmount }
      else cc.counters k)) := by
  simp [Deduct, hc]

theorem Deduct_balanced (cc : CounterCollector) (key : CounterKey) (amount : Int)
    (hbal : ledgerBalanced cc) (hkey : key ∈ dimensions) :
    ∃ cc1, Deduct cc key amount = some cc1 ∧ ledgerBalanced cc1 := by
  obtain ⟨c, hc, hcb⟩ := hbal key hkey
  refine ⟨_, Deduct_present cc key amount c hc, ?_⟩
  intro d hd
  by_cases hdk : d = key
  · subst hdk
    refine ⟨{ remaining := wrapInt (c.remaining - amount), used := wrapInt (c.used + amount),
              name := c.name, initialAmount := c.initialAmount }, by simp, ?_⟩
    unfold counterBalanced at hcb ⊢
    simp only
    rw [wrapInt_deduct]
    exact hcb
  · obtain ⟨c1, hc1, hcb1⟩ := hbal d hd
    exact ⟨c1, by simp [hdk, hc1], hcb1⟩

theorem DeductAll_balanced (ops : List (CounterKey × Int)) :
    ∀ cc : CounterCollector, ledgerBalanced cc → (∀ op ∈ ops, op.1 ∈ dimensions) →
      ∃ cc1, DeductAll cc ops = some cc1 ∧ ledgerBalanced cc1 := by
  induction ops with
  | nil => intro cc hbal _; exact ⟨cc, rfl, hbal⟩
  | cons op rest ih =>
    intro cc hbal hkeys
    obtain ⟨key, amount⟩ := op
    obtain ⟨cc1, h1, hbal1⟩ := Deduct_balanced cc key amount hbal
      (hkeys (key, amount) (List.mem_cons_self _ _))
    obtain ⟨cc2, h2, hbal2⟩ := ih cc1 hbal1
      (fun op hop => hkeys op (List.mem_cons_of_mem _ hop))
    exact ⟨cc2, by simp [DeductAll, h1, h2], hbal2⟩

/-- C1: a collector made by `NewCounterCollector` starts every one of the seven
dimensions at `used = 0`, `remaining = initialAmount`, and after each call of
any finite sequence of `Deduct` calls on the seven dimensions, with any
amounts, no call has failed and every dimension satisfies the Go comparison
`used + remaining == initialAmount`; the sum is also equal to `initialAmount`
as an exact integer whenever that sum is itself a representable `int`. -/
theorem counter_invariant (ops : List (CounterKey × Int)) (n : Nat)
    (hkeys : ∀ op ∈ ops, op.1 ∈ dimensions) :
    (∀ d ∈ dimensions, ∃ c, NewCounterCollector.counters d = some c ∧
        c.used = 0 ∧ c.remaining = c.initialAmount) ∧
    ∃ cc, DeductAll NewCounterCollector (ops.take n) = some cc ∧
      ∀ d ∈ dimensions, ∃ c, cc.counters d = some c ∧
        wrapInt (c.used + c.remaining) = c.initialAmount ∧
        (inIntRange (c.used + c.remaining) → c.used + c.remaining = c.initialAmount) := by
  refine ⟨defaultCounters_start, ?_⟩
  obtain ⟨cc, hcc, hbal⟩ := DeductAll_balanced (ops.take n) NewCounterCollector ledgerBalanced_new
    (fun op hop => hkeys op (List.mem_of_mem_take hop))
  refine ⟨cc, hcc, ?_⟩
  intro d hd
  obtain ⟨c, hc, hcb⟩ := hbal d hd
  refine ⟨c, hc, hcb, ?_⟩
  intro hr
  rw [← wrapInt_of_inIntRange _ hr]
  exact hcb

theorem counter_invariant_witness :
    (∀ op ∈ [(S, (10 : Int)), (K, -3), (S, 9223372036854775807)], op.1 ∈ dimensions) ∧
    ∃ cc, DeductAll NewCounterCollector
        (([(S, (10 : Int)), (K, -3), (S, 9223372036854775807)] : List (CounterKey × Int)).take 3)
        = some cc ∧
      ∀ d ∈ dimensions, ∃ c, cc.counters d = some c ∧
        wrapInt (c.used + c.remaining) = c.initialAmount ∧
        (inIntRange (c.used + c.remaining) → c.used + c.remaining = c.initialAmount) :=
  ⟨by decide,
   (counter_invariant [(S, (10 : Int)), (K, -3), (S, 9223372036854775807)] 3 (by decide)).2⟩

/-- C2: on a ledger that holds dimension `d`, `Deduct(d, a)` does not fail,
adds `a` to `used[d]` and subtracts `a` from `remaining[d]` in Go's `int`
arithmetic (exactly so whenever the result is representable, with no
clamping), keeps the name and `initialAmount` of `d` and leaves the counter of
every other key as it was.  On a fresh default ledger `Deduct(S, 10)` leaves
`remaining[S] = 2^23 - 10`, and a further `Deduct(S, a)` with
`a > remaining[S]` leaves `remaining[S]` negative and equal to
`remaining[S] - a`. -/
theorem Deduct_effect :
    (∀ (cc : CounterCollector) (d : CounterKey) (a : Int) (c : Counter),
      cc.counters d = some c →
      ∃ cc1, Deduct cc d a = some cc1 ∧
        cc1.counters d = some { remaining := wrapInt (c.remaining - a),
                                used := wrapInt (c.used + a),
                                name := c.name, initialAmount := c.initialAmount } ∧
        (inIntRange (c.used + a) → wrapInt (c.used + a) = c.used + a) ∧
        (inIntRange (c.remaining - a) → wrapInt (c.remaining - a) = c.remaining - a) ∧
        ∀ k, k ≠ d → cc1.counters k = cc.counters k) ∧
    (∀ d ∈ dimensions, ∀ a : Int, ∃ cc1, Deduct NewCounterCollector d a = some cc1) ∧
    ∃ cc1, Deduct NewCounterCollector S 10 = some cc1 ∧
      (cc1.counters S).map (·.remaining) = some (2 ^ 23 - 10) ∧
      ∀ a : Int, inIntRange a → a > 2 ^ 23 - 10 →
        ∃ cc2, Deduct cc1 S a = some cc2 ∧
          (cc2.counters S).map (·.remaining) = some (2 ^ 23 - 10 - a) ∧
          (2 : Int) ^ 23 - 10 - a < 0 := by
  refine ⟨?_, ?_, ?_⟩
  · intro cc d a c hc
    refine ⟨_, Deduct_present cc d a c hc, by simp, wrapInt_of_inIntRange _,
      wrapInt_of_inIntRange _, ?_⟩
    intro k hk
    simp [hk]
  · intro d hd a
    obtain ⟨c, hc, _⟩ := defaultCounters_start d hd
    exact ⟨_, Deduct_present _ d a c hc⟩
  · have h0 : NewCounterCollector.counters S =
        some { remaining := 2 ^ 23, used := 0, name := "totalSteps", initialAmount := 2 ^ 23 } := by
      simp [NewCounterCollector, defaultCounters, totalSteps]
    refine ⟨_, Deduct_present _ S 10 _ h0, ?_, ?_⟩
    · simp [wrapInt]
    · intro a ha hgt
      refine ⟨_, Deduct_present _ S a
        { remaining := wrapInt (2 ^ 23 - 10), used := wrapInt (0 + 10), name := "totalSteps",
          initialAmount := 2 ^ 23 } (by simp), ?_, ?_⟩
      · simp only [if_true, Option.map_some', Option.some.injEq]
        unfold inIntRange at ha
        unfold wrapInt
        norm_num at hgt ⊢
        omega
      · norm_num at hgt ⊢
        omega

theorem Deduct_effect_witness :
    NewCounterCollector.counters K =
      some { remaining := 2376, used := 0, name := "keccaks", initialAmount := 2376 } ∧
    ∃ cc1, Deduct NewCounterCollector K 2400 = some cc1 ∧
      cc1.counters K =
        some { remaining := wrapInt (2376 - 2400), used := wrapInt (0 + 2400), name := "keccaks",
               initialAmount := 2376 } ∧
      ∀ k, k ≠ K → cc1.counters k = NewCounterCollector.counters k := by
  refine ⟨by decide, ?_⟩
  obtain ⟨cc1, h1, h2, _, _, h5⟩ := Deduct_effect.1 NewCounterCollector K 2400
    { remaining := 2376, used := 0, name := "keccaks", initialAmount := 2376 } (by decide)
  exact ⟨cc1, h1, h2, h5⟩

end ZkCounters

namespace Verifier

open Go

/-! ## Batch verifier -/

theorem okBundle_eq_some (p : PromiseWithBlocks) (b : VerifierBundle) :
    okBundle p = some b ↔ ∃ bwb, p.Promise.TryGet = (some bwb, none) ∧ bwb.Bundle = b := by
  unfold okBundle
  rcases h : p.Promise.TryGet with ⟨_ | bwb, _ | err⟩ <;> simp

theorem checkLoop_resolved_run (deps : VerifierDeps) (hx : Bool) (ps pre : List PromiseWithBlocks) :
    ∀ (bs : List VerifierBundle) (tail : List PromiseWithBlocks) (idx processed : Nat)
      (responses : List VerifierBundle),
      pre.map okBundle = bs.map some →
      checkLoop deps hx ps (pre ++ tail) idx processed responses =
        checkLoop deps hx ps tail (idx + pre.length) (processed + pre.length) (responses ++ bs) := by
  induction pre with
  | nil =>
    intro bs tail idx processed responses h
    cases bs with
    | nil => simp
    | cons b bs => simp at h
  | cons p pre ih =>
    intro bs tail idx processed responses h
    cases bs with
    | nil => simp at h
    | cons b bs =>
      simp only [List.map_cons, List.cons.injEq] at h
      obtain ⟨bwb, hget, hb⟩ := (okBundle_eq_some p b).1 h.1
      have hstep : checkLoop deps hx ps (p :: (pre ++ tail)) idx processed responses =
          checkLoop deps hx ps (pre ++ tail) (idx + 1) (processed + 1) (responses ++ [b]) := by
        rw [checkLoop, hget]
        simp only [hb]
      rw [List.cons_append, hstep, ih bs tail (idx + 1) (processed + 1) (responses ++ [b]) h.2]
      simp [Nat.add_assoc, Nat.add_comm 1]

theorem checkLoop_finished (deps : VerifierDeps) (hx : Bool) (ps : List PromiseWithBlocks) :
    ∀ (rest : List PromiseWithBlocks) (idx processed : Nat) (responses : List VerifierBundle)
      (p : Nat) (rs : List VerifierBundle) (ps1 : List PromiseWithBlocks),
      checkLoop deps hx ps rest idx processed responses = .finished p rs ps1 →
      ∃ bs : List VerifierBundle, bs.length ≤ rest.length ∧ p = processed + bs.length ∧
        rs = responses ++ bs ∧ (rest.take bs.length).map okBundle = bs.map some ∧
        (ps1 = ps ∨ ∃ e bwb err, rest[bs.length]? = some e ∧
          e.Promise.TryGet = (some bwb, some err) ∧
          ps1 = ps.set (idx + bs.length) (requeued deps hx bwb.Bundle.Request bwb.Blocks)) := by
  intro rest
  induction rest with
  | nil =>
    intro idx processed responses p rs ps1 h
    simp only [checkLoop, LoopExit.finished.injEq] at h
    exact ⟨[], by simp, by simp [h.1], by simp [h.2.1], by simp, Or.inl h.2.2.symm⟩
  | cons e rest ih =>
    intro idx processed responses p rs ps1 h
    rw [checkLoop] at h
    rcases hget : e.Promise.TryGet with ⟨_ | bwb, _ | err⟩
    · rw [hget] at h
      simp only [LoopExit.finished.injEq] at h
      exact ⟨[], by simp, by simp [h.1], by simp [h.2.1], by simp, Or.inl h.2.2.symm⟩
    · rw [hget] at h
      simp only at h
      split at h
      · simp at h
      · simp only [LoopExit.finished.injEq] at h
        exact ⟨[], by simp, by simp [h.1], by simp [h.2.1], by simp, Or.inl h.2.2.symm⟩
    · rw [hget] at h
      simp only at h
      obtain ⟨bs, hlen, hp, hrs, hmap, hps⟩ := ih (idx + 1) (processed + 1)
        (responses ++ [bwb.Bundle]) p rs ps1 h
      refine ⟨bwb.Bundle :: bs, by simpa using hlen, by simp [hp]; omega, by simp [hrs], ?_, ?_⟩
      · have hok : okBundle e = some bwb.Bundle := (okBundle_eq_some e _).2 ⟨bwb, hget, rfl⟩
        simp [hok, hmap]
      · rcases hps with h1 | ⟨e1, bwb1, err1, hget1, htry1, hfresh⟩
        · exact Or.inl h1
        · refine Or.inr ⟨e1, bwb1, err1, by simpa using hget1, htry1, ?_⟩
          rw [hfresh]
          congr 1
          simp only [List.length_cons]
          omega
    · rw [hget] at h
      simp only at h
      split at h
      · simp at h
      · split at h
        · simp at h
        · split at h
          · rename_i hx1
            simp only [LoopExit.finished.injEq] at h
            exact ⟨[], by simp, by simp [h.1], by simp [h.2.1], by simp,
              Or.inr ⟨e, bwb, err, by simp, hget, by simp [requeued, hx1, ← h.2.2]⟩⟩
          · rename_i hx1
            simp only [LoopExit.finished.injEq] at h
            exact ⟨[], by simp, by simp [h.1], by simp [h.2.1], by simp,
              Or.inr ⟨e, bwb, err, by simp, hget, by simp [requeued, hx1, ← h.2.2]⟩⟩

theorem drop_set_same {α : Type} (l : List α) :
    ∀ (k : Nat) (x : α), k < l.length → (l.set k x).drop k = x :: l.drop (k + 1) := by
  induction l with
  | nil => intro k x h; simp at h
  | cons a l ih =>
    intro k x h
    cases k with
    | zero => simp
    | succ k =>
      simp only [List.set_cons_succ, List.drop_succ_cons]
      exact ih k x (by simpa using h)

theorem removeProcessedPromises_eq (bv : BatchVerifier) (k : Nat) (hk : k ≤ bv.promises.length) :
    removeProcessedPromises bv k =
      ({ bv with promises := bv.promises.drop k }, bv.promises.length - k) := by
  unfold removeProcessedPromises
  by_cases h0 : k = 0
  · subst h0
    simp
  · by_cases hlen : k = bv.promises.length
    · simp only [h0, if_false]
      rw [if_pos hlen, hlen]
      simp
    · simp only [h0, hlen, if_false]
      simp

theorem CheckProgress_of_finished (deps : VerifierDeps) (bv : BatchVerifier) (p : Nat)
    (rs : List VerifierBundle) (ps1 : List PromiseWithBlocks)
    (h : checkLoop deps bv.hasExecutor bv.promises bv.promises 0 0 [] = .finished p rs ps1)
    (hp : p ≤ ps1.length) :
    CheckProgress deps bv =
      (.returned rs (ps1.length - p) none, { bv with promises := ps1.drop p }) := by
  unfold CheckProgress
  rw [h]
  simp only
  rw [removeProcessedPromises_eq _ _ (by simpa using hp)]

/-- The walk stops at an entry that is still pending, or that resolved with a
non-cancellation error and no bundle: the bundles of the entries before it are
returned and it becomes the head of the queue. -/
theorem CheckProgress_stop_at (deps : VerifierDeps) (bv : BatchVerifier)
    (pre post : List PromiseWithBlocks) (e : PromiseWithBlocks) (bs : List VerifierBundle)
    (hq : bv.promises = pre ++ e :: post) (hpre : pre.map okBundle = bs.map some)
    (he : e.Promise.TryGet = (none, none) ∨
      ∃ err, e.Promise.TryGet = (none, some err) ∧ errorsIs err .ErrPromiseCancelled = false) :
    CheckProgress deps bv =
      (.returned bs (post.length + 1) none, { bv with promises := e :: post }) := by
  have hlen : bs.length = pre.length := by
    have := congrArg List.length hpre
    simpa using this.symm
  have hloop : checkLoop deps bv.hasExecutor bv.promises bv.promises 0 0 [] =
      .finished pre.length bs bv.promises := by
    conv_lhs => rw [hq]
    rw [checkLoop_resolved_run deps bv.hasExecutor _ pre bs (e :: post) 0 0 [] hpre, checkLoop]
    rcases he with he | ⟨err, he, hc⟩
    · rw [he]
      simp [hq]
    · rw [he]
      simp [hc, hq]
  rw [CheckProgress_of_finished deps bv _ _ _ hloop (by simp [hq])]
  simp [hq]

/-- The walk reaches an entry that resolved with a bundle and a
non-cancellation error while its request is not overdue: the bundles of the
entries before it are returned, and a promise made anew for the bundle's
request and block numbers takes the entry's place at the head of the queue. -/
theorem CheckProgress_requeue_at (deps : VerifierDeps) (bv : BatchVerifier)
    (pre post : List PromiseWithBlocks) (e : PromiseWithBlocks) (bs : List VerifierBundle)
    (bwb : VerifierBundleWithBlocks) (err : GoError)
    (hq : bv.promises = pre ++ e :: post) (hpre : pre.map okBundle = bs.map some)
    (he : e.Promise.TryGet = (some bwb, some err))
    (hc : errorsIs err .ErrPromiseCancelled = false)
    (ho : deps.IsOverdue bwb.Bundle.Request = false) :
    CheckProgress deps bv =
      (.returned bs (post.length + 1) none,
       { bv with promises :=
          requeued deps bv.hasExecutor bwb.Bundle.Request bwb.Blocks :: post }) := by
  have hlen : bs.length = pre.length := by
    have := congrArg List.length hpre
    simpa using this.symm
  have hloop : checkLoop deps bv.hasExecutor bv.promises bv.promises 0 0 [] =
      .finished pre.length bs
        (bv.promises.set pre.length
          (requeued deps bv.hasExecutor bwb.Bundle.Request bwb.Blocks)) := by
    conv_lhs => rw [hq]
    rw [checkLoop_resolved_run deps bv.hasExecutor _ pre bs (e :: post) 0 0 [] hpre, checkLoop, he]
    cases hx : bv.hasExecutor <;> simp [hc, ho, requeued, hq]
  rw [CheckProgress_of_finished deps bv _ _ _ hloop (by simp [hq])]
  simp [hq]

/-- The walk reaches an entry that resolved with a bundle and a
non-cancellation error while its request is overdue: an error is returned with
no responses and the verifier is as before the call. -/
theorem CheckProgress_overdue_at (deps : VerifierDeps) (bv : BatchVerifier)
    (pre post : List PromiseWithBlocks) (e : PromiseWithBlocks) (bs : List VerifierBundle)
    (bwb : VerifierBundleWithBlocks) (err : GoError)
    (hq : bv.promises = pre ++ e :: post) (hpre : pre.map okBundle = bs.map some)
    (he : e.Promise.TryGet = (some bwb, some err))
    (hc : errorsIs err .ErrPromiseCancelled = false)
    (ho : deps.IsOverdue bwb.Bundle.Request = true) :
    CheckProgress deps bv =
      (.returned [] 0 (some (.errorf ("error: batch " ++
        toString bwb.Bundle.Request.BatchNumber ++ " couldn't be processed in 30 minutes"))),
       bv) := by
  have hloop : checkLoop deps bv.hasExecutor bv.promises bv.promises 0 0 [] =
      .overdue (.errorf ("error: batch " ++
        toString bwb.Bundle.Request.BatchNumber ++ " couldn't be processed in 30 minutes")) := by
    conv_lhs => rw [hq]
    rw [checkLoop_resolved_run deps bv.hasExecutor _ pre bs (e :: post) 0 0 [] hpre, checkLoop, he]
    simp [hc, ho]
  unfold CheckProgress
  rw [hloop]

/-- Every queue whose walk runs to its end: all bundles are returned and the
queue is emptied. -/
theorem CheckProgress_all_resolved (deps : VerifierDeps) (bv : BatchVerifier)
    (bs : List VerifierBundle) (hpre : bv.promises.map okBundle = bs.map some) :
    CheckProgress deps bv = (.returned bs 0 none, { bv with promises := [] }) := by
  have hlen : bs.length = bv.promises.length := by
    have := congrArg List.length hpre
    simpa using this.symm
  have hloop : checkLoop deps bv.hasExecutor bv.promises bv.promises 0 0 [] =
      .finished bv.promises.length bs bv.promises := by
    have := checkLoop_resolved_run deps bv.hasExecutor bv.promises bv.promises bs [] 0 0 [] hpre
    simp only [List.append_nil, Nat.zero_add, List.nil_append] at this
    rw [this, checkLoop]
  rw [CheckProgress_of_finished deps bv _ _ _ hloop (le_refl _)]
  simp

/-- What a return of `CheckProgress` without error says about the queue. -/
theorem CheckProgress_returned (deps : VerifierDeps) (bv bv1 : BatchVerifier)
    (responses : List VerifierBundle) (remaining : Nat)
    (h : CheckProgress deps bv = (.returned responses remaining none, bv1)) :
    responses.length ≤ bv.promises.length ∧
    (bv.promises.take responses.length).map okBundle = responses.map some ∧
    remaining = bv1.promises.length ∧
    bv1.hasExecutor = bv.hasExecutor ∧ bv1.forkId = bv.forkId ∧
    (bv1.promises = bv.promises.drop responses.length ∨
      ∃ e bwb err, bv.promises[responses.length]? = some e ∧
        e.Promise.TryGet = (some bwb, some err) ∧
        bv1.promises = requeued deps bv.hasExecutor bwb.Bundle.Request bwb.Blocks ::
          bv.promises.drop (responses.length + 1)) := by
  unfold CheckProgress at h
  rcases hloop : checkLoop deps bv.hasExecutor bv.promises bv.promises 0 0 [] with
    ⟨p, rs, ps1⟩ | err | msg
  · rw [hloop] at h
    obtain ⟨bs, hlen, hp, hrs, hmap, hps⟩ := checkLoop_finished deps bv.hasExecutor bv.promises
      bv.promises 0 0 [] p rs ps1 hloop
    simp only [Nat.zero_add, List.nil_append] at hp hrs hps
    subst hp hrs
    have hlen1 : ps1.length = bv.promises.length := by
      rcases hps with h1 | ⟨_, _, _, _, _, h1⟩ <;> simp [h1]
    simp only at h
    rw [removeProcessedPromises_eq _ _ (by simpa [hlen1] using hlen)] at h
    simp only [Prod.mk.injEq, CheckOutcome.returned.injEq, and_true] at h
    obtain ⟨⟨hr, hrem⟩, hbv⟩ := h
    subst hr hbv
    refine ⟨hlen, hmap, by simp [← hrem], rfl, rfl, ?_⟩
    rcases hps with h1 | ⟨e, bwb, err, hget, htry, h1⟩
    · exact Or.inl (by simp [h1])
    · refine Or.inr ⟨e, bwb, err, hget, htry, ?_⟩
      have hlt : rs.length < bv.promises.length := by
        rcases Nat.lt_or_ge rs.length bv.promises.length with hlt | hge
        · exact hlt
        · rw [List.getElem?_eq_none hge] at hget
          simp at hget
      simp only [h1]
      exact drop_set_same _ _ _ hlt
  · rw [hloop] at h
    simp at h
  · rw [hloop] at h
    simp at h

theorem CheckProgress_error_no_responses (deps : VerifierDeps) (bv bv1 : BatchVerifier)
    (responses : List VerifierBundle) (remaining : Nat) (err : GoError)
    (h : CheckProgress deps bv = (.returned responses remaining (some err), bv1)) :
    responses = [] ∧ remaining = 0 ∧ bv1 = bv := by
  unfold CheckProgress at h
  rcases hloop : checkLoop deps bv.hasExecutor bv.promises bv.promises 0 0 [] with
    ⟨p, rs, ps1⟩ | err1 | msg
  · rw [hloop] at h
    simp at h
  · rw [hloop] at h
    simp only [Prod.mk.injEq, CheckOutcome.returned.injEq] at h
    exact ⟨h.1.1.symm, h.1.2.1.symm, h.2.symm⟩
  · rw [hloop] at h
    simp at h

/-- C3: if the head promise of the queue is still pending, `CheckProgress`
returns no responses and leaves the verifier as it was, whatever the later
promises hold; and whenever `CheckProgress` returns, its responses are, in
queue order, the bundles of the first entries of the queue, every one of which
had resolved without error. -/
theorem CheckProgress_ordering (deps : VerifierDeps) (bv : BatchVerifier) :
    (∀ e post, bv.promises = e :: post → e.Promise.TryGet = (none, none) →
      CheckProgress deps bv = (.returned [] bv.promises.length none, bv)) ∧
    (∀ responses remaining err bv1,
      CheckProgress deps bv = (.returned responses remaining err, bv1) →
      responses.length ≤ bv.promises.length ∧
      (bv.promises.take responses.length).map okBundle = responses.map some) := by
  constructor
  · intro e post hq he
    have h := CheckProgress_stop_at deps bv [] post e [] (by simpa using hq) rfl (Or.inl he)
    rw [h, hq]
    cases bv
    simp_all
  · intro responses remaining err bv1 h
    cases err with
    | none =>
      obtain ⟨h1, h2, _⟩ := CheckProgress_returned deps bv bv1 responses remaining h
      exact ⟨h1, h2⟩
    | some err =>
      obtain ⟨h1, _, _⟩ := CheckProgress_error_no_responses deps bv bv1 responses remaining err h
      subst h1
      simp

theorem CheckProgress_ordering_witness :
    (sampleVerifier [pendingEntry 1, resolvedEntry 2, resolvedEntry 3]).promises =
      pendingEntry 1 :: [resolvedEntry 2, resolvedEntry 3] ∧
    (pendingEntry 1).Promise.TryGet = (none, none) ∧
    CheckProgress sampleDeps (sampleVerifier [pendingEntry 1, resolvedEntry 2, resolvedEntry 3]) =
      (.returned [] 3 none, sampleVerifier [pendingEntry 1, resolvedEntry 2, resolvedEntry 3]) :=
  ⟨rfl, rfl,
   (CheckProgress_ordering sampleDeps
      (sampleVerifier [pendingEntry 1, resolvedEntry 2, resolvedEntry 3])).1 _ _ rfl rfl⟩

/-- C4, amended: when the walk of `CheckProgress` reaches an entry
whose promise resolved with a bundle and a non-cancellation error and whose
request is not overdue, the call returns the bundles of the entries before it
and removes those entries, and it puts a promise made anew for the bundle's
request and block numbers (by the dispatcher when there is an executor, by
`syncPromise` otherwise) in the entry's place, right in front of the entries
after it, which are left as they were.  No response is returned for the entry
or for any entry after it, the queue is shorter by the number of entries
before the entry, and its length is unchanged when the entry is the head. -/
theorem CheckProgress_requeue (deps : VerifierDeps) (bv : BatchVerifier)
    (pre post : List PromiseWithBlocks) (e : PromiseWithBlocks) (bs : List VerifierBundle)
    (bwb : VerifierBundleWithBlocks) (err : GoError)
    (hq : bv.promises = pre ++ e :: post) (hpre : pre.map okBundle = bs.map some)
    (he : e.Promise.TryGet = (some bwb, some err))
    (hc : errorsIs err .ErrPromiseCancelled = false)
    (ho : deps.IsOverdue bwb.Bundle.Request = false) :
    ∃ fresh : PromiseWithBlocks,
      CheckProgress deps bv =
        (.returned bs (post.length + 1) none, { bv with promises := fresh :: post }) ∧
      fresh.Blocks = bwb.Blocks ∧
      (bv.hasExecutor = true →
        fresh.Promise = deps.CreateAsyncPromise bwb.Bundle.Request bwb.Blocks) ∧
      (bv.hasExecutor = false → fresh = syncPromise bwb.Bundle.Request bwb.Blocks) ∧
      bs.length = pre.length ∧
      (fresh :: post).length = bv.promises.length - pre.length ∧
      (pre = [] → (fresh :: post).length = bv.promises.length) := by
  refine ⟨requeued deps bv.hasExecutor bwb.Bundle.Request bwb.Blocks,
    CheckProgress_requeue_at deps bv pre post e bs bwb err hq hpre he hc ho, ?_, ?_, ?_, ?_, ?_, ?_⟩
  · cases bv.hasExecutor <;> simp [requeued, asyncPromise, syncPromise]
  · intro hx
    simp [requeued, hx, asyncPromise]
  · intro hx
    simp [requeued, hx]
  · have := congrArg List.length hpre
    simpa using this.symm
  · simp [hq]
  · intro hnil
    simp [hq, hnil]

theorem CheckProgress_requeue_witness :
    ∃ fresh : PromiseWithBlocks,
      CheckProgress sampleDeps
          (sampleVerifier [resolvedEntry 1, failedEntry 2 0 (.errorf "offline"), pendingEntry 3]) =
        (.returned [NewVerifierBundle (sampleRequest 1 0)
            (some { BatchNumber := 1, BlockNumber := 10, Valid := true, OriginalCounters := [],
                    Witness := none, ExecutorResponse := none, Error := none })]
          2 none,
         sampleVerifier [fresh, pendingEntry 3]) ∧
      fresh.Promise = Promise.pending ∧ fresh.Blocks = [20] := by
  obtain ⟨fresh, h, hb, hx, _⟩ := CheckProgress_requeue sampleDeps
    (sampleVerifier [resolvedEntry 1, failedEntry 2 0 (.errorf "offline"), pendingEntry 3])
    [resolvedEntry 1] [pendingEntry 3] (failedEntry 2 0 (.errorf "offline"))
    [NewVerifierBundle (sampleRequest 1 0)
      (some { BatchNumber := 1, BlockNumber := 10, Valid := true, OriginalCounters := [],
              Witness := none, ExecutorResponse := none, Error := none })]
    { Blocks := [20], Bundle := NewVerifierBundle (sampleRequest 2 0) none } (.errorf "offline")
    rfl rfl rfl rfl rfl
  exact ⟨fresh, h, hx rfl, hb⟩

/-- Counterexample for C4 as stated: in a queue of two entries whose first
resolved with a valid response and whose second resolved with a bundle and
the non-cancellation error "offline" while its request is not overdue, the
call returns the first bundle and leaves a queue of length one, not two, with
the fresh promise at position 0, not 1. -/
theorem CheckProgress_requeue_changes_length :
    (sampleVerifier [resolvedEntry 1, failedEntry 2 0 (.errorf "offline")]).promises.length = 2 ∧
    okBundle (resolvedEntry 1) ≠ none ∧
    (failedEntry 2 0 (.errorf "offline")).Promise.TryGet =
      (some { Blocks := [20], Bundle := NewVerifierBundle (sampleRequest 2 0) none },
       some (.errorf "offline")) ∧
    errorsIs (.errorf "offline") .ErrPromiseCancelled = false ∧
    sampleDeps.IsOverdue (sampleRequest 2 0) = false ∧
    (CheckProgress sampleDeps
      (sampleVerifier [resolvedEntry 1, failedEntry 2 0 (.errorf "offline")])).2.promises.length
        = 1 ∧
    (CheckProgress sampleDeps
      (sampleVerifier [resolvedEntry 1, failedEntry 2 0 (.errorf "offline")])).2.promises =
        [asyncPromise sampleDeps (sampleRequest 2 0) [20]] := by
  decide

/-- C5, amended: when the walk of `CheckProgress` reaches an entry
whose promise resolved with a bundle and a non-cancellation error and whose
request is overdue, the call returns a non-nil error, no responses and the
count 0, and the verifier, its queue included, is exactly as before the call:
the entries before it that had resolved are neither returned nor removed. -/
theorem CheckProgress_overdue (deps : VerifierDeps) (bv : BatchVerifier)
    (pre post : List PromiseWithBlocks) (e : PromiseWithBlocks) (bs : List VerifierBundle)
    (bwb : VerifierBundleWithBlocks) (err : GoError)
    (hq : bv.promises = pre ++ e :: post) (hpre : pre.map okBundle = bs.map some)
    (he : e.Promise.TryGet = (some bwb, some err))
    (hc : errorsIs err .ErrPromiseCancelled = false)
    (ho : deps.IsOverdue bwb.Bundle.Request = true) :
    ∃ fatal : GoError, CheckProgress deps bv = (.returned [] 0 (some fatal), bv) :=
  ⟨_, CheckProgress_overdue_at deps bv pre post e bs bwb err hq hpre he hc ho⟩

theorem CheckProgress_overdue_witness :
    ∃ fatal : GoError,
      CheckProgress sampleDeps
          (sampleVerifier [resolvedEntry 1, failedEntry 2 5 (.errorf "offline"), pendingEntry 3]) =
        (.returned [] 0 (some fatal),
         sampleVerifier [resolvedEntry 1, failedEntry 2 5 (.errorf "offline"), pendingEntry 3]) :=
  CheckProgress_overdue sampleDeps
    (sampleVerifier [resolvedEntry 1, failedEntry 2 5 (.errorf "offline"), pendingEntry 3])
    [resolvedEntry 1] [pendingEntry 3] (failedEntry 2 5 (.errorf "offline"))
    [NewVerifierBundle (sampleRequest 1 0)
      (some { BatchNumber := 1, BlockNumber := 10, Valid := true, OriginalCounters := [],
              Witness := none, ExecutorResponse := none, Error := none })]
    { Blocks := [20], Bundle := NewVerifierBundle (sampleRequest 2 5) none } (.errorf "offline")
    rfl rfl rfl rfl rfl

/-- Counterexample for C5 as stated: the entry at the head of this queue
resolved with an error, the cancellation error, and its request is overdue,
yet `CheckProgress` does not return an error: it panics. -/
theorem CheckProgress_overdue_cancelled_panics :
    (failedEntry 2 5 .ErrPromiseCancelled).Promise.TryGet =
      (some { Blocks := [20], Bundle := NewVerifierBundle (sampleRequest 2 5) none },
       some .ErrPromiseCancelled) ∧
    sampleDeps.IsOverdue (sampleRequest 2 5) = true ∧
    CheckProgress sampleDeps (sampleVerifier [failedEntry 2 5 .ErrPromiseCancelled]) =
      (.panicked "this should never happen",
       sampleVerifier [failedEntry 2 5 .ErrPromiseCancelled]) := by
  decide

/-- C10: whenever `CheckProgress` returns without error, with `k` the number
of responses returned, the queue after the call is the queue before the call
without its first `k` entries, where the entry that the call re-dispatched (if
any) has been replaced in place by the new promise and not removed; and the
returned count is the length of the queue after the call. -/
theorem CheckProgress_trims_front (deps : VerifierDeps) (bv bv1 : BatchVerifier)
    (responses : List VerifierBundle) (remaining : Nat)
    (h : CheckProgress deps bv = (.returned responses remaining none, bv1)) :
    responses.length ≤ bv.promises.length ∧
    remaining = bv1.promises.length ∧
    bv1.promises.length = bv.promises.length - responses.length ∧
    (bv1.promises = bv.promises.drop responses.length ∨
      ∃ e bwb err, bv.promises[responses.length]? = some e ∧
        e.Promise.TryGet = (some bwb, some err) ∧
        bv1.promises = requeued deps bv.hasExecutor bwb.Bundle.Request bwb.Blocks ::
          bv.promises.drop (responses.length + 1)) := by
  obtain ⟨h1, _, h3, _, _, h6⟩ := CheckProgress_returned deps bv bv1 responses remaining h
  refine ⟨h1, h3, ?_, h6⟩
  rcases h6 with h6 | ⟨e, bwb, err, hget, _, h6⟩
  · simp [h6]
  · have hlt : responses.length < bv.promises.length := by
      rcases Nat.lt_or_ge responses.length bv.promises.length with hlt | hge
      · exact hlt
      · rw [List.getElem?_eq_none hge] at hget
        simp at hget
    simp only [h6, List.length_cons, List.length_drop]
    omega

theorem CheckProgress_trims_front_witness :
    CheckProgress sampleDeps
        (sampleVerifier [resolvedEntry 1, resolvedEntry 2,
          failedEntry 3 0 (.errorf "offline"), resolvedEntry 4]) =
      (.returned [trustedBundle 9 { batchNumber := 1, blockNumber := 10, stateRoot := 0,
                                    counters := [], blockNumbers := [10] },
                  trustedBundle 9 { batchNumber := 2, blockNumber := 20, stateRoot := 0,
                                    counters := [], blockNumbers := [20] }] 2 none,
       sampleVerifier [asyncPromise sampleDeps (sampleRequest 3 0) [30], resolvedEntry 4]) ∧
    (sampleVerifier [asyncPromise sampleDeps (sampleRequest 3 0) [30],
        resolvedEntry 4]).promises.length =
      (sampleVerifier [resolvedEntry 1, resolvedEntry 2,
        failedEntry 3 0 (.errorf "offline"), resolvedEntry 4]).promises.length - 2 :=
  ⟨by decide,
   (CheckProgress_trims_front sampleDeps
      (sampleVerifier [resolvedEntry 1, resolvedEntry 2,
        failedEntry 3 0 (.errorf "offline"), resolvedEntry 4])
      (sampleVerifier [asyncPromise sampleDeps (sampleRequest 3 0) [30], resolvedEntry 4])
      [trustedBundle 9 { batchNumber := 1, blockNumber := 10, stateRoot := 0,
                         counters := [], blockNumbers := [10] },
       trustedBundle 9 { batchNumber := 2, blockNumber := 20, stateRoot := 0,
                         counters := [], blockNumbers := [20] }]
      2 (by decide)).2.2.1⟩

end Verifier

namespace LegacyVerifier

open Go Verifier

/-! ## Executor selection -/

theorem advance_range (len : Nat) (s : Int) (hlen : 1 ≤ len) (hs : 0 ≤ s)
    (hs2 : s < 9223372036854775807) :
    0 ≤ advance len s ∧ advance len s < len ∧
      advance len s = (if s + 1 ≥ (len : Int) then 0 else s + 1) := by
  have hw : wrapInt (s + 1) = s + 1 := by
    unfold wrapInt
    omega
  simp only [advance, hw]
  split_ifs <;> exact ⟨by omega, by omega, trivial⟩

theorem nextOnlineLoop_found (executors : List ILegacyExecutor) :
    ∀ (k : Nat) (s s1 : Int) (e : ILegacyExecutor),
      nextOnlineLoop executors k s = some (some e, s1) →
      0 ≤ s1 ∧ s1 < executors.length ∧ executors[s1.toNat]? = some e ∧ e.CheckOnline = true := by
  intro k
  induction k with
  | zero => intro s s1 e h; simp [nextOnlineLoop] at h
  | succ k ih =>
    intro s s1 e h
    rw [nextOnlineLoop] at h
    generalize advance executors.length s = n2 at h
    split at h
    · simp at h
    · rename_i hneg
      split at h
      · simp at h
      · rename_i temp htemp
        split at h
        · rename_i hon
          simp only [Option.some.injEq, Prod.mk.injEq] at h
          obtain ⟨h1, h2⟩ := h
          subst h1 h2
          have hlt := (List.getElem?_eq_some_iff.1 htemp).1
          refine ⟨by omega, by omega, htemp, hon⟩
        · exact ih _ s1 e h

theorem nextOnlineLoop_none (executors : List ILegacyExecutor) (hlen : 1 ≤ executors.length)
    (hmax : (executors.length : Int) ≤ 9223372036854775807) :
    ∀ (k : Nat) (s s1 : Int), 0 ≤ s → s < 9223372036854775807 →
      nextOnlineLoop executors k s = some (none, s1) →
      ∀ (i : Nat) (e : ILegacyExecutor), executors[i]? = some e →
        probeTurn executors.length s i ≤ k → e.CheckOnline = false := by
  intro k
  induction k with
  | zero =>
    intro s s1 hs hs2 _ i e he hturn
    have hlt := (List.getElem?_eq_some_iff.1 he).1
    unfold probeTurn at hturn
    split_ifs at hturn <;> omega
  | succ k ih =>
    intro s s1 hs hs2 h i e he hturn
    have hlt := (List.getElem?_eq_some_iff.1 he).1
    obtain ⟨ha0, ha1, ha2⟩ := advance_range executors.length s hlen hs hs2
    rw [nextOnlineLoop] at h
    generalize advance executors.length s = n2 at h ha0 ha1 ha2
    split at h
    · omega
    · split at h
      · simp at h
      · rename_i temp htemp
        split at h
        · simp at h
        · rename_i hoff
          by_cases hi : (i : Int) = n2
          · have : n2.toNat = i := by omega
            rw [this, he] at htemp
            simp only [Option.some.injEq] at htemp
            subst htemp
            simpa using hoff
          · refine ih n2 s1 ha0 (by omega) h i e he ?_
            unfold probeTurn at hturn ⊢
            split_ifs at hturn ha2 ⊢ <;> omega

theorem nextOnlineLoop_total (executors : List ILegacyExecutor) (hlen : 1 ≤ executors.length)
    (hmax : (executors.length : Int) ≤ 9223372036854775807) :
    ∀ (k : Nat) (s : Int), 0 ≤ s → s < 9223372036854775807 →
      ∃ exec s1, nextOnlineLoop executors k s = some (exec, s1) ∧
        (k = 0 ∨ (0 ≤ s1 ∧ s1 < executors.length)) := by
  intro k
  induction k with
  | zero => intro s _ _; exact ⟨none, s, rfl, Or.inl rfl⟩
  | succ k ih =>
    intro s hs hs2
    obtain ⟨ha0, ha1, _⟩ := advance_range executors.length s hlen hs hs2
    rw [nextOnlineLoop]
    generalize advance executors.length s = n2 at ha0 ha1
    rw [if_neg (by omega)]
    have hlt : n2.toNat < executors.length := by omega
    rw [List.getElem?_eq_getElem hlt]
    simp only
    split
    · exact ⟨_, _, rfl, Or.inr ⟨ha0, ha1⟩⟩
    · obtain ⟨exec, s1, h1, h2⟩ := ih n2 ha0 (by omega)
      refine ⟨exec, s1, h1, Or.inr ?_⟩
      rcases h2 with h2 | h2
      · subst h2
        simp only [nextOnlineLoop, Option.some.injEq, Prod.mk.injEq] at h1
        rw [← h1.2]
        exact ⟨ha0, ha1⟩
      · exact h2

theorem probeTurn_le (n : Nat) (s : Int) (i : Nat) (hs : 0 ≤ s) (hi : i < n) :
    probeTurn n s i ≤ n := by
  unfold probeTurn
  split_ifs <;> omega

theorem getNext_all_offline (v : LegacyExecutorVerifier)
    (hmax : (v.executors.length : Int) ≤ 9223372036854775807)
    (hs : 0 ≤ v.executorNumber) (hs2 : v.executorNumber < 9223372036854775807)
    (hoff : ∀ e ∈ v.executors, e.CheckOnline = false) :
    ∃ v1, getNextOnlineAvailableExecutor v = some (none, v1) ∧ v1.executors = v.executors := by
  unfold getNextOnlineAvailableExecutor
  rcases Nat.eq_zero_or_pos v.executors.length with h0 | hpos
  · rw [h0]
    exact ⟨_, rfl, rfl⟩
  · obtain ⟨exec, s1, hloop, _⟩ := nextOnlineLoop_total v.executors hpos hmax
      v.executors.length v.executorNumber hs hs2
    rw [hloop]
    cases exec with
    | none => exact ⟨_, rfl, rfl⟩
    | some e =>
      obtain ⟨_, _, hget, hon⟩ := nextOnlineLoop_found v.executors _ _ _ _ hloop
      have hmem : e ∈ v.executors := List.getElem?_mem hget
      rw [hoff e hmem] at hon
      simp at hon

/-- C7: on a non-empty pool, with the round-robin index at any value it can
hold between calls (non-negative, below the largest `int`) and liveness
answers fixed during the call, `getNextOnlineAvailableExecutor` returns
normally and leaves the index inside the pool; what it returns is an executor
of the pool that reported online; it returns one whenever at least one
executor is online; it returns no executor exactly when every executor of the
pool is offline; and when exactly one executor is online it returns that one,
leaving the index on it. -/
theorem getNextOnlineAvailableExecutor_online (v : LegacyExecutorVerifier)
    (hne : 1 ≤ v.executors.length)
    (hmax : (v.executors.length : Int) ≤ 9223372036854775807)
    (hs : 0 ≤ v.executorNumber) (hs2 : v.executorNumber < 9223372036854775807) :
    ∃ exec v1, getNextOnlineAvailableExecutor v = some (exec, v1) ∧
      v1.executors = v.executors ∧
      0 ≤ v1.executorNumber ∧ v1.executorNumber < v.executors.length ∧
      (∀ e, exec = some e →
        v.executors[v1.executorNumber.toNat]? = some e ∧ e.CheckOnline = true) ∧
      ((∃ e ∈ v.executors, e.CheckOnline = true) →
        ∃ e, exec = some e ∧ e ∈ v.executors ∧ e.CheckOnline = true) ∧
      (exec = none ↔ ∀ e ∈ v.executors, e.CheckOnline = false) ∧
      (∀ (i : Nat) (e : ILegacyExecutor), v.executors[i]? = some e → e.CheckOnline = true →
        (∀ (j : Nat) (e1 : ILegacyExecutor),
          v.executors[j]? = some e1 → e1.CheckOnline = true → j = i) →
        exec = some e ∧ v1.executorNumber = i) := by
  obtain ⟨exec, s1, hloop, hr⟩ := nextOnlineLoop_total v.executors hne hmax
    v.executors.length v.executorNumber hs hs2
  have hrange : 0 ≤ s1 ∧ s1 < v.executors.length := by
    rcases hr with h0 | h
    · omega
    · exact h
  have hfound : ∀ e, exec = some e →
      v.executors[s1.toNat]? = some e ∧ e.CheckOnline = true := by
    intro e he
    subst he
    obtain ⟨_, _, hget, hon⟩ := nextOnlineLoop_found v.executors _ _ _ _ hloop
    exact ⟨hget, hon⟩
  have hnone : exec = none → ∀ e ∈ v.executors, e.CheckOnline = false := by
    intro he e hmem
    subst he
    obtain ⟨i, hi, hget⟩ := List.getElem_of_mem hmem
    have hget1 : v.executors[i]? = some e := by
      rw [List.getElem?_eq_getElem hi, hget]
    exact nextOnlineLoop_none v.executors hne hmax _ _ _ hs hs2 hloop i e hget1
      (probeTurn_le _ _ _ hs hi)
  have hsome : (∃ e ∈ v.executors, e.CheckOnline = true) →
      ∃ e, exec = some e ∧ e ∈ v.executors ∧ e.CheckOnline = true := by
    rintro ⟨e0, hmem0, hon0⟩
    cases hexec : exec with
    | none =>
      have := hnone hexec e0 hmem0
      rw [this] at hon0
      simp at hon0
    | some e =>
      obtain ⟨hget, hon⟩ := hfound e hexec
      exact ⟨e, rfl, List.getElem?_mem hget, hon⟩
  refine ⟨exec, { v with executorNumber := s1 }, ?_, rfl, hrange.1, hrange.2, hfound, hsome,
    ⟨hnone, ?_⟩, ?_⟩
  · unfold getNextOnlineAvailableExecutor
    rw [hloop]
  · intro hoff
    cases hexec : exec with
    | none => rfl
    | some e =>
      obtain ⟨hget, hon⟩ := hfound e hexec
      rw [hoff e (List.getElem?_mem hget)] at hon
      simp at hon
  · intro i e hget hon huniq
    obtain ⟨e1, hexec, _, hon1⟩ := hsome ⟨e, List.getElem?_mem hget, hon⟩
    obtain ⟨hget1, _⟩ := hfound e1 hexec
    have hidx : s1.toNat = i := huniq _ _ hget1 hon1
    rw [hidx, hget] at hget1
    simp only [Option.some.injEq] at hget1
    subst hget1
    refine ⟨hexec, ?_⟩
    simp only
    omega

theorem getNextOnlineAvailableExecutor_online_witness :
    ∃ exec v1, getNextOnlineAvailableExecutor (samplePool 1) = some (exec, v1) ∧
      exec.map (fun e => e.handle) = some 101 ∧ v1.executorNumber = 1 := by
  obtain ⟨exec, v1, h, _, _, _, _, _, _, huniq⟩ :=
    getNextOnlineAvailableExecutor_online (samplePool 1) (by decide) (by decide) (by decide)
      (by decide)
  have hu : ∀ (j : Nat) (e1 : ILegacyExecutor),
      (samplePool 1).executors[j]? = some e1 → e1.CheckOnline = true → j = 1 := by
    intro j e1 hj hon
    match j with
    | 0 =>
      simp only [samplePool, List.getElem?_cons_zero, Option.some.injEq] at hj
      subst hj
      simp [sampleExecutor] at hon
    | 1 => rfl
    | 2 =>
      simp only [samplePool, List.getElem?_cons_succ, List.getElem?_cons_zero,
        Option.some.injEq] at hj
      subst hj
      simp [sampleExecutor] at hon
    | j + 3 => simp [samplePool] at hj
  obtain ⟨he, hi⟩ := huniq 1 (sampleExecutor 101 true) rfl rfl hu
  exact ⟨exec, v1, h, by rw [he]; rfl, hi⟩

/-! ## Dispatch without an online executor, and without a pool -/

/-- C8: when every executor of the pool is offline, the function that
`AddRequestUnsafe` hands to its promise returns no response and the error
`ErrNoExecutorAvailable`, so the promise settles with exactly that and no
verdict is produced; and a `CheckProgress` call whose walk reaches a queue
entry settled that way returns the bundles of the entries before it only and
keeps the entry, now at the head of the queue, with the entries after it. -/
theorem no_executor_available (v : LegacyExecutorVerifier) (counter : Int) (t : VerifyTask)
    (hmax : (v.executors.length : Int) ≤ 9223372036854775807)
    (hs : 0 ≤ v.executorNumber) (hs2 : v.executorNumber < 9223372036854775807)
    (hoff : ∀ e ∈ v.executors, e.CheckOnline = false) :
    (∃ v1, runVerifyTask v counter t =
        some ((none, some .ErrNoExecutorAvailable), v1, counter) ∧
      v1.executors = v.executors ∧
      (Promise.settled ((none : Option VerifierResponse),
        some GoError.ErrNoExecutorAvailable)).TryGet = (none, some .ErrNoExecutorAvailable)) ∧
    ∀ (deps : VerifierDeps) (bv : BatchVerifier) (pre post : List PromiseWithBlocks)
      (e : PromiseWithBlocks) (bs : List VerifierBundle),
      bv.promises = pre ++ e :: post → pre.map okBundle = bs.map some →
      e.Promise.TryGet = (none, some .ErrNoExecutorAvailable) →
      CheckProgress deps bv =
        (.returned bs (post.length + 1) none, { bv with promises := e :: post }) ∧
      bs.length = pre.length := by
  constructor
  · obtain ⟨v1, h1, h2⟩ := getNext_all_offline v hmax hs hs2 hoff
    refine ⟨v1, ?_, h2, rfl⟩
    unfold runVerifyTask
    rw [h1]
  · intro deps bv pre post e bs hq hpre he
    refine ⟨CheckProgress_stop_at deps bv pre post e bs hq hpre
      (Or.inr ⟨_, he, by decide⟩), ?_⟩
    have := congrArg List.length hpre
    simpa using this.symm

theorem no_executor_available_witness :
    (∃ v1, runVerifyTask (offlinePool 2) 0
        { payload := { Witness := [], DataStream := [], Coinbase := "", OldAccInputHash := [],
                       L1InfoRoot := none, TimestampLimit := 0, ForcedBlockhashL1 := [0],
                       ContextId := "5", L1InfoTreeMinTimestamps := [] },
          request := sampleRequest 5 0, witness := [], previousRoot := 0 } =
        some ((none, some .ErrNoExecutorAvailable), v1, 0)) ∧
    CheckProgress sampleDeps
        (sampleVerifier [resolvedEntry 4, failedEntryNoBundle 5 .ErrNoExecutorAvailable,
          resolvedEntry 6]) =
      (.returned [NewVerifierBundle (sampleRequest 4 0)
          (some { BatchNumber := 4, BlockNumber := 40, Valid := true, OriginalCounters := [],
                  Witness := none, ExecutorResponse := none, Error := none })] 2 none,
       sampleVerifier [failedEntryNoBundle 5 .ErrNoExecutorAvailable, resolvedEntry 6]) := by
  have h := no_executor_available (offlinePool 2) 0
    { payload := { Witness := [], DataStream := [], Coinbase := "", OldAccInputHash := [],
                   L1InfoRoot := none, TimestampLimit := 0, ForcedBlockhashL1 := [0],
                   ContextId := "5", L1InfoTreeMinTimestamps := [] },
      request := sampleRequest 5 0, witness := [], previousRoot := 0 }
    (by decide) (by decide) (by decide)
    (by
      intro e he
      simp only [offlinePool, List.mem_cons, List.mem_singleton, List.not_mem_nil,
        or_false] at he
      rcases he with h | h | h <;> subst h <;> rfl)
  obtain ⟨⟨v1, h1, _⟩, h2⟩ := h
  refine ⟨⟨v1, h1⟩, ?_⟩
  exact (h2 sampleDeps
    (sampleVerifier [resolvedEntry 4, failedEntryNoBundle 5 .ErrNoExecutorAvailable,
      resolvedEntry 6])
    [resolvedEntry 4] [resolvedEntry 6] (failedEntryNoBundle 5 .ErrNoExecutorAvailable)
    [NewVerifierBundle (sampleRequest 4 0)
      (some { BatchNumber := 4, BlockNumber := 40, Valid := true, OriginalCounters := [],
              Witness := none, ExecutorResponse := none, Error := none })]
    rfl rfl rfl).1

theorem AddNewChecks_sync (deps : VerifierDeps) (checks : List CheckArgs) :
    ∀ bv : BatchVerifier, bv.hasExecutor = false →
      AddNewChecks deps bv checks =
        { bv with promises := bv.promises ++ checks.map (fun c =>
            syncPromise
              (NewVerifierRequest c.batchNumber c.blockNumber bv.forkId c.stateRoot c.counters)
              c.blockNumbers) } := by
  induction checks with
  | nil => intro bv _; simp [AddNewChecks]
  | cons c rest ih =>
    intro bv hx
    rw [AddNewChecks, ih _ (by simp [AddNewCheck, appendPromise, hx])]
    simp [AddNewCheck, appendPromise, hx]

/-- C9: without an executor the promise made for a request is resolved when it
is made, with no error and a response that is valid and carries the request's
batch number and block number (`syncPromise`), and `AddRequestUnsafe` on an
empty pool likewise returns a resolved promise with a valid response for the
request's batch number; so `CheckProgress`, called right after any number of
`AddNewCheck` calls on an empty queue, returns all their bundles in insertion
order with remaining 0 and leaves the queue empty. -/
theorem no_executor_trusts_requests :
    (∀ (request : VerifierRequest) (blockNumbers : List Nat),
      (syncPromise request blockNumbers).Promise.TryGet =
        (some { Blocks := blockNumbers
                Bundle := { Request := request
                            Response := some
                              { BatchNumber := request.BatchNumber
                                BlockNumber := request.BlockNumber
                                Valid := true
                                OriginalCounters := request.Counters
                                Witness := none
                                ExecutorResponse := none
                                Error := none } } }, none)) ∧
    (∀ (deps : LegacyDeps) (v : LegacyExecutorVerifier) (request : VerifierRequest),
      v.executors = [] →
      ∃ response : VerifierResponse,
        (AddRequestUnsafe deps v request).promise = some { result := some response, err := none } ∧
        (AddRequestUnsafe deps v request).err = none ∧
        response.Valid = true ∧ response.BatchNumber = request.BatchNumber ∧
        response.Error = none) ∧
    (∀ (deps : VerifierDeps) (bv : BatchVerifier) (checks : List CheckArgs),
      bv.hasExecutor = false → bv.promises = [] →
      (AddNewChecks deps bv checks).promises.length = checks.length ∧
      CheckProgress deps (AddNewChecks deps bv checks) =
        (.returned (checks.map (trustedBundle bv.forkId)) 0 none, bv)) := by
  refine ⟨fun _ _ => rfl, ?_, ?_⟩
  · intro deps v request hv
    refine ⟨{ BatchNumber := request.BatchNumber, BlockNumber := 0, Valid := true,
              OriginalCounters := [], Witness := none, ExecutorResponse := none,
              Error := none }, ?_, ?_, rfl, rfl, rfl⟩
    · simp [AddRequestUnsafe, HasExecutors, hv]
    · simp [AddRequestUnsafe, HasExecutors, hv]
  · intro deps bv checks hx hq
    have hadd := AddNewChecks_sync deps checks bv hx
    rw [hadd]
    refine ⟨by simp [hq], ?_⟩
    rw [CheckProgress_all_resolved deps _ (checks.map (trustedBundle bv.forkId))
      (by
        simp only [hq, List.nil_append, List.map_map]
        apply List.map_congr_left
        intro c _
        rfl)]
    cases bv
    simp_all

theorem no_executor_trusts_requests_witness :
    CheckProgress sampleDeps
        (AddNewChecks sampleDeps (NewBatchVerifier false 9)
          [{ batchNumber := 1, blockNumber := 10, stateRoot := 0, counters := [], blockNumbers := [10] },
           { batchNumber := 2, blockNumber := 20, stateRoot := 0, counters := [], blockNumbers := [20] }]) =
      (.returned
        [trustedBundle 9
           { batchNumber := 1, blockNumber := 10, stateRoot := 0, counters := [], blockNumbers := [10] },
         trustedBundle 9
           { batchNumber := 2, blockNumber := 20, stateRoot := 0, counters := [], blockNumbers := [20] }]
        0 none, NewBatchVerifier false 9) :=
  (no_executor_trusts_requests.2.2 sampleDeps (NewBatchVerifier false 9)
    [{ batchNumber := 1, blockNumber := 10, stateRoot := 0, counters := [], blockNumbers := [10] },
     { batchNumber := 2, blockNumber := 20, stateRoot := 0, counters := [], blockNumbers := [20] }]
    rfl rfl).2

end LegacyVerifier

namespace Rollback

open Go

/-! ## Rollback boundary -/

theorem rollbackLoop_skip_valid (deps : RollbackDeps) (batchNumber forkId : Nat)
    (remaining : Int) (pre rest : List BlockStatus) (hpre : ∀ s ∈ pre, s.Valid = true) :
    rollbackLoop deps batchNumber forkId remaining (pre ++ rest) =
      rollbackLoop deps batchNumber forkId remaining rest := by
  induction pre with
  | nil => rfl
  | cons c pre ih =>
    have hc : c.Valid = true := hpre c (List.mem_cons_self _ _)
    rw [List.cons_append, rollbackLoop]
    simp only [hc, Bool.not_true, Bool.false_eq_true, if_false]
    exact ih (fun s hs => hpre s (List.mem_cons_of_mem _ hs))

theorem subOneU64_pos (x : Nat) (h1 : 1 ≤ x) (h2 : x < 18446744073709551616) :
    subOneU64 x = x - 1 := by
  unfold subOneU64 wrapU64
  omega

/-- C6: when the first invalid entry of the committed statuses is for block
`B` (a `uint64` with `B >= 1`), the two database writes and the commit succeed
and the header of `B` exists, `updateStreamAndCheckRollback` calls `UnwindTo`
exactly once, with the block `B - 1` and the hash of the header of `B`, and
returns `(true, 0, nil)`; when every committed status is valid it makes no
`UnwindTo` call and returns `false` with the remaining count. -/
theorem rollback_boundary (deps : RollbackDeps) (batchNumber forkId : Nat) (remaining : Int) :
    (∀ (pre post : List BlockStatus) (c : BlockStatus) (header : Header),
      (∀ s ∈ pre, s.Valid = true) → c.Valid = false →
      1 ≤ c.BlockNumber → c.BlockNumber < 18446744073709551616 →
      deps.WriteJustUnwound batchNumber = none → deps.WriteForkId batchNumber forkId = none →
      deps.ReadHeaderByNumber c.BlockNumber = some header → deps.Commit = none →
      (updateStreamAndCheckRollback deps (pre ++ c :: post) remaining none batchNumber
        forkId).rolledBack = true ∧
      (updateStreamAndCheckRollback deps (pre ++ c :: post) remaining none batchNumber
        forkId).remaining = 0 ∧
      (updateStreamAndCheckRollback deps (pre ++ c :: post) remaining none batchNumber
        forkId).err = none ∧
      unwindCalls (updateStreamAndCheckRollback deps (pre ++ c :: post) remaining none
        batchNumber forkId).effects = [(c.BlockNumber - 1, header.Hash)]) ∧
    (∀ (committed : List BlockStatus) (commitErr : Option GoError),
      (∀ s ∈ committed, s.Valid = true) →
      (updateStreamAndCheckRollback deps committed remaining commitErr batchNumber
        forkId).rolledBack = false ∧
      (updateStreamAndCheckRollback deps committed remaining commitErr batchNumber
        forkId).remaining = remaining ∧
      (updateStreamAndCheckRollback deps committed remaining commitErr batchNumber
        forkId).err = commitErr ∧
      unwindCalls (updateStreamAndCheckRollback deps committed remaining commitErr batchNumber
        forkId).effects = []) := by
  constructor
  · intro pre post c header hpre hc h1 h64 hw1 hw2 hh hcm
    have hr : updateStreamAndCheckRollback deps (pre ++ c :: post) remaining none batchNumber
        forkId =
        { rolledBack := true, remaining := 0, err := none,
          effects := [.WriteJustUnwound batchNumber, .WriteForkId batchNumber forkId,
            .ReadHeaderByNumber c.BlockNumber, .Commit,
            .UnwindTo (c.BlockNumber - 1) header.Hash] } := by
      unfold updateStreamAndCheckRollback
      simp only
      rw [rollbackLoop_skip_valid deps batchNumber forkId remaining pre _ hpre, rollbackLoop]
      simp only [hc, Bool.not_false, if_true, hw1, hw2, hh, hcm,
        subOneU64_pos c.BlockNumber h1 h64]
    rw [hr]
    exact ⟨rfl, rfl, rfl, rfl⟩
  · intro committed commitErr hall
    cases commitErr with
    | some err => exact ⟨rfl, rfl, rfl, rfl⟩
    | none =>
      have hr : updateStreamAndCheckRollback deps committed remaining none batchNumber forkId =
          { rolledBack := false, remaining := remaining, err := none, effects := [] } := by
        unfold updateStreamAndCheckRollback
        simp only
        have := rollbackLoop_skip_valid deps batchNumber forkId remaining committed [] hall
        rw [List.append_nil] at this
        rw [this, rollbackLoop]
      rw [hr]
      exact ⟨rfl, rfl, rfl, rfl⟩

theorem rollback_boundary_witness :
    (updateStreamAndCheckRollback sampleRollbackDeps
        [{ BlockNumber := 40, Valid := true, Error := none },
         { BlockNumber := 41, Valid := false, Error := none },
         { BlockNumber := 42, Valid := false, Error := none }] 3 none 7 9).rolledBack = true ∧
    unwindCalls (updateStreamAndCheckRollback sampleRollbackDeps
        [{ BlockNumber := 40, Valid := true, Error := none },
         { BlockNumber := 41, Valid := false, Error := none },
         { BlockNumber := 42, Valid := false, Error := none }] 3 none 7 9).effects
      = [(40, 2041)] ∧
    (updateStreamAndCheckRollback sampleRollbackDeps
        [{ BlockNumber := 40, Valid := true, Error := none }] 3 none 7 9).remaining = 3 :=
  have h := (rollback_boundary sampleRollbackDeps 7 9 3).1
    [{ BlockNumber := 40, Valid := true, Error := none }]
    [{ BlockNumber := 42, Valid := false, Error := none }]
    { BlockNumber := 41, Valid := false, Error := none } { Root := 1041, Hash := 2041 }
    (by decide) rfl (by decide) (by decide) rfl rfl rfl rfl
  have h2 := (rollback_boundary sampleRollbackDeps 7 9 3).2
    [{ BlockNumber := 40, Valid := true, Error := none }] none (by decide)
  ⟨h.1, h.2.2.2, h2.2.1⟩

end Rollback

namespace Verifier

open Go

/-! ## Cancellation -/

/-- C14: when the walk of `CheckProgress` reaches an entry whose promise
resolved with an error that is the cancellation error `ErrPromiseCancelled`
(with or without a bundle, overdue or not), the call panics: it does not
return, and the verifier with its queue is as before the call, so no entry was
re-dispatched, replaced or removed. -/
theorem CheckProgress_cancelled_panics (deps : VerifierDeps) (bv : BatchVerifier)
    (pre post : List PromiseWithBlocks) (e : PromiseWithBlocks) (bs : List VerifierBundle)
    (b : Option VerifierBundleWithBlocks) (err : GoError)
    (hq : bv.promises = pre ++ e :: post) (hpre : pre.map okBundle = bs.map some)
    (he : e.Promise.TryGet = (b, some err))
    (hc : errorsIs err .ErrPromiseCancelled = true) :
    CheckProgress deps bv = (.panicked "this should never happen", bv) ∧
    (∀ responses remaining fatal, (CheckProgress deps bv).1 ≠ .returned responses remaining fatal) ∧
    (CheckProgress deps bv).2.promises = bv.promises := by
  have hloop : checkLoop deps bv.hasExecutor bv.promises bv.promises 0 0 [] =
      .panicked "this should never happen" := by
    conv_lhs => rw [hq]
    rw [checkLoop_resolved_run deps bv.hasExecutor _ pre bs (e :: post) 0 0 [] hpre, checkLoop, he]
    simp [hc]
  have h : CheckProgress deps bv = (.panicked "this should never happen", bv) := by
    unfold CheckProgress
    rw [hloop]
  rw [h]
  exact ⟨rfl, fun _ _ _ => by simp, rfl⟩

theorem CheckProgress_cancelled_panics_witness :
    CheckProgress sampleDeps
        (sampleVerifier [resolvedEntry 1, failedEntryNoBundle 2 (.wrapped "dispatch" .ErrPromiseCancelled),
          resolvedEntry 3]) =
      (.panicked "this should never happen",
       sampleVerifier [resolvedEntry 1, failedEntryNoBundle 2 (.wrapped "dispatch" .ErrPromiseCancelled),
          resolvedEntry 3]) :=
  (CheckProgress_cancelled_panics sampleDeps
    (sampleVerifier [resolvedEntry 1, failedEntryNoBundle 2 (.wrapped "dispatch" .ErrPromiseCancelled),
      resolvedEntry 3])
    [resolvedEntry 1] [resolvedEntry 3]
    (failedEntryNoBundle 2 (.wrapped "dispatch" .ErrPromiseCancelled))
    [trustedBundle 9 { batchNumber := 1, blockNumber := 10, stateRoot := 0, counters := [],
                       blockNumbers := [10] }]
    none (.wrapped "dispatch" .ErrPromiseCancelled) rfl rfl rfl (by decide)).1

end Verifier

namespace Rollback

open Go

/-! ## Order of the rollback steps -/

theorem rollbackLoop_unwind_last (deps : RollbackDeps) (batchNumber forkId : Nat)
    (remaining : Int) (committed : List BlockStatus) :
    unwindCalls (rollbackLoop deps batchNumber forkId remaining committed).effects ≠ [] →
    ∃ b hash,
      (rollbackLoop deps batchNumber forkId remaining committed).effects =
        [.WriteJustUnwound batchNumber, .WriteForkId batchNumber forkId,
          .ReadHeaderByNumber b, .Commit, .UnwindTo (subOneU64 b) hash] ∧
      deps.WriteJustUnwound batchNumber = none ∧ deps.WriteForkId batchNumber forkId = none ∧
      deps.Commit = none ∧
      (rollbackLoop deps batchNumber forkId remaining committed).rolledBack = true := by
  induction committed with
  | nil => intro h; simp [rollbackLoop, unwindCalls] at h
  | cons c rest ih =>
    rw [rollbackLoop]
    cases hv : c.Valid
    · simp only [Bool.not_false, if_true]
      cases h1 : deps.WriteJustUnwound batchNumber with
      | some e => intro h; simp [unwindCalls] at h
      | none =>
        cases h2 : deps.WriteForkId batchNumber forkId with
        | some e => intro h; simp [unwindCalls] at h
        | none =>
          cases h3 : deps.ReadHeaderByNumber c.BlockNumber with
          | none => intro h; simp [unwindCalls] at h
          | some header =>
            cases h4 : deps.Commit with
            | some e => intro h; simp [unwindCalls] at h
            | none =>
              intro _
              exact ⟨c.BlockNumber, header.Hash, rfl, rfl, rfl, rfl, rfl⟩
    · simp only [Bool.not_true, Bool.false_eq_true, if_false]
      exact ih

/-- C15: whatever the committed statuses and the answers of the database, if
`updateStreamAndCheckRollback` calls `UnwindTo` at all, that call is its last
step and comes after the write of the just-unwound marker for the batch, the
write of the fork id for the batch, the header lookup and the commit, in that
order, all of which succeeded; and for the first invalid status, if the marker
write, the fork-id write, the header lookup or the commit fails, the function
returns that step's error with `false` and `UnwindTo` is not called. -/
theorem rollback_writes_before_unwind (deps : RollbackDeps) (committed : List BlockStatus)
    (remaining : Int) (commitErr : Option GoError) (batchNumber forkId : Nat) :
    (unwindCalls (updateStreamAndCheckRollback deps committed remaining commitErr batchNumber
        forkId).effects ≠ [] →
      ∃ b hash,
        (updateStreamAndCheckRollback deps committed remaining commitErr batchNumber
          forkId).effects =
          [.WriteJustUnwound batchNumber, .WriteForkId batchNumber forkId,
            .ReadHeaderByNumber b, .Commit, .UnwindTo (subOneU64 b) hash] ∧
        deps.WriteJustUnwound batchNumber = none ∧
        deps.WriteForkId batchNumber forkId = none ∧ deps.Commit = none) ∧
    (∀ (pre post : List BlockStatus) (c : BlockStatus),
      committed = pre ++ c :: post → commitErr = none →
      (∀ s ∈ pre, s.Valid = true) → c.Valid = false →
      (∀ e, deps.WriteJustUnwound batchNumber = some e →
        (updateStreamAndCheckRollback deps committed remaining commitErr batchNumber forkId) =
          { rolledBack := false, remaining := 0, err := some e,
            effects := [.WriteJustUnwound batchNumber] }) ∧
      (∀ e, deps.WriteJustUnwound batchNumber = none →
        deps.WriteForkId batchNumber forkId = some e →
        (updateStreamAndCheckRollback deps committed remaining commitErr batchNumber forkId) =
          { rolledBack := false, remaining := 0, err := some e,
            effects := [.WriteJustUnwound batchNumber, .WriteForkId batchNumber forkId] }) ∧
      (deps.WriteJustUnwound batchNumber = none →
        deps.WriteForkId batchNumber forkId = none →
        deps.ReadHeaderByNumber c.BlockNumber = none →
        ∃ e, (updateStreamAndCheckRollback deps committed remaining commitErr batchNumber
            forkId) =
          { rolledBack := false, remaining := 0, err := some e,
            effects := [.WriteJustUnwound batchNumber, .WriteForkId batchNumber forkId,
              .ReadHeaderByNumber c.BlockNumber] }) ∧
      (∀ e header, deps.WriteJustUnwound batchNumber = none →
        deps.WriteForkId batchNumber forkId = none →
        deps.ReadHeaderByNumber c.BlockNumber = some header → deps.Commit = some e →
        (updateStreamAndCheckRollback deps committed remaining commitErr batchNumber forkId) =
          { rolledBack := false, remaining := 0, err := some e,
            effects := [.WriteJustUnwound batchNumber, .WriteForkId batchNumber forkId,
              .ReadHeaderByNumber c.BlockNumber, .Commit] })) := by
  constructor
  · intro h
    cases commitErr with
    | some e => simp [updateStreamAndCheckRollback, unwindCalls] at h
    | none =>
      simp only [updateStreamAndCheckRollback] at h ⊢
      obtain ⟨b, hash, h1, h2, h3, h4, _⟩ :=
        rollbackLoop_unwind_last deps batchNumber forkId remaining committed h
      exact ⟨b, hash, h1, h2, h3, h4⟩
  · intro pre post c hq hce hpre hc
    subst hq hce
    have hstep : updateStreamAndCheckRollback deps (pre ++ c :: post) remaining none batchNumber
        forkId = rollbackLoop deps batchNumber forkId remaining (c :: post) := by
      simp only [updateStreamAndCheckRollback]
      exact rollbackLoop_skip_valid deps batchNumber forkId remaining pre _ hpre
    rw [hstep, rollbackLoop]
    simp only [hc, Bool.not_false, if_true]
    refine ⟨?_, ?_, ?_, ?_⟩
    · intro e h1
      simp only [h1]
    · intro e h1 h2
      simp only [h1, h2]
    · intro h1 h2 h3
      simp only [h1, h2, h3]
      exact ⟨_, rfl⟩
    · intro e header h1 h2 h3 h4
      simp only [h1, h2, h3, h4]

theorem rollback_writes_before_unwind_witness :
    (∃ b hash,
      (updateStreamAndCheckRollback sampleRollbackDeps
        [{ BlockNumber := 40, Valid := true, Error := none },
         { BlockNumber := 41, Valid := false, Error := none }] 3 none 7 9).effects =
        [.WriteJustUnwound 7, .WriteForkId 7 9, .ReadHeaderByNumber b, .Commit,
          .UnwindTo (subOneU64 b) hash]) ∧
    (updateStreamAndCheckRollback
        { sampleRollbackDeps with Commit := some (.errorf "commit failed") }
        [{ BlockNumber := 40, Valid := true, Error := none },
         { BlockNumber := 41, Valid := false, Error := none }] 3 none 7 9) =
      { rolledBack := false, remaining := 0, err := some (.errorf "commit failed"),
        effects := [.WriteJustUnwound 7, .WriteForkId 7 9, .ReadHeaderByNumber 41, .Commit] } :=
  ⟨(fun h => ⟨h.choose, h.choose_spec.choose, h.choose_spec.choose_spec.1⟩)
    ((rollback_writes_before_unwind sampleRollbackDeps
      [{ BlockNumber := 40, Valid := true, Error := none },
       { BlockNumber := 41, Valid := false, Error := none }] 3 none 7 9).1 (by decide)),
  (rollback_writes_before_unwind
      { sampleRollbackDeps with Commit := some (.errorf "commit failed") }
      [{ BlockNumber := 40, Valid := true, Error := none },
       { BlockNumber := 41, Valid := false, Error := none }] 3 none 7 9).2
    [{ BlockNumber := 40, Valid := true, Error := none }] []
    { BlockNumber := 41, Valid := false, Error := none } rfl rfl (by decide) rfl
    |>.2.2.2 (.errorf "commit failed") { Root := 1041, Hash := 2041 } rfl rfl rfl rfl⟩

end Rollback

namespace LegacyVerifier

open Go Verifier

/-! ## Timestamp limit of the payload -/

/-- Whenever `AddRequestUnsafe` starts a verification, the payload's
`TimestampLimit` is the timestamp of the last block of the batch as read from
storage, with nothing added. -/
theorem AddRequestUnsafe_timestampLimit (deps : LegacyDeps) (v : LegacyExecutorVerifier)
    (request : VerifierRequest) (t : VerifyTask)
    (h : (AddRequestUnsafe deps v request).task = some t) :
    ∃ blocks last lastBlock,
      deps.GetL2BlockNosByBatch request.BatchNumber = .ok blocks ∧
      blocks.getLast? = some last ∧ deps.ReadBlockByNumber last = .ok lastBlock ∧
      t.payload.TimestampLimit = lastBlock.Time := by
  unfold AddRequestUnsafe at h
  simp only at h
  split at h
  · simp at h
  · split at h
    · simp at h
    · rename_i blocks hblocks
      split at h
      · rename_i first last hfirst hlast
        split at h
        · simp at h
        · split at h
          · simp at h
          · split at h
            · simp at h
            · rename_i lastBlock hlastBlock
              split at h
              · simp at h
              · simp only [Option.some.injEq] at h
                subst h
                exact ⟨blocks, last, lastBlock, hblocks, hlast, hlastBlock, rfl⟩
      · simp at h

/-- C13, on the code: for batch 5 of the sample storage, whose last block 51
has the timestamp 1051, the payload assembled by `AddRequestUnsafe` has
`TimestampLimit = 1051`: the last block's timestamp itself, not a later
one. -/
theorem AddRequestUnsafe_timestampLimit_no_margin :
    sampleLegacyDeps.GetL2BlockNosByBatch 5 = .ok [50, 51] ∧
    sampleLegacyDeps.ReadBlockByNumber 51 = .ok { Time := 1051, Root := 51 } ∧
    ((AddRequestUnsafe sampleLegacyDeps (samplePool 0) (sampleRequest 5 0)).task.map
      (fun t => t.payload.TimestampLimit)) = some 1051 ∧
    ¬ (∃ t, (AddRequestUnsafe sampleLegacyDeps (samplePool 0) (sampleRequest 5 0)).task = some t ∧
        t.payload.TimestampLimit > 1051) := by
  refine ⟨rfl, rfl, by decide, ?_⟩
  rintro ⟨t, ht, hgt⟩
  obtain ⟨blocks, last, lastBlock, h1, h2, h3, h4⟩ :=
    AddRequestUnsafe_timestampLimit sampleLegacyDeps (samplePool 0) (sampleRequest 5 0) t ht
  have hb : blocks = [50, 51] := by
    have : (Except.ok [50, 51] : Except GoError (List Nat)) = .ok blocks := h1
    injection this with this
    exact this.symm
  subst hb
  simp only [List.getLast?_cons_cons, List.getLast?_singleton, Option.some.injEq] at h2
  subst h2
  have hl : lastBlock = { Time := 1051, Root := 51 } := by
    have : (Except.ok { Time := 1051, Root := 51 } : Except GoError Block) = .ok lastBlock := h3
    injection this with this
    exact this.symm
  subst hl
  rw [h4] at hgt
  exact absurd hgt (by decide)

end LegacyVerifier

namespace LegacyVerifier

open Go Verifier

/-! ## Round robin -/

theorem turnIndex_one (n s : Nat) (hlt : s < n) :
    turnIndex n s 1 = if s + 1 < n then s + 1 else 0 := by
  unfold turnIndex
  split_ifs with h
  · exact Nat.mod_eq_of_lt h
  · have : s + 1 = n := by omega
    rw [this, Nat.mod_self]

theorem turnIndex_lt (n s j : Nat) (hn : 0 < n) : turnIndex n s j < n :=
  Nat.mod_lt _ hn

theorem turnIndex_succ (n s j : Nat) :
    turnIndex n (turnIndex n s 1) j = turnIndex n s (j + 1) := by
  unfold turnIndex
  rw [Nat.mod_add_mod]
  congr 1
  omega

theorem turnIndex_unfold (n s j : Nat) (hs : s < n) (hj : j < n) :
    turnIndex n s (j + 1) = if s + j + 1 < n then s + j + 1 else s + j + 1 - n := by
  unfold turnIndex
  split_ifs with h
  · exact Nat.mod_eq_of_lt (by omega)
  · rw [Nat.mod_eq_sub_mod (by omega), Nat.mod_eq_of_lt (by omega)]
    omega

theorem nextOnlineLoop_first_online (executors : List ILegacyExecutor) (k : Nat) (s : Int)
    (hlen : 1 ≤ executors.length) (hs : 0 ≤ s) (hs2 : s < 9223372036854775807)
    (hon : ∀ e ∈ executors, e.CheckOnline = true) :
    nextOnlineLoop executors (k + 1) s =
      some (executors[(advance executors.length s).toNat]?, advance executors.length s) := by
  obtain ⟨ha0, ha1, _⟩ := advance_range executors.length s hlen hs hs2
  rw [nextOnlineLoop]
  generalize advance executors.length s = n2 at ha0 ha1
  rw [if_neg (by omega)]
  have hlt : n2.toNat < executors.length := by omega
  rw [List.getElem?_eq_getElem hlt]
  simp only
  rw [if_pos (hon _ (List.getElem_mem _))]

theorem getNext_all_online (v : LegacyExecutorVerifier) (s : Nat)
    (hs : v.executorNumber = (s : Int)) (hlt : s < v.executors.length)
    (hmax : (v.executors.length : Int) ≤ 9223372036854775807)
    (hon : ∀ e ∈ v.executors, e.CheckOnline = true) :
    getNextOnlineAvailableExecutor v =
      some (v.executors[turnIndex v.executors.length s 1]?,
        { v with executorNumber := (turnIndex v.executors.length s 1 : Nat) }) := by
  have hadv : advance v.executors.length v.executorNumber =
      (turnIndex v.executors.length s 1 : Nat) := by
    obtain ⟨_, _, h3⟩ := advance_range v.executors.length v.executorNumber (by omega)
      (by omega) (by omega)
    rw [h3, turnIndex_one _ _ hlt, hs]
    split_ifs <;> omega
  have hloop : ∀ k, 1 ≤ k → nextOnlineLoop v.executors k v.executorNumber =
      some (v.executors[turnIndex v.executors.length s 1]?,
        ((turnIndex v.executors.length s 1 : Nat) : Int)) := by
    intro k hk
    obtain ⟨m, rfl⟩ : ∃ m, k = m + 1 := ⟨k - 1, by omega⟩
    rw [nextOnlineLoop_first_online v.executors m v.executorNumber (by omega) (by omega)
      (by omega) hon, hadv]
    simp
  unfold getNextOnlineAvailableExecutor
  rw [hloop _ (by omega)]

theorem selectTimes_all_online (k : Nat) :
    ∀ (v : LegacyExecutorVerifier) (s : Nat), v.executorNumber = (s : Int) →
      s < v.executors.length → (v.executors.length : Int) ≤ 9223372036854775807 →
      (∀ e ∈ v.executors, e.CheckOnline = true) →
      ∃ v1, selectTimes k v =
          some ((List.range k).map
            (fun j => v.executors[turnIndex v.executors.length s (j + 1)]?), v1) ∧
        v1.executors = v.executors ∧
        v1.executorNumber = (turnIndex v.executors.length s k : Nat) := by
  induction k with
  | zero =>
    intro v s hs hlt _ _
    refine ⟨v, rfl, rfl, ?_⟩
    rw [hs]
    simp [turnIndex, Nat.mod_eq_of_lt hlt]
  | succ k ih =>
    intro v s hs hlt hmax hon
    have h1 := getNext_all_online v s hs hlt hmax hon
    obtain ⟨v2, h2, hex, hnum⟩ := ih
      { v with executorNumber := (turnIndex v.executors.length s 1 : Nat) }
      (turnIndex v.executors.length s 1) rfl (turnIndex_lt _ _ _ (by omega)) hmax hon
    refine ⟨v2, ?_, hex, ?_⟩
    · rw [selectTimes, h1]
      simp only
      rw [h2]
      simp only [Option.some.injEq, Prod.mk.injEq, and_true]
      rw [List.range_succ_eq_map, List.map_cons, List.map_map]
      congr 1
      apply List.map_congr_left
      intro j _
      simp only [Function.comp, turnIndex_succ]
    · rw [hnum]
      simp only [turnIndex_succ]

theorem selectTimes_in_range (k : Nat) :
    ∀ (v : LegacyExecutorVerifier), 0 ≤ v.executorNumber →
      v.executorNumber < v.executors.length →
      (v.executors.length : Int) ≤ 9223372036854775807 →
      ∃ execs v1, selectTimes k v = some (execs, v1) ∧ execs.length = k ∧
        v1.executors = v.executors ∧
        0 ≤ v1.executorNumber ∧ v1.executorNumber < v.executors.length := by
  induction k with
  | zero => intro v h0 h1 _; exact ⟨[], v, rfl, rfl, rfl, h0, h1⟩
  | succ k ih =>
    intro v h0 h1 hmax
    have hne : 1 ≤ v.executors.length := by omega
    obtain ⟨exec, s1, hloop, hr⟩ := nextOnlineLoop_total v.executors hne hmax
      v.executors.length v.executorNumber h0 (by omega)
    have hrange : 0 ≤ s1 ∧ s1 < v.executors.length := by
      rcases hr with hz | h
      · omega
      · exact h
    obtain ⟨execs, v2, h2, hl, hex, hr0, hr1⟩ := ih { v with executorNumber := s1 }
      hrange.1 hrange.2 hmax
    refine ⟨exec :: execs, v2, ?_, by simp [hl], hex, hr0, hr1⟩
    rw [selectTimes]
    unfold getNextOnlineAvailableExecutor
    rw [hloop]
    simp only
    rw [h2]

/-- C20: on a pool of `n >= 1` executors with the round-robin index at
`s < n`: when all executors are online, `k` successive calls of
`getNextOnlineAvailableExecutor` return the executors at the indices
`(s + 1) mod n, ..., (s + k) mod n` and leave the index at `(s + k) mod n`,
and among `n` successive calls every index of the pool occurs exactly once;
and for every liveness of the executors, any number of successive calls
return without an index out of range and leave the index within `[0, n)`. -/
theorem getNextOnlineAvailableExecutor_round_robin (v : LegacyExecutorVerifier) (s : Nat)
    (hs : v.executorNumber = (s : Int)) (hlt : s < v.executors.length)
    (hmax : (v.executors.length : Int) ≤ 9223372036854775807) :
    ((∀ e ∈ v.executors, e.CheckOnline = true) →
      (∀ k, ∃ v1, selectTimes k v =
          some ((List.range k).map
            (fun j => v.executors[turnIndex v.executors.length s (j + 1)]?), v1) ∧
        v1.executors = v.executors ∧
        v1.executorNumber = (turnIndex v.executors.length s k : Nat)) ∧
      (∀ i, i < v.executors.length →
        ∃! j, j < v.executors.length ∧ turnIndex v.executors.length s (j + 1) = i)) ∧
    (∀ k, ∃ execs v1, selectTimes k v = some (execs, v1) ∧ execs.length = k ∧
      v1.executors = v.executors ∧
      0 ≤ v1.executorNumber ∧ v1.executorNumber < v.executors.length) := by
  refine ⟨fun hon => ⟨fun k => selectTimes_all_online k v s hs hlt hmax hon, ?_⟩,
    fun k => selectTimes_in_range k v (by omega) (by omega) hmax⟩
  intro i hi
  refine ⟨if s < i then i - s - 1 else i + v.executors.length - s - 1, ⟨?_, ?_⟩, ?_⟩
  · split_ifs <;> omega
  · rw [turnIndex_unfold _ _ _ hlt (by split_ifs <;> omega)]
    split_ifs <;> omega
  · rintro j ⟨hj, hji⟩
    rw [turnIndex_unfold _ _ _ hlt hj] at hji
    split_ifs at hji ⊢ <;> omega

theorem getNextOnlineAvailableExecutor_round_robin_witness :
    ∃ v1, selectTimes 3 (onlinePool 1) =
        some ([(onlinePool 1).executors[2]?, (onlinePool 1).executors[0]?,
               (onlinePool 1).executors[1]?], v1) ∧
      v1.executorNumber = 1 := by
  obtain ⟨v1, h1, _, h2⟩ := (getNextOnlineAvailableExecutor_round_robin (onlinePool 1) 1 rfl
    (by decide) (by decide)).1
    (by
      intro e he
      simp only [onlinePool, List.mem_cons, List.mem_singleton, List.not_mem_nil,
        or_false] at he
      rcases he with h | h | h <;> subst h <;> rfl) |>.1 3
  exact ⟨v1, h1, h2⟩

end LegacyVerifier

namespace BlockData

open Go

/-! ## Block data limit -/

theorem AddTransactionData_eq (bdc : BlockDataChecker) (txL2Data : List Nat)
    (hl : bdc.limit = LIMIT_120_KB) (hc : bdc.counter ≤ LIMIT_120_KB)
    (hlen : txL2Data.length < 9223372036854775808) :
    AddTransactionData bdc txL2Data =
      if bdc.counter + txL2Data.length > 120000 then (true, bdc)
      else (false, { bdc with counter := bdc.counter + txL2Data.length }) := by
  unfold LIMIT_120_KB at hl hc
  have h1 : wrapU64 txL2Data.length = txL2Data.length := by
    unfold wrapU64
    omega
  have h2 : wrapU64 (bdc.counter + txL2Data.length) = bdc.counter + txL2Data.length := by
    unfold wrapU64
    omega
  simp only [AddTransactionData, h1, h2, hl]

theorem AddBlockStartData_eq (startSize : Nat) (bdc : BlockDataChecker) (d i : Nat)
    (hl : bdc.limit = LIMIT_120_KB) (hc : bdc.counter ≤ LIMIT_120_KB)
    (hsize : startSize + 120000 < 18446744073709551616) :
    AddBlockStartData startSize bdc d i =
      if bdc.counter + startSize > 120000 then (true, bdc)
      else (false, { bdc with counter := bdc.counter + startSize }) := by
  unfold LIMIT_120_KB at hl hc
  have h2 : wrapU64 (bdc.counter + startSize) = bdc.counter + startSize := by
    unfold wrapU64
    omega
  simp only [AddBlockStartData, h2, hl]

theorem runCalls_bounded (startSize : Nat)
    (hsize : startSize + 120000 < 18446744073709551616) (calls : List CheckerCall) :
    ∀ bdc : BlockDataChecker, bdc.limit = LIMIT_120_KB → bdc.counter ≤ LIMIT_120_KB →
      (∀ c ∈ calls, sliceLen c < 9223372036854775808) →
      (runCalls startSize bdc calls).limit = LIMIT_120_KB ∧
      (runCalls startSize bdc calls).counter ≤ LIMIT_120_KB := by
  induction calls with
  | nil => intro bdc hl hc _; exact ⟨hl, hc⟩
  | cons c rest ih =>
    intro bdc hl hc hlen
    have hrest : ∀ c ∈ rest, sliceLen c < 9223372036854775808 :=
      fun c hc => hlen c (List.mem_cons_of_mem _ hc)
    cases c with
    | blockStart d i =>
      rw [runCalls, AddBlockStartData_eq startSize bdc d i hl hc hsize]
      split_ifs with h
      · exact ih bdc hl hc hrest
      · exact ih _ hl (by simp only [LIMIT_120_KB]; omega) hrest
    | transaction txL2Data =>
      have hthis : txL2Data.length < 9223372036854775808 :=
        hlen (.transaction txL2Data) (List.mem_cons_self _ _)
      rw [runCalls, AddTransactionData_eq bdc txL2Data hl hc hthis]
      split_ifs with h
      · exact ih bdc hl hc hrest
      · exact ih _ hl (by simp only [LIMIT_120_KB]; omega) hrest

/-- C18: on every checker reached from `NewBlockDataChecker` by any sequence
of calls, `counter <= 120000`; on such a checker `AddTransactionData` returns
true exactly when `counter + len(txL2Data)` exceeds 120000, and then leaves
the checker as it was, and otherwise returns false with `counter` grown by
exactly `len(txL2Data)`; `AddBlockStartData` does the same with the fixed
block-start size.  Slices are no longer than the largest `int`, and the
block-start size is a `uint64` that cannot overflow the sum. -/
theorem BlockDataChecker_limit (startSize : Nat) (calls : List CheckerCall)
    (hsize : startSize + 120000 < 18446744073709551616)
    (hcalls : ∀ c ∈ calls, sliceLen c < 9223372036854775808) :
    (runCalls startSize NewBlockDataChecker calls).limit = 120000 ∧
    (runCalls startSize NewBlockDataChecker calls).counter ≤ 120000 ∧
    (∀ txL2Data : List Nat, txL2Data.length < 9223372036854775808 →
      ((AddTransactionData (runCalls startSize NewBlockDataChecker calls) txL2Data).1 = true ↔
        (runCalls startSize NewBlockDataChecker calls).counter + txL2Data.length > 120000) ∧
      ((AddTransactionData (runCalls startSize NewBlockDataChecker calls) txL2Data).1 = true →
        (AddTransactionData (runCalls startSize NewBlockDataChecker calls) txL2Data).2 =
          runCalls startSize NewBlockDataChecker calls) ∧
      ((AddTransactionData (runCalls startSize NewBlockDataChecker calls) txL2Data).1 = false →
        (AddTransactionData (runCalls startSize NewBlockDataChecker calls) txL2Data).2 =
          { runCalls startSize NewBlockDataChecker calls with
            counter := (runCalls startSize NewBlockDataChecker calls).counter +
              txL2Data.length })) ∧
    (∀ d i : Nat,
      ((AddBlockStartData startSize (runCalls startSize NewBlockDataChecker calls) d i).1 = true ↔
        (runCalls startSize NewBlockDataChecker calls).counter + startSize > 120000) ∧
      ((AddBlockStartData startSize (runCalls startSize NewBlockDataChecker calls) d i).1 = true →
        (AddBlockStartData startSize (runCalls startSize NewBlockDataChecker calls) d i).2 =
          runCalls startSize NewBlockDataChecker calls) ∧
      ((AddBlockStartData startSize (runCalls startSize NewBlockDataChecker calls) d i).1 = false →
        (AddBlockStartData startSize (runCalls startSize NewBlockDataChecker calls) d i).2 =
          { runCalls startSize NewBlockDataChecker calls with
            counter := (runCalls startSize NewBlockDataChecker calls).counter + startSize })) := by
  obtain ⟨hl, hc⟩ := runCalls_bounded startSize hsize calls NewBlockDataChecker rfl
    (by simp [NewBlockDataChecker]) hcalls
  generalize runCalls startSize NewBlockDataChecker calls = bdc at hl hc
  refine ⟨hl, hc, ?_, ?_⟩
  · intro txL2Data hlen
    rw [AddTransactionData_eq bdc txL2Data hl hc hlen]
    split_ifs with h
    · simp [h]
    · simp [h]
  · intro d i
    rw [AddBlockStartData_eq startSize bdc d i hl hc hsize]
    split_ifs with h
    · simp [h]
    · simp [h]

theorem BlockDataChecker_limit_witness :
    (runCalls 65 NewBlockDataChecker
      [.blockStart 0 0, .transaction [1, 2, 3],
       .transaction [4, 5]]).counter ≤ 120000 ∧
    (runCalls 65 NewBlockDataChecker
      [.blockStart 0 0, .transaction [1, 2, 3],
       .transaction [4, 5]]).limit = 120000 :=
  have h := BlockDataChecker_limit 65
    [.blockStart 0 0, .transaction [1, 2, 3],
     .transaction [4, 5]] (by decide)
    (by
      intro c hc
      simp only [List.mem_cons, List.mem_singleton, List.not_mem_nil, or_false] at hc
      rcases hc with h | h | h <;> subst h <;> simp [sliceLen])
  ⟨h.2.1, h.1⟩

end BlockData

namespace VerifyStage

open Go Verifier

/-! ## Verification checkpoint -/

theorem consumed_succ (p k : Nat) :
    consumed p (k + 1) =
      [.SaveStageProgress (p + 1), .RemoveResponse (p + 1)] ++ consumed (p + 1) k := by
  simp [consumed, List.range'_succ, List.flatMap]

theorem savedProgress_append (a b : List StageEffect) :
    savedProgress (a ++ b) = savedProgress a ++ savedProgress b := by
  simp [savedProgress, List.filterMap_append]

theorem releasedResponses_append (a b : List StageEffect) :
    releasedResponses (a ++ b) = releasedResponses a ++ releasedResponses b := by
  simp [releasedResponses, List.filterMap_append]

theorem savedProgress_consumed (p k : Nat) : savedProgress (consumed p k) = List.range' (p + 1) k := by
  induction k generalizing p with
  | zero => simp [consumed, savedProgress]
  | succ k ih =>
    rw [consumed_succ, savedProgress_append, ih (p + 1), List.range'_succ]
    simp [savedProgress]

theorem releasedResponses_consumed (p k : Nat) :
    releasedResponses (consumed p k) = List.range' (p + 1) k := by
  induction k generalizing p with
  | zero => simp [consumed, releasedResponses]
  | succ k ih =>
    rw [consumed_succ, releasedResponses_append, ih (p + 1), List.range'_succ]
    simp [releasedResponses]

theorem verifyLoop_cons (deps : VerifyStageDeps) (p : Nat) (effects : List StageEffect)
    (r : VerifierResponse) (rest : List VerifierResponse) :
    verifyLoop deps p effects (r :: rest) =
      if r.BatchNumber ≠ wrapU64 (p + 1) then
        { exit := .stopped, progress := p, effects := effects }
      else
        match deps.SaveStageProgress r.BatchNumber with
        | some err =>
          { exit := .failed err, progress := p,
            effects := effects ++ [.SaveStageProgressFailed r.BatchNumber] }
        | none =>
          verifyLoop deps r.BatchNumber
            (effects ++ [.SaveStageProgress r.BatchNumber, .RemoveResponse r.BatchNumber])
            rest := by
  rw [verifyLoop]
  simp only [ite_self]

/-- The loop reads nothing of a response but its batch number. -/
theorem verifyLoop_congr (deps : VerifyStageDeps) (l1 : List VerifierResponse) :
    ∀ (l2 : List VerifierResponse) (p : Nat) (effects : List StageEffect),
      l1.map (fun r => r.BatchNumber) = l2.map (fun r => r.BatchNumber) →
      verifyLoop deps p effects l1 = verifyLoop deps p effects l2 := by
  induction l1 with
  | nil =>
    intro l2 p effects h
    cases l2 with
    | nil => rfl
    | cons b l2 => simp at h
  | cons a l1 ih =>
    intro l2 p effects h
    cases l2 with
    | nil => simp at h
    | cons b l2 =>
      simp only [List.map_cons, List.cons.injEq] at h
      rw [verifyLoop_cons, verifyLoop_cons, h.1]
      split_ifs with hne
      · rfl
      · cases deps.SaveStageProgress b.BatchNumber with
        | some err => rfl
        | none => exact ih l2 _ _ h.2

theorem verifyLoop_spec (deps : VerifyStageDeps) (rs : List VerifierResponse) :
    ∀ (p : Nat) (effects : List StageEffect), p + rs.length < 18446744073709551616 →
      ∃ k, k ≤ rs.length ∧
        (rs.take k).map (fun r => r.BatchNumber) = List.range' (p + 1) k ∧
        (verifyLoop deps p effects rs).progress = p + k ∧
        ((verifyLoop deps p effects rs).exit = .completed ∧ k = rs.length ∧
            (verifyLoop deps p effects rs).effects = effects ++ consumed p k ∨
          (verifyLoop deps p effects rs).exit = .stopped ∧
            (∃ r, rs[k]? = some r ∧ r.BatchNumber ≠ p + k + 1) ∧
            (verifyLoop deps p effects rs).effects = effects ++ consumed p k ∨
          ∃ err, (verifyLoop deps p effects rs).exit = .failed err ∧
            (∃ r, rs[k]? = some r ∧ r.BatchNumber = p + k + 1) ∧
            deps.SaveStageProgress (p + k + 1) = some err ∧
            (verifyLoop deps p effects rs).effects =
              effects ++ consumed p k ++ [.SaveStageProgressFailed (p + k + 1)]) := by
  induction rs with
  | nil =>
    intro p effects _
    exact ⟨0, by simp, by simp, by simp [verifyLoop],
      Or.inl ⟨by simp [verifyLoop], rfl, by simp [verifyLoop, consumed]⟩⟩
  | cons r rest ih =>
    intro p effects hp
    simp only [List.length_cons] at hp
    have hw : wrapU64 (p + 1) = p + 1 := by
      unfold wrapU64
      omega
    rw [verifyLoop_cons, hw]
    by_cases hne : r.BatchNumber ≠ p + 1
    · rw [if_pos hne]
      exact ⟨0, by simp, by simp, by simp,
        Or.inr (Or.inl ⟨rfl, ⟨r, by simp, by simpa using hne⟩, by simp [consumed]⟩)⟩
    · rw [if_neg hne]
      have hb : r.BatchNumber = p + 1 := by
        by_contra h
        exact hne h
      simp only [hb]
      cases hsave : deps.SaveStageProgress (p + 1) with
      | some err =>
        exact ⟨0, by simp, by simp, by simp,
          Or.inr (Or.inr ⟨err, rfl, ⟨r, by simp, by simpa using hb⟩, by simpa using hsave,
            by simp [consumed]⟩)⟩
      | none =>
        simp only
        obtain ⟨k, hk, htake, hprog, hcases⟩ := ih (p + 1)
          (effects ++ [.SaveStageProgress (p + 1), .RemoveResponse (p + 1)]) (by omega)
        refine ⟨k + 1, by simpa using hk, ?_, by rw [hprog]; omega, ?_⟩
        · simp only [List.take_succ_cons, List.map_cons, hb, List.range'_succ, htake]
        · rcases hcases with ⟨h1, h2, h3⟩ | ⟨h1, ⟨r1, h2, h2b⟩, h3⟩ |
            ⟨err, h1, ⟨r1, h2, h2b⟩, h3, h4⟩
          · refine Or.inl ⟨h1, by simp [h2], ?_⟩
            rw [h3, consumed_succ]
            simp
          · refine Or.inr (Or.inl ⟨h1, ⟨r1, by simpa using h2, by omega⟩, ?_⟩)
            rw [h3, consumed_succ]
            simp
          · refine Or.inr (Or.inr ⟨err, h1, ⟨r1, by simpa using h2, by omega⟩, ?_, ?_⟩)
            · rw [show p + (k + 1) + 1 = p + 1 + k + 1 by omega]
              exact h3
            · rw [h4, consumed_succ, show p + (k + 1) + 1 = p + 1 + k + 1 by omega]
              simp

theorem sortResponses_batchNumbers (rs1 rs2 : List VerifierResponse) (h : rs1.Perm rs2) :
    (sortResponses rs1).map (fun r => r.BatchNumber) =
      (sortResponses rs2).map (fun r => r.BatchNumber) := by
  haveI : IsTotal VerifierResponse (fun a b => a.BatchNumber ≤ b.BatchNumber) :=
    ⟨fun a b => Nat.le_total _ _⟩
  haveI : IsTrans VerifierResponse (fun a b => a.BatchNumber ≤ b.BatchNumber) :=
    ⟨fun a b c hab hbc => Nat.le_trans hab hbc⟩
  have hs : ∀ rs : List VerifierResponse,
      List.Sorted (· ≤ ·) ((sortResponses rs).map (fun r => r.BatchNumber)) := by
    intro rs
    have := List.sorted_insertionSort (fun a b : VerifierResponse => a.BatchNumber ≤ b.BatchNumber) rs
    exact List.Pairwise.map _ (fun a b hab => hab) this
  have hp : ((sortResponses rs1).map (fun r => r.BatchNumber)).Perm
      ((sortResponses rs2).map (fun r => r.BatchNumber)) := by
    apply List.Perm.map
    exact ((List.perm_insertionSort _ rs1).trans h).trans (List.perm_insertionSort _ rs2).symm
  exact List.eq_of_perm_of_sorted hp (hs rs1) (hs rs2)

end VerifyStage

namespace VerifyStage

open Go Verifier

theorem savedProgress_requests (l : List Nat) :
    savedProgress (l.map StageEffect.AddRequest) = [] := by
  induction l with
  | nil => rfl
  | cons a l ih =>
    simp only [savedProgress] at ih
    simp [savedProgress, ih]

theorem releasedResponses_requests (l : List Nat) :
    releasedResponses (l.map StageEffect.AddRequest) = [] := by
  induction l with
  | nil => rfl
  | cons a l ih =>
    simp only [releasedResponses] at ih
    simp [releasedResponses, ih]

theorem stage_effects_shape (deps : VerifyStageDeps) (freshTx : Bool) (p : Nat)
    (hbegin : freshTx = true → deps.BeginRw = none)
    (hp : deps.GetStageProgressSequenceExecutorVerify = .ok p) :
    ∃ tail,
      (SpawnSequencerExecutorVerifyStage deps freshTx).effects =
        (verifyLoop deps p [] (sortResponses deps.GetAllResponses)).effects ++ tail ∧
      savedProgress tail = [] ∧ releasedResponses tail = [] ∧
      (∀ err, (verifyLoop deps p [] (sortResponses deps.GetAllResponses)).exit = .failed err →
        (SpawnSequencerExecutorVerifyStage deps freshTx).err = some err) := by
  have hb : (if freshTx then deps.BeginRw else none) = none := by
    cases freshTx with
    | false => rfl
    | true => simpa using hbegin rfl
  unfold SpawnSequencerExecutorVerifyStage
  rw [hb]
  simp only [hp]
  cases hexit : (verifyLoop deps p [] (sortResponses deps.GetAllResponses)).exit with
  | stopped =>
    refine ⟨deferred freshTx, rfl, ?_, ?_, by simp⟩ <;>
      cases freshTx <;> simp [deferred, savedProgress, releasedResponses]
  | failed err =>
    refine ⟨deferred freshTx, rfl, ?_, ?_, by simp⟩ <;>
      cases freshTx <;> simp [deferred, savedProgress, releasedResponses]
  | completed =>
    simp only
    cases deps.GetStageProgressIntermediateHashes with
    | error e =>
      refine ⟨deferred freshTx, rfl, ?_, ?_, by simp⟩ <;>
        cases freshTx <;> simp [deferred, savedProgress, releasedResponses]
    | ok intersProgress =>
      simp only
      cases deps.GetBatchNoByL2Block intersProgress with
      | error e =>
        refine ⟨deferred freshTx, rfl, ?_, ?_, by simp⟩ <;>
          cases freshTx <;> simp [deferred, savedProgress, releasedResponses]
      | ok intersBatch =>
        simp only
        obtain ⟨l, hl⟩ : ∃ l, l = List.range'
            ((verifyLoop deps p [] (sortResponses deps.GetAllResponses)).progress + 1)
            (intersBatch -
              (verifyLoop deps p [] (sortResponses deps.GetAllResponses)).progress) :=
          ⟨_, rfl⟩
        rw [← hl]
        cases freshTx with
        | false =>
          refine ⟨l.map StageEffect.AddRequest, rfl, savedProgress_requests _,
            releasedResponses_requests _, by simp⟩
        | true =>
          simp only [if_true]
          cases deps.Commit with
          | some e =>
            refine ⟨l.map StageEffect.AddRequest ++ [.Commit, .Rollback], by simp, ?_, ?_,
              by simp⟩
            · rw [savedProgress_append, savedProgress_requests]
              simp [savedProgress]
            · rw [releasedResponses_append, releasedResponses_requests]
              simp [releasedResponses]
          | none =>
            refine ⟨l.map StageEffect.AddRequest ++ [.Commit, .Rollback], by simp, ?_, ?_,
              by simp⟩
            · rw [savedProgress_append, savedProgress_requests]
              simp [savedProgress]
            · rw [releasedResponses_append, releasedResponses_requests]
              simp [releasedResponses]

/-- C16: with the stored progress at `p` (and no `uint64` overflow of the
batch numbers in reach), `SpawnSequencerExecutorVerifyStage` first consumes,
for some `k`, the responses for the batches `p + 1, ..., p + k`, one batch at
a time: it writes progress `p + 1` and releases that response, then `p + 2`,
and so on, and it writes no other progress and releases no other response.
These are the first `k` responses in ascending order of batch number, and the
walk ends at the end of the responses, at the first response whose batch is
not the progress plus one, or at a failed write, whose error is returned.  The
result is the same for every order in which the verifier hands back the same
responses. -/
theorem verify_stage_contiguous (deps : VerifyStageDeps) (freshTx : Bool) (p : Nat)
    (hbegin : freshTx = true → deps.BeginRw = none)
    (hp : deps.GetStageProgressSequenceExecutorVerify = .ok p)
    (hno : p + deps.GetAllResponses.length < 18446744073709551616) :
    (∃ k tail, k ≤ deps.GetAllResponses.length ∧
      (SpawnSequencerExecutorVerifyStage deps freshTx).effects = consumed p k ++ tail ∧
      savedProgress tail = [] ∧ releasedResponses tail = [] ∧
      savedProgress (SpawnSequencerExecutorVerifyStage deps freshTx).effects =
        List.range' (p + 1) k ∧
      releasedResponses (SpawnSequencerExecutorVerifyStage deps freshTx).effects =
        List.range' (p + 1) k ∧
      ((sortResponses deps.GetAllResponses).take k).map (fun r => r.BatchNumber) =
        List.range' (p + 1) k ∧
      (k = deps.GetAllResponses.length ∨
        (∃ r, (sortResponses deps.GetAllResponses)[k]? = some r ∧ r.BatchNumber ≠ p + k + 1) ∨
        (∃ err, deps.SaveStageProgress (p + k + 1) = some err ∧
          (SpawnSequencerExecutorVerifyStage deps freshTx).err = some err))) ∧
    (∀ responses : List VerifierResponse, responses.Perm deps.GetAllResponses →
      SpawnSequencerExecutorVerifyStage { deps with GetAllResponses := responses } freshTx =
        SpawnSequencerExecutorVerifyStage deps freshTx) := by
  constructor
  · obtain ⟨tail, heff, hs, hr, herr⟩ := stage_effects_shape deps freshTx p hbegin hp
    have hlen : (sortResponses deps.GetAllResponses).length = deps.GetAllResponses.length := by
      simp [sortResponses, List.length_insertionSort]
    obtain ⟨k, hk, htake, _, hcases⟩ := verifyLoop_spec deps (sortResponses deps.GetAllResponses)
      p [] (by rw [hlen]; exact hno)
    rw [hlen] at hk
    rcases hcases with ⟨_, h2, h3⟩ | ⟨_, h2, h3⟩ | ⟨err, h1, _, h3, h4⟩
    · refine ⟨k, tail, hk, by rw [heff, h3]; simp, hs, hr, ?_, ?_, htake,
        Or.inl (by rw [h2, hlen])⟩
      · rw [heff, h3, List.nil_append, savedProgress_append, savedProgress_consumed, hs,
          List.append_nil]
      · rw [heff, h3, List.nil_append, releasedResponses_append, releasedResponses_consumed, hr,
          List.append_nil]
    · refine ⟨k, tail, hk, by rw [heff, h3]; simp, hs, hr, ?_, ?_, htake, Or.inr (Or.inl h2)⟩
      · rw [heff, h3, List.nil_append, savedProgress_append, savedProgress_consumed, hs,
          List.append_nil]
      · rw [heff, h3, List.nil_append, releasedResponses_append, releasedResponses_consumed, hr,
          List.append_nil]
    · refine ⟨k, [.SaveStageProgressFailed (p + k + 1)] ++ tail, hk,
        by rw [heff, h4]; simp, ?_, ?_, ?_, ?_, htake, Or.inr (Or.inr ⟨err, h3, herr err h1⟩)⟩
      · rw [savedProgress_append, hs]
        simp [savedProgress]
      · rw [releasedResponses_append, hr]
        simp [releasedResponses]
      · rw [heff, h4, List.nil_append, savedProgress_append, savedProgress_append,
          savedProgress_consumed, hs]
        simp [savedProgress]
      · rw [heff, h4, List.nil_append, releasedResponses_append, releasedResponses_append,
          releasedResponses_consumed, hr]
        simp [releasedResponses]
  · intro responses hperm
    have hloop : ∀ q, verifyLoop { deps with GetAllResponses := responses } q []
          (sortResponses responses) =
        verifyLoop deps q [] (sortResponses deps.GetAllResponses) := by
      intro q
      have h1 : ∀ (l : List VerifierResponse) (q : Nat) (effects : List StageEffect),
          verifyLoop { deps with GetAllResponses := responses } q effects l =
            verifyLoop deps q effects l := by
        intro l
        induction l with
        | nil => intro q effects; rfl
        | cons r rest ih =>
          intro q effects
          rw [verifyLoop_cons, verifyLoop_cons]
          split_ifs
          · rfl
          · cases deps.SaveStageProgress r.BatchNumber with
            | some e => rfl
            | none => exact ih _ _
      rw [h1]
      exact verifyLoop_congr deps _ _ q [] (sortResponses_batchNumbers _ _ hperm)
    unfold SpawnSequencerExecutorVerifyStage
    simp only [hloop]

theorem verify_stage_contiguous_witness :
    ∃ k tail, k ≤ 4 ∧
      (SpawnSequencerExecutorVerifyStage
        (sampleStageDeps 4 [sampleResponse 8 true, sampleResponse 6 true, sampleResponse 5 true,
          sampleResponse 6 true]) true).effects = consumed 4 k ++ tail ∧
      savedProgress (SpawnSequencerExecutorVerifyStage
        (sampleStageDeps 4 [sampleResponse 8 true, sampleResponse 6 true, sampleResponse 5 true,
          sampleResponse 6 true]) true).effects = List.range' 5 k ∧
      savedProgress (SpawnSequencerExecutorVerifyStage
        (sampleStageDeps 4 [sampleResponse 8 true, sampleResponse 6 true, sampleResponse 5 true,
          sampleResponse 6 true]) true).effects = [5, 6] := by
  obtain ⟨k, tail, h1, h2, _, _, h3, _⟩ := (verify_stage_contiguous
    (sampleStageDeps 4 [sampleResponse 8 true, sampleResponse 6 true, sampleResponse 5 true,
      sampleResponse 6 true]) true 4 (fun _ => rfl) rfl (by decide)).1
  exact ⟨k, tail, h1, h2, h3, by decide⟩

/-- C17, on the code: with the stored progress at 4 and a single response, for
batch 5 and with `Valid = false`, `SpawnSequencerExecutorVerifyStage` writes
the progress 5 and releases the response, as it does for a valid one. -/
theorem verify_stage_saves_invalid :
    (sampleResponse 5 false).Valid = false ∧
    SpawnSequencerExecutorVerifyStage (sampleStageDeps 4 [sampleResponse 5 false]) false =
      { err := none, effects := [.SaveStageProgress 5, .RemoveResponse 5] } ∧
    savedProgress (SpawnSequencerExecutorVerifyStage
      (sampleStageDeps 4 [sampleResponse 5 false]) false).effects = [5] := by
  decide

end VerifyStage

namespace Sequencer

open Go

/-! ## Overflow in the block loop -/

theorem removeFromYielded_pos (hash : Nat) :
    ∀ (n : Nat) (yielded : List Nat), 1 ≤ n →
      removeFromYielded yielded hash n = yielded.filter (fun h => h != hash) := by
  intro n
  induction n with
  | zero => intro yielded h; omega
  | succ n ih =>
    intro yielded _
    rw [removeFromYielded]
    cases n with
    | zero => rfl
    | succ n =>
      rw [ih _ (by omega), List.filter_filter]
      simp

theorem txLoop_single_overflow {ω κ : Type} (deps : SeqDeps ω κ) (cfg : StageCfg)
    (header : Header) (effectiveGases : List Nat) (txSize i : Nat) (t : Transaction)
    (rest : List Transaction) (st : BlockState ω κ) (receipt : Receipt) (world1 : ω)
    (counters1 : κ)
    (hpool : cfg.l1Recovery = false) (hempty : st.addedTransactions = [])
    (hattempt : deps.attemptAddTransaction st.world st.batchCounters header t
      (deps.DeriveEffectiveGasPrice t) false = .ok (receipt, true, world1, counters1)) :
    txLoop deps cfg header effectiveGases txSize (t :: rest) i st =
      .returned (.errorf ("single transaction " ++ toString t.hash ++ " overflow counters")) := by
  rw [txLoop]
  simp only [hpool, Bool.false_eq_true, if_false, hattempt, Bool.not_false, Bool.and_self,
    if_true, hempty, List.length_nil, beq_self_eq_true]

theorem waitLoop_logTickers {ω κ : Type} (deps : SeqDeps ω κ) (cfg : StageCfg) (header : Header)
    (effectiveGases : List Nat) (events : List SelectCase) (blockTransactions : List Transaction)
    (st : BlockState ω κ) (n : Nat) :
    waitLoop deps cfg header effectiveGases (List.replicate n .logTicker ++ events)
        blockTransactions st =
      waitLoop deps cfg header effectiveGases events blockTransactions st := by
  induction n with
  | zero => rfl
  | succ n ih =>
    rw [List.replicate_succ, List.cons_append, waitLoop]
    exact ih

theorem waitLoop_single_overflow {ω κ : Type} (deps : SeqDeps ω κ) (cfg : StageCfg)
    (header : Header) (effectiveGases : List Nat) (events : List SelectCase)
    (blockTransactions : List Transaction) (st : BlockState ω κ) (n : Nat) (t : Transaction)
    (rest : List Transaction) (worldP : ω) (yieldedP : List Nat) (receipt : Receipt)
    (world1 : ω) (counters1 : κ)
    (hpool : cfg.l1Recovery = false) (hempty : st.addedTransactions = [])
    (hpoll : deps.getNextPoolTransactions st.world st.yielded = .ok (t :: rest, worldP, yieldedP))
    (hattempt : deps.attemptAddTransaction worldP st.batchCounters header t
      (deps.DeriveEffectiveGasPrice t) false = .ok (receipt, true, world1, counters1)) :
    waitLoop deps cfg header effectiveGases (List.replicate n .logTicker ++ .default :: events)
        blockTransactions st =
      .returned (some (.errorf ("single transaction " ++ toString t.hash ++
        " overflow counters"))) := by
  rw [waitLoop_logTickers, waitLoop]
  simp only [hpool, Bool.not_false, if_true, hpoll]
  rw [txLoop_single_overflow deps cfg header effectiveGases _ 0 t rest
    { st with world := worldP, yielded := yieldedP } receipt world1 counters1 hpool hempty
    hattempt]

end Sequencer

namespace Sequencer

open Go

theorem blockIter_single_overflow {ω κ : Type} (deps : SeqDeps ω κ) (cfg : StageCfg)
    (vars : LoopVars ω κ) (n : Nat) (events : List SelectCase) (header : Header)
    (parentBlock : Nat) (l1 : L1Stuff) (world1 world3 worldP : ω) (t : Transaction)
    (rest : List Transaction) (yieldedP : List Nat) (receipt : Receipt) (worldA : ω)
    (countersA : κ)
    (hpool : cfg.l1Recovery = false) (hfresh : vars.bn ≠ vars.lastStartedBn)
    (hevents : vars.events = List.replicate n .logTicker ++ .default :: events)
    (hheader : deps.prepareHeader vars.world vars.bn vars.deltaTimestamp cfg.forkId cfg.coinbase =
      .ok (header, parentBlock))
    (hl1 : deps.prepareL1AndInfoTreeRelatedStuff vars.world vars.decodedBlock false =
      .ok (l1, world1))
    (hstate : deps.handleStateForNewBlockStarting (deps.stateNew world1) header.Number
      header.Time l1 = .ok world3)
    (hpoll : deps.getNextPoolTransactions world3 vars.yielded = .ok (t :: rest, worldP, yieldedP))
    (hattempt : deps.attemptAddTransaction worldP (deps.StartNewBlock vars.batchCounters) header t
      (deps.DeriveEffectiveGasPrice t) false = .ok (receipt, true, worldA, countersA)) :
    blockIter deps cfg vars =
      .returned (some (.errorf ("single transaction " ++ toString t.hash ++
        " overflow counters"))) vars.finished := by
  have hne : (vars.bn == vars.lastStartedBn) = false := by simpa using hfresh
  unfold blockIter
  simp only [hpool, Bool.false_and, Bool.false_eq_true, if_false, hne, Bool.not_false, if_true,
    hheader, hl1, hstate, hevents]
  rw [waitLoop_single_overflow deps cfg header vars.effectiveGases events vars.blockTransactions
    _ n t rest worldP yieldedP receipt worldA countersA hpool rfl hpoll hattempt]

theorem waitLoop_idle {ω κ : Type} (deps : SeqDeps ω κ) (cfg : StageCfg) (header : Header)
    (effectiveGases : List Nat) (events : List SelectCase) (hpool : cfg.l1Recovery = false) :
    ∀ (pre : List SelectCase) (blockTransactions : List Transaction) (st : BlockState ω κ)
      (world : ω) (yielded : List Nat),
      idlePolls deps pre st.world st.yielded = some (world, yielded) →
      ∃ blockTransactions1,
        waitLoop deps cfg header effectiveGases (pre ++ events) blockTransactions st =
          waitLoop deps cfg header effectiveGases events blockTransactions1
            { st with world := world, yielded := yielded } := by
  intro pre
  induction pre with
  | nil =>
    intro blockTransactions st world yielded h
    simp only [idlePolls, Option.some.injEq, Prod.mk.injEq] at h
    obtain ⟨h1, h2⟩ := h
    subst h1 h2
    exact ⟨blockTransactions, rfl⟩
  | cons ev pre ih =>
    intro blockTransactions st world yielded h
    cases ev with
    | ctxDone => simp [idlePolls] at h
    | blockTicker => simp [idlePolls] at h
    | batchTicker => simp [idlePolls] at h
    | logTicker =>
      rw [idlePolls] at h
      rw [List.cons_append, waitLoop]
      exact ih blockTransactions st world yielded h
    | default =>
      rw [idlePolls] at h
      cases hp : deps.getNextPoolTransactions st.world st.yielded with
      | error err => rw [hp] at h; simp at h
      | ok val =>
        obtain ⟨txs, world1, yielded1⟩ := val
        rw [hp] at h
        cases txs with
        | cons a l => simp at h
        | nil =>
          simp only at h
          obtain ⟨bt1, hbt⟩ := ih [] { st with world := world1, yielded := yielded1 } world
            yielded h
          refine ⟨bt1, ?_⟩
          rw [List.cons_append, waitLoop]
          simp only [hpool, Bool.not_false, if_true, hp, List.length_nil, txLoop,
            Bool.false_eq_true, if_false]
          exact hbt

theorem waitLoop_overflow_after_idle {ω κ : Type} (deps : SeqDeps ω κ) (cfg : StageCfg)
    (header : Header) (effectiveGases : List Nat) (pre post : List SelectCase)
    (blockTransactions : List Transaction) (st : BlockState ω κ) (worldI : ω)
    (yieldedI : List Nat) (t : Transaction) (rest : List Transaction) (worldP : ω)
    (yieldedP : List Nat) (receipt : Receipt) (world1 : ω) (counters1 : κ)
    (hpool : cfg.l1Recovery = false) (hempty : st.addedTransactions = [])
    (hidle : idlePolls deps pre st.world st.yielded = some (worldI, yieldedI))
    (hpoll : deps.getNextPoolTransactions worldI yieldedI = .ok (t :: rest, worldP, yieldedP))
    (hattempt : deps.attemptAddTransaction worldP st.batchCounters header t
      (deps.DeriveEffectiveGasPrice t) false = .ok (receipt, true, world1, counters1)) :
    waitLoop deps cfg header effectiveGases (pre ++ .default :: post) blockTransactions st =
      .returned (some (.errorf ("single transaction " ++ toString t.hash ++
        " overflow counters"))) := by
  obtain ⟨bt1, hbt⟩ := waitLoop_idle deps cfg header effectiveGases (.default :: post) hpool pre
    blockTransactions st worldI yieldedI hidle
  rw [hbt]
  exact waitLoop_single_overflow deps cfg header effectiveGases post bt1
    { st with world := worldI, yielded := yieldedI } 0 t rest worldP yieldedP receipt world1
    counters1 hpool hempty hpoll hattempt

theorem blockIter_overflow_after_idle {ω κ : Type} (deps : SeqDeps ω κ) (cfg : StageCfg)
    (vars : LoopVars ω κ) (pre post : List SelectCase) (header : Header)
    (parentBlock : Nat) (l1 : L1Stuff) (world1 world3 worldI : ω) (yieldedI : List Nat)
    (worldP : ω) (t : Transaction) (rest : List Transaction) (yieldedP : List Nat)
    (receipt : Receipt) (worldA : ω) (countersA : κ)
    (hpool : cfg.l1Recovery = false) (hfresh : vars.bn ≠ vars.lastStartedBn)
    (hevents : vars.events = pre ++ .default :: post)
    (hheader : deps.prepareHeader vars.world vars.bn vars.deltaTimestamp cfg.forkId cfg.coinbase =
      .ok (header, parentBlock))
    (hl1 : deps.prepareL1AndInfoTreeRelatedStuff vars.world vars.decodedBlock false =
      .ok (l1, world1))
    (hstate : deps.handleStateForNewBlockStarting (deps.stateNew world1) header.Number
      header.Time l1 = .ok world3)
    (hidle : idlePolls deps pre world3 vars.yielded = some (worldI, yieldedI))
    (hpoll : deps.getNextPoolTransactions worldI yieldedI = .ok (t :: rest, worldP, yieldedP))
    (hattempt : deps.attemptAddTransaction worldP (deps.StartNewBlock vars.batchCounters) header t
      (deps.DeriveEffectiveGasPrice t) false = .ok (receipt, true, worldA, countersA)) :
    blockIter deps cfg vars =
      .returned (some (.errorf ("single transaction " ++ toString t.hash ++
        " overflow counters"))) vars.finished := by
  have hne : (vars.bn == vars.lastStartedBn) = false := by simpa using hfresh
  unfold blockIter
  simp only [hpool, Bool.false_and, Bool.false_eq_true, if_false, hne, Bool.not_false, if_true,
    hheader, hl1, hstate, hevents]
  rw [waitLoop_overflow_after_idle deps cfg header vars.effectiveGases pre post
    vars.blockTransactions _ worldI yieldedI t rest worldP yieldedP receipt worldA countersA
    hpool rfl hidle hpoll hattempt]

theorem blockLoop_advance {ω κ : Type} (deps : SeqDeps ω κ) (cfg : StageCfg) :
    ∀ (k : Nat) (vars0 vars : LoopVars ω κ), advanceBlocks deps cfg k vars0 = some vars →
      ∀ n, blockLoop deps cfg (k + n) vars0 = blockLoop deps cfg n vars := by
  intro k
  induction k with
  | zero =>
    intro vars0 vars h n
    simp only [advanceBlocks, Option.some.injEq] at h
    rw [h, Nat.zero_add]
  | succ k ih =>
    intro vars0 vars h n
    rw [advanceBlocks] at h
    rw [show k + 1 + n = (k + n) + 1 by omega, blockLoop]
    cases hit : blockIter deps cfg vars0 with
    | next vars1 runLoopBlocks =>
      rw [hit] at h
      cases runLoopBlocks with
      | false => simp at h
      | true =>
        simp only at h
        simp only [if_true]
        exact ih _ _ h n
    | broke v => rw [hit] at h; simp at h
    | returned e f => rw [hit] at h; simp at h
    | panicked m f => rw [hit] at h; simp at h
    | waiting f => rw [hit] at h; simp at h

/-- C11, amended: when transactions come from the pool (not from L1 recovery)
and `attemptAddTransaction` reports an overflow for a transaction while no
transaction has been accepted into the current block, the transaction loop
returns the error "single transaction ... overflow counters" for that
transaction; and the stage halts with that error whenever this happens: after
any number `k` of earlier iterations of the block loop, in a block started
afresh, after any log ticks and any polls that found the pool empty, a poll
yields a transaction whose attempt overflows.  The block loop, hence
`SpawnSequencingStage`, then returns the error with the finished blocks as
they were when the block was started: the transaction is in no block and the
current block is not finished. -/
theorem single_transaction_overflow_halts {ω κ : Type} (deps : SeqDeps ω κ) (cfg : StageCfg)
    (hpool : cfg.l1Recovery = false) :
    (∀ (header : Header) (effectiveGases : List Nat) (txSize i : Nat) (t : Transaction)
      (rest : List Transaction) (st : BlockState ω κ) (receipt : Receipt) (world1 : ω)
      (counters1 : κ),
      st.addedTransactions = [] →
      deps.attemptAddTransaction st.world st.batchCounters header t
        (deps.DeriveEffectiveGasPrice t) false = .ok (receipt, true, world1, counters1) →
      txLoop deps cfg header effectiveGases txSize (t :: rest) i st =
        .returned (.errorf ("single transaction " ++ toString t.hash ++
          " overflow counters"))) ∧
    (∀ (vars0 vars : LoopVars ω κ) (k fuel : Nat) (pre post : List SelectCase) (header : Header)
      (parentBlock : Nat) (l1 : L1Stuff) (world1 world3 worldI : ω) (yieldedI : List Nat)
      (worldP : ω) (t : Transaction) (rest : List Transaction) (yieldedP : List Nat)
      (receipt : Receipt) (worldA : ω) (countersA : κ),
      advanceBlocks deps cfg k vars0 = some vars →
      vars.bn ≠ vars.lastStartedBn →
      vars.events = pre ++ .default :: post →
      deps.prepareHeader vars.world vars.bn vars.deltaTimestamp cfg.forkId cfg.coinbase =
        .ok (header, parentBlock) →
      deps.prepareL1AndInfoTreeRelatedStuff vars.world vars.decodedBlock false =
        .ok (l1, world1) →
      deps.handleStateForNewBlockStarting (deps.stateNew world1) header.Number header.Time l1 =
        .ok world3 →
      idlePolls deps pre world3 vars.yielded = some (worldI, yieldedI) →
      deps.getNextPoolTransactions worldI yieldedI = .ok (t :: rest, worldP, yieldedP) →
      deps.attemptAddTransaction worldP (deps.StartNewBlock vars.batchCounters) header t
        (deps.DeriveEffectiveGasPrice t) false = .ok (receipt, true, worldA, countersA) →
      blockLoop deps cfg (k + (fuel + 1)) vars0 =
        .returned (some (.errorf ("single transaction " ++ toString t.hash ++
          " overflow counters"))) vars.finished) := by
  constructor
  · intro header effectiveGases txSize i t rest st receipt world1 counters1 hempty hattempt
    exact txLoop_single_overflow deps cfg header effectiveGases txSize i t rest st receipt world1
      counters1 hpool hempty hattempt
  · intro vars0 vars k fuel pre post header parentBlock l1 world1 world3 worldI yieldedI worldP t
      rest yieldedP receipt worldA countersA hadvance hfresh hevents hheader hl1 hstate hidle
      hpoll hattempt
    rw [blockLoop_advance deps cfg k vars0 vars hadvance (fuel + 1), blockLoop,
      blockIter_overflow_after_idle deps cfg vars pre post header parentBlock l1 world1 world3
        worldI yieldedI worldP t rest yieldedP receipt worldA countersA hpool hfresh hevents
        hheader hl1 hstate hidle hpoll hattempt]

theorem single_transaction_overflow_halts_witness :
    (blockLoop arrivalSeqDeps poolCfg (1 + (3 + 1))
        (initialVars 1 [[sampleTx 10 3], [], [sampleTx 11 9]] 5
          [.default, .blockTicker, .logTicker, .default, .default, .blockTicker])) =
      .returned (some (.errorf ("single transaction " ++ toString (sampleTx 11 9).hash ++
        " overflow counters")))
        [{ blockNumber := 2, transactions := [sampleTx 10 3], receipts := [10] }] :=
  (single_transaction_overflow_halts arrivalSeqDeps poolCfg rfl).2
    (initialVars 1 [[sampleTx 10 3], [], [sampleTx 11 9]] 5
      [.default, .blockTicker, .logTicker, .default, .default, .blockTicker])
    { bn := 2
      lastStartedBn := 1
      header := some (Header.mk 1 1 0 2 30000000 1001 7)
      parentBlock := some 1
      addedTransactions := [sampleTx 10 3]
      addedReceipts := [10]
      batchCounters := 2
      clonedBatchCounters := some 5
      decodedBlock := { Transactions := [], EffectiveGasPricePercentages := [],
                        DeltaTimestamp := 0, L1InfoTreeIndex := 0 }
      deltaTimestamp := 18446744073709551615
      effectiveGases := []
      blockTransactions := [sampleTx 10 3]
      yielded := [10]
      blockTracking := 1
      world := [[], [sampleTx 11 9]]
      events := [.logTicker, .default, .default, .blockTicker]
      finished := [{ blockNumber := 2, transactions := [sampleTx 10 3], receipts := [10] }] }
    1 3 [.logTicker, .default] [.blockTicker]
    (Header.mk 2 1 0 3 30000000 1002 7)
    2
    { infoTreeIndexProgress := 0, l1TreeUpdate := none, l1TreeUpdateIndex := 0, l1BlockHash := 0,
      ger := 0, shouldWriteGerToContract := false }
    [[], [sampleTx 11 9]] [[], [sampleTx 11 9]] [[sampleTx 11 9]] [10]
    [] (sampleTx 11 9) [] [10, 11] 0 [] 2
    rfl (by decide) rfl rfl rfl rfl rfl rfl rfl

/-- Counterexample for C11 as stated: in L1 recovery of a block whose only
transaction is larger than the budget, `attemptAddTransaction` reports an
overflow for it while no transaction has been accepted, yet the stage does not
halt with an error: the transaction is added and the block is finished with
it. -/
theorem recovery_overflow_is_ignored :
    (recoveryCfg [sampleTx 11 9]).l1Recovery = true ∧
    (∃ header, sampleSeqDeps.attemptAddTransaction [] 5 header (sampleTx 11 9) 255 true =
      .ok (0, true, [], 5)) ∧
    (blockLoop sampleSeqDeps (recoveryCfg [sampleTx 11 9]) 3
        (initialVars 1 [] 5 [.default])).returnedError = none ∧
    (blockLoop sampleSeqDeps (recoveryCfg [sampleTx 11 9]) 3
        (initialVars 1 [] 5 [.default])).finishedBlocks =
      [{ blockNumber := 2, transactions := [sampleTx 11 9], receipts := [0] }] := by
  refine ⟨rfl, ⟨Header.mk 1 1 0 2 30000000 1001 7, rfl⟩, by decide, by decide⟩

/-- What the overflow branch of the transaction loop does once a transaction
has been accepted: it stops the loop with the accepted transactions as they
are, and removes from the yielded set the hash of the overflowing transaction
and no other hash. -/
theorem txLoop_overflow_removes_one {ω κ : Type} (deps : SeqDeps ω κ) (cfg : StageCfg)
    (header : Header) (effectiveGases : List Nat) (txSize i : Nat) (t : Transaction)
    (rest : List Transaction) (st : BlockState ω κ) (receipt : Receipt) (world1 : ω)
    (counters1 : κ)
    (hpool : cfg.l1Recovery = false) (hadded : st.addedTransactions ≠ []) (hi : i < txSize)
    (hattempt : deps.attemptAddTransaction st.world st.batchCounters header t
      (deps.DeriveEffectiveGasPrice t) false = .ok (receipt, true, world1, counters1)) :
    txLoop deps cfg header effectiveGases txSize (t :: rest) i st =
      .overflowed
        { world := world1, batchCounters := counters1
          addedTransactions := st.addedTransactions
          addedReceipts := st.addedReceipts
          yielded := st.yielded.filter (fun h => h != t.hash)
          overflow := true } := by
  have hlen : (st.addedTransactions.length == 0) = false := by
    cases h : st.addedTransactions with
    | nil => exact absurd h hadded
    | cons a l => rfl
  rw [txLoop]
  simp only [hpool, Bool.false_eq_true, if_false, hattempt, Bool.not_false, Bool.and_self,
    if_true, hlen]
  rw [removeFromYielded_pos t.hash (txSize - i) st.yielded (by omega)]

/-- C12, on the code: the pool yields three transactions of sizes 3, 9 and 1
against a budget of 5, so the second overflows after the first was accepted.
The block is finished with the first transaction only, but the yielded set is
left as `[10, 12]`: only the hash of the overflowing transaction was removed,
and the transaction after it (hash 12) stays yielded. -/
theorem overflow_keeps_later_transactions_yielded :
    sampleSeqDeps.getNextPoolTransactions [sampleTx 10 3, sampleTx 11 9, sampleTx 12 1] [] =
      .ok ([sampleTx 10 3, sampleTx 11 9, sampleTx 12 1],
           [sampleTx 10 3, sampleTx 11 9, sampleTx 12 1], [10, 11, 12]) ∧
    (blockLoop sampleSeqDeps poolCfg 3
        (initialVars 1 [sampleTx 10 3, sampleTx 11 9, sampleTx 12 1] 5
          [.default])).finishedBlocks =
      [{ blockNumber := 2, transactions := [sampleTx 10 3], receipts := [10] }] ∧
    (blockLoop sampleSeqDeps poolCfg 3
        (initialVars 1 [sampleTx 10 3, sampleTx 11 9, sampleTx 12 1] 5
          [.default])).yieldedSet = some [10, 12] ∧
    removeFromYielded [10, 11, 12] 11 (3 - 1) = [10, 12] := by
  refine ⟨rfl, by decide, by decide, by decide⟩

end Sequencer

namespace LegacyVerifier

open Go Verifier

/-! ## The verdict of the asynchronous promise -/

/-- What the function handed to the promise returns once an online executor
has been selected: the response carries the executor's error, and its `Valid`
is the executor's verdict unless the request is for batch 3 and the package
variable `counter` is still 0. -/
theorem runVerifyTask_selected (v v1 : LegacyExecutorVerifier) (e : ILegacyExecutor)
    (counter : Int) (t : VerifyTask)
    (hsel : getNextOnlineAvailableExecutor v = some (some e, v1)) :
    verdictOf v counter t =
      some (some (if t.request.BatchNumber = 3 ∧ counter = 0 then false
                  else (e.Verify t.payload t.request t.previousRoot).1,
                  (e.Verify t.payload t.request t.previousRoot).2.2),
            if t.request.BatchNumber = 3 ∧ counter = 0 then 1 else counter) := by
  unfold verdictOf runVerifyTask
  rw [hsel]
  by_cases h3 : t.request.BatchNumber = 3 <;> by_cases hc : counter = 0 <;> simp [h3, hc]

/-- C22, on the code: the executor at index 1 of the sample pool is online and
its `Verify` answers `(true, nil, nil)` to every request.  The first request
for batch 3 of the process (package variable `counter` at 0) nevertheless gets
a response with `Valid = false` and `counter` is set to 1; the same request
run with `counter` at 1, and a request for batch 4, get `Valid = true`. -/
theorem runVerifyTask_batch_three_forced_invalid :
    (sampleExecutor 101 true).Verify (sampleTask 3).payload (sampleTask 3).request
        (sampleTask 3).previousRoot = (true, none, none) ∧
    getNextOnlineAvailableExecutor (samplePool 0) =
      some (some (sampleExecutor 101 true), samplePool 1) ∧
    verdictOf (samplePool 0) 0 (sampleTask 3) = some (some (false, none), 1) ∧
    verdictOf (samplePool 0) 1 (sampleTask 3) = some (some (true, none), 1) ∧
    verdictOf (samplePool 0) 0 (sampleTask 4) = some (some (true, none), 0) := by
  refine ⟨rfl, rfl, by decide, by decide, by decide⟩

/-! ## Consuming the results -/

/-- C23, on the code: every executor of the pool is offline, so the function
handed to the promise by `AddRequestUnsafe` returns `(nil,
ErrNoExecutorAvailable)` and the promise settles with an error and no
response.  `ConsumeResultsUnsafe` on a queue holding that promise does not
return: it appends the nil result and then reads `result.BatchNumber`, a nil
pointer dereference.  With a response in the promise the same call returns. -/
theorem ConsumeResultsUnsafe_missing_result_panics :
    (runVerifyTask (offlinePool 2) 0 (sampleTask 5)).map (fun r => r.1) =
      some (none, some .ErrNoExecutorAvailable) ∧
    GetNonBlocking (Promise.settled (none, some GoError.ErrNoExecutorAvailable) :
      Promise VerifierResponse) = (none, some .ErrNoExecutorAvailable) ∧
    consumeLoop sampleConsumeDeps [Promise.settled (none, some GoError.ErrNoExecutorAvailable)]
        { results := [], addedBatches := [5], streamed := [] } =
      .panicked "nil pointer dereference" { results := [none], addedBatches := [5], streamed := [] } ∧
    (ConsumeResultsUnsafe sampleConsumeDeps
      { offlinePool 2 with
        promises := [Promise.settled (none, some GoError.ErrNoExecutorAvailable)]
        addedBatches := [5] }).isPanic = true ∧
    (ConsumeResultsUnsafe sampleConsumeDeps
      { offlinePool 2 with
        promises := [Promise.settled
          (some { BatchNumber := 5, BlockNumber := 50, Valid := true, OriginalCounters := [],
                  Witness := none, ExecutorResponse := none, Error := none }, none),
          Promise.pending]
        addedBatches := [5] }).view =
      some ([some { BatchNumber := 5, BlockNumber := 50, Valid := true, OriginalCounters := [],
                    Witness := none, ExecutorResponse := none, Error := none }],
            [Promise.pending]) := by
  refine ⟨by decide, rfl, by decide, by decide, by decide⟩

end LegacyVerifier

namespace Sequencer

open Go

/-! ## The re-run of a block after an overflow -/

end Sequencer
namespace Sequencer

open Go

end Sequencer
namespace Sequencer

open Go

end Sequencer

namespace ZkCounters

open Go

/-! ## The `float64` expressions of the cost helpers below `2 ^ 53` -/

theorem roundHalfEven_one (x : Nat) : roundHalfEven x 1 = x := by
  unfold roundHalfEven
  simp [Nat.mod_one]

theorem roundHalfEven_56 (a P : Nat) (hP : 32 ≤ P) :
    roundHalfEven (a * P) 56 / P = a / 56 ∧
    (roundHalfEven (a * P) 56 + P - 1) / P = (a + 55) / 56 := by
  obtain ⟨X, hXd⟩ : ∃ X, X = a / 56 * P := ⟨_, rfl⟩
  obtain ⟨Y, hYd⟩ : ∃ Y, Y = a % 56 * P := ⟨_, rfl⟩
  have hX : a * P = 56 * X + Y := by
    rw [hXd, hYd]
    conv_lhs => rw [← Nat.div_add_mod a 56]
    ring
  have hY : Y ≤ 55 * P := by rw [hYd]; exact Nat.mul_le_mul_right P (by omega)
  have hY0 : a % 56 = 0 → Y = 0 := by intro h; rw [hYd, h, Nat.zero_mul]
  have hY1 : 1 ≤ a % 56 → P ≤ Y := by
    intro h
    rw [hYd]
    calc P = 1 * P := (Nat.one_mul P).symm
      _ ≤ a % 56 * P := Nat.mul_le_mul_right P h
  have hm : X ≤ roundHalfEven (a * P) 56 ∧ roundHalfEven (a * P) 56 < X + P ∧
      (a % 56 = 0 → roundHalfEven (a * P) 56 = X) ∧
      (1 ≤ a % 56 → X + 1 ≤ roundHalfEven (a * P) 56) := by
    unfold roundHalfEven
    rw [hX]
    simp only
    split_ifs <;> omega
  obtain ⟨h1, h2, h3, h4⟩ := hm
  generalize roundHalfEven (a * P) 56 = m at h1 h2 h3 h4
  have hsucc : (a / 56 + 1) * P = X + P := by rw [hXd]; ring
  constructor
  · exact Nat.div_eq_of_lt_le (by rw [← hXd]; exact h1) (by rw [hsucc]; exact h2)
  · by_cases hr : a % 56 = 0
    · have hm : m = X := h3 hr
      have hq : (a + 55) / 56 = a / 56 := by omega
      rw [hq]
      exact Nat.div_eq_of_lt_le (by rw [← hXd]; omega) (by rw [hsucc]; omega)
    · have hm := h4 (by omega)
      have hq : (a + 55) / 56 = a / 56 + 1 := by omega
      have hsucc2 : (a / 56 + 1 + 1) * P = X + P + P := by rw [hXd]; ring
      rw [hq]
      exact Nat.div_eq_of_lt_le (by rw [hsucc]; omega) (by rw [hsucc2]; omega)

theorem halvings_le (fuel : Nat) :
    ∀ (n k : Nat), n < 2 ^ (k + 1) → halvings fuel n ≤ k := by
  induction fuel with
  | zero => intro n k _; simp [halvings]
  | succ fuel ih =>
    intro n k h
    rw [halvings]
    split_ifs with h1
    · omega
    · cases k with
      | zero => simp at h; omega
      | succ k =>
        have h2 : n / 2 < 2 ^ (k + 1) := by
          rw [Nat.pow_succ] at h
          omega
        have := ih (n / 2) k h2
        omega

theorem log2Floor_le (n k : Nat) (h : n < 2 ^ (k + 1)) : log2Floor n ≤ k :=
  halvings_le n n k h

theorem log2Floor_eq_log2 (n : Nat) : log2Floor n = Nat.log2 n := by
  have key : ∀ (fuel n : Nat), n ≤ fuel → halvings fuel n = Nat.log2 n := by
    intro fuel
    induction fuel with
    | zero =>
      intro n h
      have : n = 0 := by omega
      subst this
      simp [halvings, Nat.log2]
    | succ fuel ih =>
      intro n h
      rw [halvings, Nat.log2]
      by_cases h1 : n ≤ 1
      · rw [if_pos h1, if_neg (by omega)]
      · rw [if_neg h1, if_pos (by omega), ih (n / 2) (by omega)]
  exact key n n (Nat.le_refl n)

theorem float64Of_scaled (a b : Nat) (ha : a ≠ 0)
    (hk : log2Floor a ≤ 52 + log2Floor b) :
    ∃ s : Nat, 52 + log2Floor b ≤ s + log2Floor a ∧
      float64Of a b = (roundHalfEven (a * 2 ^ s) b, 2 ^ s) := by
  unfold float64Of
  rw [if_neg ha]
  simp only
  generalize ((if 0 ≤ (log2Floor a : Int) - (log2Floor b : Int) then
      decide (b * 2 ^ ((log2Floor a : Int) - (log2Floor b : Int)).toNat ≤ a)
    else decide (b ≤ a * 2 ^ (-((log2Floor a : Int) - (log2Floor b : Int))).toNat)) : Bool) = reached
  obtain ⟨e, he⟩ : ∃ e : Int, e = (if reached = true then (log2Floor a : Int) - (log2Floor b : Int)
      else (log2Floor a : Int) - (log2Floor b : Int) - 1) - 52 := ⟨_, rfl⟩
  rw [← he]
  have hle : e ≤ 0 := by
    rw [he]
    split_ifs <;> omega
  have hup : e.toNat = 0 := by omega
  refine ⟨(-e).toNat, ?_, ?_⟩
  · rw [he]
    split_ifs <;> omega
  · rw [hup]
    simp

theorem float64Int_exact (n : Int) (h0 : 0 ≤ n) (h1 : n < 9007199254740992) :
    float64Int n = n := by
  unfold float64Int
  by_cases hz : n = 0
  · subst hz
    rfl
  · have ha : n.natAbs ≠ 0 := by omega
    have hlt : n.natAbs < 2 ^ 53 := by
      have : (2 : Nat) ^ 53 = 9007199254740992 := by norm_num
      omega
    have hlog : log2Floor n.natAbs ≤ 52 + log2Floor 1 := by
      have := log2Floor_le n.natAbs 52 hlt
      omega
    obtain ⟨s, _, hs⟩ := float64Of_scaled n.natAbs 1 ha hlog
    rw [hs, roundHalfEven_one]
    simp only
    rw [Nat.mul_div_cancel _ (Nat.pos_pow_of_pos s (by decide))]
    have hsign : n.sign = 1 := Int.sign_eq_one_of_pos (by omega)
    rw [hsign]
    omega

theorem float64Quotient_56 (n : Int) (h0 : 0 < n) (h1 : n < 9007199254740992) :
    ∃ P : Nat, 32 ≤ P ∧
      float64Quotient n 56 = (1, roundHalfEven (n.natAbs * P) 56, P) := by
  have ha : n.natAbs ≠ 0 := by omega
  have hlt : n.natAbs < 2 ^ 53 := by
    have : (2 : Nat) ^ 53 = 9007199254740992 := by norm_num
    omega
  have h56 : log2Floor 56 = 5 := by decide
  have hlog : log2Floor n.natAbs ≤ 52 + log2Floor 56 := by
    have := log2Floor_le n.natAbs 52 hlt
    omega
  obtain ⟨s, hs1, hs2⟩ := float64Of_scaled n.natAbs 56 ha hlog
  have hs5 : 5 ≤ s := by
    have := log2Floor_le n.natAbs 52 hlt
    omega
  refine ⟨2 ^ s, ?_, ?_⟩
  · calc 32 = 2 ^ 5 := by norm_num
      _ ≤ 2 ^ s := Nat.pow_le_pow_right (by decide) hs5
  · unfold float64Quotient
    rw [float64Int_exact n (by omega) h1]
    have hsign : n.sign = 1 := Int.sign_eq_one_of_pos h0
    rw [hsign, show (56 : Int).natAbs = 56 from rfl, hs2]

/-- Below `2 ^ 53` the source's `int(math.Ceil(float64(n))/56)` is the quotient
rounded down. -/
theorem ceilThenDivide_56 (n : Int) (h0 : 0 ≤ n) (h1 : n < 9007199254740992) :
    ceilThenDivide n 56 = n / 56 := by
  by_cases hz : n = 0
  · subst hz
    rfl
  · obtain ⟨P, hP, hq⟩ := float64Quotient_56 n (by omega) h1
    unfold ceilThenDivide
    rw [hq]
    simp only
    rw [(roundHalfEven_56 n.natAbs P hP).1]
    omega

/-- Below `2 ^ 53` the source's `int(math.Ceil(float64(n)/56))` is the quotient
rounded up. -/
theorem ceilOfQuotient_56 (n : Int) (h0 : 0 ≤ n) (h1 : n < 9007199254740992) :
    ceilOfQuotient n 56 = (n + 55) / 56 := by
  by_cases hz : n = 0
  · subst hz
    rfl
  · obtain ⟨P, hP, hq⟩ := float64Quotient_56 n (by omega) h1
    unfold ceilOfQuotient
    rw [hq]
    simp only [show ¬ ((1 : Int) < 0) from by decide, if_false]
    rw [(roundHalfEven_56 n.natAbs P hP).2]
    omega

end ZkCounters

namespace ZkCounters

open Go

/-! ## Cost of the Poseidon hash over memory -/

theorem charged_nil (key : CounterKey) : charged [] key = 0 := rfl

theorem charged_cons (k : CounterKey) (a : Int) (rest : List (CounterKey × Int))
    (key : CounterKey) :
    charged ((k, a) :: rest) key = (if k = key then a else 0) + charged rest key := by
  unfold charged
  by_cases h : k = key <;> simp [List.filter_cons, h]

theorem charged_append (xs ys : List (CounterKey × Int)) (key : CounterKey) :
    charged (xs ++ ys) key = charged xs key + charged ys key := by
  unfold charged
  simp [List.filter_append, List.map_append, List.sum_append]

theorem charged_multiCall (call : List (CounterKey × Int)) (times : Int) (key : CounterKey)
    (h : charged call key = 0) : charged (multiCall call times) key = 0 := by
  unfold multiCall
  induction times.toNat with
  | zero => rfl
  | succ n ih =>
    rw [List.replicate_succ, List.flatten_cons, charged_append, h, ih]
    rfl

/-- What `hashPoseidonLinearFromMemory` takes from the Poseidon and the
Padding dimension for a `memSize + 1` below `2 ^ 53`: the quotient of
`memSize + 1` by 56 rounded down. -/
theorem hashPoseidonLinearFromMemory_charged (memSize : Int) (h0 : 0 ≤ memSize)
    (h1 : memSize + 1 < 9007199254740992) :
    charged (hashPoseidonLinearFromMemory memSize) P = (memSize + 1) / 56 ∧
    charged (hashPoseidonLinearFromMemory memSize) D = (memSize + 1) / 56 := by
  have hw : wrapInt (memSize + 1) = memSize + 1 := by unfold wrapInt; omega
  have ht : ceilThenDivide (memSize + 1) 56 = (memSize + 1) / 56 :=
    ceilThenDivide_56 (memSize + 1) (by omega) h1
  have hP : charged hashPoseidonLinearFromMemoryLoop P = 0 := by decide
  have hD : charged hashPoseidonLinearFromMemoryLoop D = 0 := by decide
  have hP2 : charged divArith P = 0 := by decide
  have hD2 : charged divArith D = 0 := by decide
  have hP3 : charged mLoadX P = 0 := by decide
  have hD3 : charged mLoadX D = 0 := by decide
  have hP4 : charged SHRarith P = 0 := by decide
  have hD4 : charged SHRarith D = 0 := by decide
  unfold hashPoseidonLinearFromMemory
  simp only [charged_append, charged_cons, charged_nil, charged_multiCall _ _ _ hP,
    charged_multiCall _ _ _ hD, hP2, hD2, hP3, hD3, hP4, hD4, hw, ht,
    show (S = P) = False from by decide, show (B = P) = False from by decide,
    show (D = P) = False from by decide, show (S = D) = False from by decide,
    show (B = D) = False from by decide, show (P = D) = False from by decide,
    if_false, if_true]
  constructor <;> omega

/-- What a non-deploy `processContractCall` takes from the Poseidon and the
Padding dimension: next to the amounts that do not depend on the bytecode, the
`float64` quotient of `bytecodeLength + 1` by 56 rounded up, which below
`2 ^ 53` is the exact quotient rounded up (`ceilOfQuotient_56`). -/
theorem processContractCall_charged (smtLevels bytecodeLength : Int) (h0 : 0 ≤ bytecodeLength)
    (h1 : bytecodeLength < 9223372036854775807) :
    charged (processContractCall smtLevels bytecodeLength false false false) P =
      1 + wrapInt (2 * smtLevels) + wrapInt (4 * smtLevels) +
        ceilOfQuotient (bytecodeLength + 1) 56 ∧
    charged (processContractCall smtLevels bytecodeLength false false false) D =
      1 + ceilOfQuotient (bytecodeLength + 1) 56 := by
  have hw : wrapInt (bytecodeLength + 1) = bytecodeLength + 1 := by unfold wrapInt; omega
  have hP2 : charged divArith P = 0 := by decide
  have hD2 : charged divArith D = 0 := by decide
  unfold processContractCall moveBalances
  simp only [Bool.or_self, Bool.false_eq_true, if_false, charged_append, charged_cons,
    charged_nil, hw,
    show (S = P) = False from by decide, show (B = P) = False from by decide,
    show (D = P) = False from by decide, show (S = D) = False from by decide,
    show (B = D) = False from by decide, show (P = D) = False from by decide,
    if_true]
  constructor
  · split_ifs
    · rw [hP2]; omega
    · rw [charged_nil]; omega
  · split_ifs
    · rw [hD2]; omega
    · rw [charged_nil]; omega

/-- C24, on the code: for `memSize = 0` the source's
`int(math.Ceil(float64(memSize+1))/56)` is 0, so
`hashPoseidonLinearFromMemory` takes nothing from the Poseidon and the
Padding dimension, where the quotient rounded up is 1; for `memSize = 56` it
takes 1 where the quotient rounded up is 2.  The non-deploy branch of
`processContractCall` rounds up: for a bytecode of length 0 its last two calls
are `Deduct(P, 1)` and `Deduct(D, 1)`. -/
theorem hashPoseidonLinearFromMemory_rounds_down :
    usedAfter (hashPoseidonLinearFromMemory 0) P = some 0 ∧
    usedAfter (hashPoseidonLinearFromMemory 0) D = some 0 ∧
    charged (hashPoseidonLinearFromMemory 0) P = 0 ∧
    charged (hashPoseidonLinearFromMemory 0) D = 0 ∧
    ceilOfQuotient (0 + 1) 56 = 1 ∧
    charged (hashPoseidonLinearFromMemory 56) P = 1 ∧
    charged (hashPoseidonLinearFromMemory 56) D = 1 ∧
    ceilOfQuotient (56 + 1) 56 = 2 ∧
    (processContractCall 0 0 false false false).drop 8 = [(P, 1), (D, 1)] ∧
    charged (processContractCall 0 0 false false false) D = 1 + 1 := by
  refine ⟨by decide, by decide, by decide, by decide, by decide, by decide, by decide, by decide,
    by decide, by decide⟩

end ZkCounters

namespace ZkCounters

open Go

/-! ## Cost of `ecRecover` -/

/-- The cost profile that `ecRecover` deducts, for every input: the
invalid-signature cost when the lower 64 bits of `r` or of `s` are zero, when
`r` or `s` is above the content of the shared cell (`FNEC - 1` when
precompiled, half of it otherwise), or when the lower 64 bits of `v` are
neither 27 nor 28; the has-root cost otherwise. -/
theorem ecRecover_eq (v r s : Nat) (isPrecompiled : Bool) :
    ecRecover v r s isPrecompiled =
      if r % 2 ^ 64 = 0 ∨ (if isPrecompiled then fnec - 1 else (fnec - 1) / 2) < r ∨
          s % 2 ^ 64 = 0 ∨ (if isPrecompiled then fnec - 1 else (fnec - 1) / 2) < s ∨
          (v % 2 ^ 64 ≠ 27 ∧ v % 2 ^ 64 ≠ 28) then
        .returned none invalidSignatureCost
      else .returned none hasRootCost := by
  have hcell : (if isPrecompiled then u256Sub fnec 1 else u256Div (u256Sub fnec 1) 2) =
      (if isPrecompiled then fnec - 1 else (fnec - 1) / 2) := by
    have h1 : u256Sub fnec 1 = fnec - 1 := by decide
    rw [h1]
    cases isPrecompiled <;> simp [u256Div]
  have hroot : ¬ (0xFFFFFFFFFFFFFFFFFFFFFFFFFFFFFFFFFFFFFFFFFFFFFFFFFFFFFFFFFFFFFFFF < fpec) := by
    decide
  unfold ecRecover
  simp only [hcell, Uint64, hroot, if_false]
  by_cases h : r % 2 ^ 64 = 0 ∨ (if isPrecompiled then fnec - 1 else (fnec - 1) / 2) < r ∨
      s % 2 ^ 64 = 0 ∨ (if isPrecompiled then fnec - 1 else (fnec - 1) / 2) < s ∨
      (v % 2 ^ 64 ≠ 27 ∧ v % 2 ^ 64 ≠ 28)
  · rw [if_pos h, if_pos]
    simpa [or_assoc] using h
  · rw [if_neg h, if_neg]
    simpa [or_assoc] using h

/-- No input makes `ecRecover` deduct the no-root cost. -/
theorem ecRecover_never_no_root (v r s : Nat) (isPrecompiled : Bool) :
    ecRecover v r s isPrecompiled ≠ .returned none noRootCost := by
  rw [ecRecover_eq]
  split_ifs <;> decide

/-- C25, on the code: `r = FNEC - 1`, `s = 1`, `v = 27`, not precompiled.
None of the five conditions of an invalid signature holds (`r` is not above
`FNEC - 1`, `s` is not above `FNEC / 2`), yet `ecRecover` deducts the
invalid-signature cost: `fnecMinusOne` and `upperLimit` are one cell, which
holds `(FNEC - 1) / 2` when `r` is compared with it.  The same happens for
`r = 2 ^ 64`, `s = 1`, `v = 27`, precompiled, because only the lower 64 bits
of `r` are tested for zero; and `v = 2 ^ 64 + 27`, which is neither 27 nor 28,
is accepted. -/
theorem ecRecover_rejects_valid_signature :
    ecRecover 27 (fnec - 1) 1 false = .returned none invalidSignatureCost ∧
    ¬ (fnec - 1 = 0 ∨ fnec - 1 > fnec - 1 ∨ 1 = 0 ∨ 1 > fnec / 2 ∨ (27 ≠ 27 ∧ 27 ≠ 28)) ∧
    ecRecover 27 (2 ^ 64) 1 true = .returned none invalidSignatureCost ∧
    ¬ (2 ^ 64 = 0 ∨ 2 ^ 64 > fnec - 1 ∨ 1 = 0 ∨ 1 > fnec - 1 ∨ (27 ≠ 27 ∧ 27 ≠ 28)) ∧
    ecRecover (2 ^ 64 + 27) 5 1 true = .returned none hasRootCost ∧
    (2 ^ 64 + 27 ≠ 27 ∧ 2 ^ 64 + 27 ≠ 28) := by
  refine ⟨by decide, by decide, by decide, by decide, by decide, by decide⟩

end ZkCounters

namespace BadBatch

open Go Sequencer

/-! ## Bad batches -/

theorem timestampAt_zero (ts : Nat) (b : DecodedBatchL2Data) (rest : List DecodedBatchL2Data) :
    timestampAt ts (b :: rest) 0 = wrapU64 (ts + b.DeltaTimestamp) := by
  simp [timestampAt]

theorem timestampAt_succ (ts : Nat) (b : DecodedBatchL2Data) (rest : List DecodedBatchL2Data)
    (i : Nat) :
    timestampAt ts (b :: rest) (i + 1) = timestampAt (wrapU64 (ts + b.DeltaTimestamp)) rest i := by
  simp only [timestampAt, List.take_succ_cons, List.map_cons, List.sum_cons]
  generalize ((rest.take (i + 1)).map (fun b => b.DeltaTimestamp)).sum = s
  unfold wrapU64
  omega

theorem someBlockBad_nil (stored : Nat → Option L1InfoTreeUpdate) (ts hi lim : Nat) :
    ¬ someBlockBad stored ts hi lim [] := by
  rintro ⟨i, b, h, _⟩
  simp at h

theorem someBlockBad_cons (stored : Nat → Option L1InfoTreeUpdate) (ts hi lim : Nat)
    (b : DecodedBatchL2Data) (rest : List DecodedBatchL2Data) :
    someBlockBad stored ts hi lim (b :: rest) ↔
      badBlock stored hi lim (wrapU64 (ts + b.DeltaTimestamp)) b ∨
      someBlockBad stored (wrapU64 (ts + b.DeltaTimestamp)) hi lim rest := by
  constructor
  · rintro ⟨i, b1, hget, hbad⟩
    cases i with
    | zero =>
      simp only [List.getElem?_cons_zero, Option.some.injEq] at hget
      subst hget
      rw [timestampAt_zero] at hbad
      exact Or.inl hbad
    | succ i =>
      rw [List.getElem?_cons_succ] at hget
      rw [timestampAt_succ] at hbad
      exact Or.inr ⟨i, b1, hget, hbad⟩
  · rintro (hbad | ⟨i, b1, hget, hbad⟩)
    · exact ⟨0, b, by simp, by rw [timestampAt_zero]; exact hbad⟩
    · exact ⟨i + 1, b1, by simpa using hget, by rw [timestampAt_succ]; exact hbad⟩

/-- With every lookup succeeding the loop returns `(true, nil)` when some block
is bad and `(false, nil)` when none is. -/
theorem checkLoop_total (hermezDb : batchChecker) (stored : Nat → Option L1InfoTreeUpdate)
    (hi lim : Nat) (hstored : ∀ idx, hermezDb.GetL1InfoTreeUpdate idx = .ok (stored idx)) :
    ∀ (blocks : List DecodedBatchL2Data) (ts : Nat),
      (checkLoop hermezDb hi lim blocks ts = (true, none) ∧ someBlockBad stored ts hi lim blocks) ∨
      (checkLoop hermezDb hi lim blocks ts = (false, none) ∧
        ¬ someBlockBad stored ts hi lim blocks) := by
  intro blocks
  induction blocks with
  | nil => intro ts; exact Or.inr ⟨rfl, someBlockBad_nil stored ts hi lim⟩
  | cons b rest ih =>
    intro ts
    rw [checkLoop, someBlockBad_cons]
    simp only [hstored]
    generalize wrapU64 (ts + b.DeltaTimestamp) = t
    by_cases h1 : t > lim
    · rw [if_pos h1]
      exact Or.inl ⟨rfl, Or.inl (Or.inl h1)⟩
    · rw [if_neg h1]
      by_cases h2 : b.L1InfoTreeIndex > 0
      · rw [if_pos h2]
        cases hs : stored b.L1InfoTreeIndex with
        | none => exact Or.inl ⟨rfl, Or.inl (Or.inr ⟨h2, Or.inl hs⟩)⟩
        | some u =>
          simp only
          by_cases h3 : t < u.Timestamp
          · rw [if_pos h3]
            exact Or.inl ⟨rfl, Or.inl (Or.inr ⟨h2, Or.inr (Or.inl ⟨u, hs, h3⟩)⟩)⟩
          · rw [if_neg h3]
            by_cases h4 : b.L1InfoTreeIndex > hi
            · rw [if_pos h4]
              exact Or.inl ⟨rfl, Or.inl (Or.inr ⟨h2, Or.inr (Or.inr h4)⟩)⟩
            · rw [if_neg h4]
              have hgood : ¬ badBlock stored hi lim t b := by
                rintro (h | ⟨_, h | ⟨u1, hu1, h⟩ | h⟩)
                · exact h1 h
                · rw [hs] at h; simp at h
                · rw [hs] at hu1
                  simp only [Option.some.injEq] at hu1
                  subst hu1
                  exact h3 h
                · exact h4 h
              rcases ih t with ⟨e, hb⟩ | ⟨e, hb⟩
              · exact Or.inl ⟨e, Or.inr hb⟩
              · exact Or.inr ⟨e, fun h => h.elim hgood hb⟩
      · rw [if_neg h2]
        have hgood : ¬ badBlock stored hi lim t b := by
          rintro (h | ⟨h, _⟩)
          · exact h1 h
          · exact h2 h
        rcases ih t with ⟨e, hb⟩ | ⟨e, hb⟩
        · exact Or.inl ⟨e, Or.inr hb⟩
        · exact Or.inr ⟨e, fun h => h.elim hgood hb⟩

/-- A lookup error met by the loop before any bad block is returned with
`false`. -/
theorem checkLoop_lookup_error (hermezDb : batchChecker) (hi lim : Nat) (b : DecodedBatchL2Data)
    (post : List DecodedBatchL2Data) (err : GoError) :
    ∀ (pre : List DecodedBatchL2Data) (ts : Nat),
      checkLoop hermezDb hi lim pre ts = (false, none) →
      timestampAt ts (pre ++ b :: post) pre.length ≤ lim →
      b.L1InfoTreeIndex > 0 →
      hermezDb.GetL1InfoTreeUpdate b.L1InfoTreeIndex = .error err →
      checkLoop hermezDb hi lim (pre ++ b :: post) ts = (false, some err) := by
  intro pre
  induction pre with
  | nil =>
    intro ts _ hts hidx herr
    rw [List.nil_append, List.length_nil, timestampAt_zero] at hts
    rw [List.nil_append, checkLoop]
    simp only [if_neg (Nat.not_lt.mpr hts), if_pos hidx, herr]
  | cons a pre ih =>
    intro ts hpre hts hidx herr
    rw [List.cons_append, List.length_cons, timestampAt_succ] at hts
    rw [checkLoop] at hpre
    rw [List.cons_append, checkLoop]
    generalize wrapU64 (ts + a.DeltaTimestamp) = t at hpre hts ⊢
    by_cases h1 : t > lim
    · rw [if_pos h1] at hpre
      exact absurd hpre (by simp)
    · rw [if_neg h1] at hpre ⊢
      by_cases h2 : a.L1InfoTreeIndex > 0
      · rw [if_pos h2] at hpre ⊢
        cases hl : hermezDb.GetL1InfoTreeUpdate a.L1InfoTreeIndex with
        | error e =>
          rw [hl] at hpre
          exact absurd hpre (by simp)
        | ok o =>
          rw [hl] at hpre
          cases o with
          | none => exact absurd hpre (by simp)
          | some u =>
            simp only at hpre ⊢
            by_cases h3 : t < u.Timestamp
            · rw [if_pos h3] at hpre
              exact absurd hpre (by simp)
            · rw [if_neg h3] at hpre ⊢
              by_cases h4 : a.L1InfoTreeIndex > hi
              · rw [if_pos h4] at hpre
                exact absurd hpre (by simp)
              · rw [if_neg h4] at hpre ⊢
                exact ih t hpre hts hidx herr
      · rw [if_neg h2] at hpre ⊢
        exact ih t hpre hts hidx herr

/-- C26: with `timestamp_i` the `uint64` sum of `latestTimestamp` and the
delta timestamps of the blocks `0..i`, and every lookup succeeding with the
stored updates `stored`, `checkForBadBatch` returns `(true, nil)` exactly when
some decoded block has `timestamp_i` above `limitTimestamp`, or has an L1 info
tree index above 0 for which no update is stored, or whose update's minimum
timestamp is above `timestamp_i`, or which is above
`highestAllowedInfoTreeIndex`; it returns `(false, nil)` when no block does,
so for the empty list; and when a lookup fails for a block within the limit
timestamp, no block before it having stopped the walk, the result is
`(false, err)`. -/
theorem checkForBadBatch_spec (batchNo : Nat) (hermezDb : batchChecker)
    (latestTimestamp highestAllowedInfoTreeIndex limitTimestamp : Nat)
    (decodedBlocks : List DecodedBatchL2Data) :
    (∀ stored : Nat → Option L1InfoTreeUpdate,
      (∀ idx, hermezDb.GetL1InfoTreeUpdate idx = .ok (stored idx)) →
      (checkForBadBatch batchNo hermezDb latestTimestamp highestAllowedInfoTreeIndex
          limitTimestamp decodedBlocks = (true, none) ↔
        someBlockBad stored latestTimestamp highestAllowedInfoTreeIndex limitTimestamp
          decodedBlocks) ∧
      (¬ someBlockBad stored latestTimestamp highestAllowedInfoTreeIndex limitTimestamp
          decodedBlocks →
        checkForBadBatch batchNo hermezDb latestTimestamp highestAllowedInfoTreeIndex
          limitTimestamp decodedBlocks = (false, none))) ∧
    checkForBadBatch batchNo hermezDb latestTimestamp highestAllowedInfoTreeIndex
      limitTimestamp [] = (false, none) ∧
    (∀ (pre post : List DecodedBatchL2Data) (b : DecodedBatchL2Data) (err : GoError),
      decodedBlocks = pre ++ b :: post →
      checkForBadBatch batchNo hermezDb latestTimestamp highestAllowedInfoTreeIndex
        limitTimestamp pre = (false, none) →
      timestampAt latestTimestamp decodedBlocks pre.length ≤ limitTimestamp →
      b.L1InfoTreeIndex > 0 →
      hermezDb.GetL1InfoTreeUpdate b.L1InfoTreeIndex = .error err →
      checkForBadBatch batchNo hermezDb latestTimestamp highestAllowedInfoTreeIndex
        limitTimestamp decodedBlocks = (false, some err)) := by
  refine ⟨?_, rfl, ?_⟩
  · intro stored hstored
    unfold checkForBadBatch
    rcases checkLoop_total hermezDb stored highestAllowedInfoTreeIndex limitTimestamp hstored
      decodedBlocks latestTimestamp with ⟨e, hb⟩ | ⟨e, hb⟩
    · exact ⟨⟨fun _ => hb, fun _ => e⟩, fun h => absurd hb h⟩
    · refine ⟨⟨fun h => ?_, fun h => absurd h hb⟩, fun _ => e⟩
      rw [e] at h
      exact absurd h (by simp)
  · intro pre post b err hsplit hpre hts hidx herr
    subst hsplit
    exact checkLoop_lookup_error hermezDb highestAllowedInfoTreeIndex limitTimestamp b post err
      pre latestTimestamp hpre hts hidx herr

theorem checkForBadBatch_spec_witness :
    (checkForBadBatch 1 sampleTotalChecker 1000 3 2000
        [sampleBlock 5 0, sampleBlock 5 2, sampleBlock 5 4] = (true, none) ↔
      someBlockBad sampleStored 1000 3 2000 [sampleBlock 5 0, sampleBlock 5 2, sampleBlock 5 4]) ∧
    someBlockBad sampleStored 1000 3 2000 [sampleBlock 5 0, sampleBlock 5 2, sampleBlock 5 4] ∧
    checkForBadBatch 1 sampleChecker 1000 3 2000 [sampleBlock 5 0, sampleBlock 5 9] =
      (false, some (.errorf "read failed")) :=
  ⟨((checkForBadBatch_spec 1 sampleTotalChecker 1000 3 2000
      [sampleBlock 5 0, sampleBlock 5 2, sampleBlock 5 4]).1 sampleStored (fun _ => rfl)).1,
   ⟨2, sampleBlock 5 4, rfl, Or.inr ⟨by decide, Or.inr (Or.inr (by decide))⟩⟩,
   (checkForBadBatch_spec 1 sampleChecker 1000 3 2000 [sampleBlock 5 0, sampleBlock 5 9]).2.2
     [sampleBlock 5 0] [] (sampleBlock 5 9) (.errorf "read failed") rfl rfl (by decide)
     (by decide) rfl⟩

end BadBatch

namespace ForkId

open Go

/-! ## Fork selection -/

theorem latestLoop_eq (allForks : List Nat) (nextBatch : Nat) :
    ∀ (rest : List Nat) (idx latest : Nat) (fs : List Nat),
      allForks.drop idx = fs → fs.length = rest.length →
      latestLoop allForks nextBatch rest idx latest =
        some (((lastBelow (fs.zip rest) nextBatch).map (fun e => e.1)).getD latest) := by
  intro rest
  induction rest with
  | nil =>
    intro idx latest fs _ hlen
    have : fs = [] := List.length_eq_zero.mp hlen
    subst this
    simp [latestLoop, lastBelow]
  | cons b rest ih =>
    intro idx latest fs hdrop hlen
    cases fs with
    | nil => simp at hlen
    | cons f fs1 =>
      have hidx : allForks[idx]? = some f := by
        have := congrArg (fun l => l[0]?) hdrop
        simpa using this
      have hdrop1 : allForks.drop (idx + 1) = fs1 := by
        have := congrArg List.tail hdrop
        simpa using this
      have hlen1 : fs1.length = rest.length := by simpa using hlen
      rw [latestLoop]
      by_cases hb : nextBatch > b
      · rw [if_pos hb, hidx]
        simp only
        rw [ih (idx + 1) f fs1 hdrop1 hlen1]
        have hb2 : b < nextBatch := hb
        simp only [lastBelow, List.zip_cons_cons, List.filter_cons, hb2, decide_True, if_true,
          List.getLast?_cons]
        cases (List.filter (fun e => decide (e.2 < nextBatch)) (fs1.zip rest)).getLast? <;> rfl
      · rw [if_neg hb, ih (idx + 1) latest fs1 hdrop1 hlen1]
        have hb2 : ¬ b < nextBatch := hb
        simp only [lastBelow, List.zip_cons_cons, List.filter_cons, hb2, decide_False,
          Bool.false_eq_true, if_false]

theorem lastBelow_some (nextBatch : Nat) :
    ∀ (history : List (Nat × Nat)) (e : Nat × Nat), lastBelow history nextBatch = some e →
      ∃ pre post, history = pre ++ e :: post ∧ e.2 < nextBatch ∧
        ∀ x ∈ post, ¬ x.2 < nextBatch := by
  intro history
  induction history with
  | nil => intro e h; simp [lastBelow] at h
  | cons x rest ih =>
    intro e h
    cases hrest : lastBelow rest nextBatch with
    | some e1 =>
      have he : e1 = e := by
        unfold lastBelow at h hrest
        rw [List.filter_cons] at h
        split_ifs at h
        · rw [List.getLast?_cons, hrest] at h
          simpa using h
        · rw [hrest] at h
          simpa using h
      subst he
      obtain ⟨pre, post, h1, h2, h3⟩ := ih e1 hrest
      exact ⟨x :: pre, post, by rw [h1]; rfl, h2, h3⟩
    | none =>
      unfold lastBelow at h hrest
      have hnil : rest.filter (fun e => decide (e.2 < nextBatch)) = [] := by
        simpa using hrest
      rw [List.filter_cons] at h
      split_ifs at h with hx
      · rw [hnil] at h
        simp only [List.getLast?_singleton, Option.some.injEq] at h
        subst h
        refine ⟨[], rest, rfl, by simpa using hx, ?_⟩
        intro y hy
        have := List.filter_eq_nil_iff.mp hnil y hy
        simpa using this
      · rw [hnil] at h
        simp at h

theorem lastBelow_of_split (nextBatch : Nat) (pre post : List (Nat × Nat)) (e : Nat × Nat)
    (he : e.2 < nextBatch) (hpost : ∀ x ∈ post, ¬ x.2 < nextBatch) :
    lastBelow (pre ++ e :: post) nextBatch = some e := by
  have hnil : post.filter (fun e => decide (e.2 < nextBatch)) = [] := by
    rw [List.filter_eq_nil_iff]
    intro y hy
    simpa using hpost y hy
  unfold lastBelow
  rw [List.filter_append, List.filter_cons, if_pos (by simpa using he), hnil]
  simp

theorem lastBelow_none (nextBatch : Nat) (history : List (Nat × Nat)) :
    lastBelow history nextBatch = none ↔ ∀ x ∈ history, ¬ x.2 < nextBatch := by
  unfold lastBelow
  rw [List.getLast?_eq_none_iff, List.filter_eq_nil_iff]
  simp

theorem IsSelectedFork_lastBelow (history : List (Nat × Nat)) (nextBatch fork : Nat)
    (h : IsSelectedFork history nextBatch fork) :
    ∃ boundary, lastBelow history nextBatch = some (fork, boundary) := by
  obtain ⟨pre, post, boundary, h1, h2, _, h4⟩ := h
  exact ⟨boundary, by rw [h1]; exact lastBelow_of_split nextBatch pre post (fork, boundary) h2 h4⟩

theorem lastBelow_IsSelectedFork (history : List (Nat × Nat)) (nextBatch fork boundary : Nat)
    (hsorted : (history.map (fun e => e.2)).Pairwise (fun a b => a ≤ b))
    (h : lastBelow history nextBatch = some (fork, boundary)) :
    IsSelectedFork history nextBatch fork := by
  obtain ⟨pre, post, h1, h2, h3⟩ := lastBelow_some nextBatch history (fork, boundary) h
  refine ⟨pre, post, boundary, h1, h2, ?_, h3⟩
  intro x hx hlt
  rw [h1, List.map_append, List.pairwise_append] at hsorted
  rw [h1, List.mem_append, List.mem_cons] at hx
  rcases hx with hx | hx | hx
  · exact hsorted.2.2 x.2 (List.mem_map_of_mem _ hx) boundary (by simp)
  · rw [hx]
  · exact absurd hlt (h3 x hx)

end ForkId
namespace ForkId

open Go

theorem prepareForkId_unfold (lastBatch executionAt : Nat) (hermezDb : forkDb)
    (allForks allBatches : List Nat)
    (hhistory : hermezDb.GetAllForkHistory = .ok (allForks, allBatches))
    (hlen : allForks.length = allBatches.length) :
    prepareForkId lastBatch executionAt hermezDb =
      (let latest := ((lastBelow (allForks.zip allBatches) (wrapU64 (lastBatch + 1))).map
          (fun e => e.1)).getD 0
       if latest = 0 then
        .returned 0
          (some (.errorf ("could not find a suitable fork for batch " ++
            toString (wrapU64 (lastBatch + 1)) ++
            ", cannot start sequencer, check contract configuration")))
          []
       else
        match hermezDb.GetForkId lastBatch with
        | .error err => .returned 0 (some err) []
        | .ok lastBatchFork =>
          if lastBatchFork < latest then
            .returned latest (hermezDb.WriteForkIdBlockOnce latest (wrapU64 (executionAt + 1)))
              [(latest, wrapU64 (executionAt + 1))]
          else .returned latest none []) := by
  unfold prepareForkId
  rw [hhistory]
  simp only
  rw [latestLoop_eq allForks (wrapU64 (lastBatch + 1)) allBatches 0 0 allForks rfl hlen]
  simp only [beq_iff_eq]
  split_ifs with h0
  · rfl
  · cases hermezDb.GetForkId lastBatch with
    | error err => rfl
    | ok lastBatchFork =>
      simp only
      split_ifs
      · cases hermezDb.WriteForkIdBlockOnce _ (wrapU64 (executionAt + 1)) <;> rfl
      · rfl

/-- C28, amended: for a fork history in ascending order of batch boundary
(one fork id per boundary), with `nextBatch` the `uint64` value of
`lastBatch + 1`: `prepareForkId` fails with an error and fork 0, without a
write, exactly when no boundary is below `nextBatch`, or the fork attached to
the greatest boundary strictly below `nextBatch` is 0, or the fork recorded
for `lastBatch` cannot be read; and when that selected fork is not 0 and the
recorded fork is read, it returns the selected fork, calls
`WriteForkIdBlockOnce(fork, executionAt + 1)` exactly when the recorded fork
is lower than the selected one, and returns the error of that call if it
fails. -/
theorem prepareForkId_spec (lastBatch executionAt : Nat) (hermezDb : forkDb)
    (allForks allBatches : List Nat)
    (hhistory : hermezDb.GetAllForkHistory = .ok (allForks, allBatches))
    (hlen : allForks.length = allBatches.length)
    (hsorted : allBatches.Pairwise (fun a b => a ≤ b)) :
    ((∃ err, prepareForkId lastBatch executionAt hermezDb = .returned 0 (some err) []) ↔
      ((∀ boundary ∈ allBatches, ¬ boundary < wrapU64 (lastBatch + 1)) ∨
       IsSelectedFork (allForks.zip allBatches) (wrapU64 (lastBatch + 1)) 0 ∨
       ∃ err, hermezDb.GetForkId lastBatch = .error err)) ∧
    (∀ fork lastBatchFork : Nat,
      IsSelectedFork (allForks.zip allBatches) (wrapU64 (lastBatch + 1)) fork → fork ≠ 0 →
      hermezDb.GetForkId lastBatch = .ok lastBatchFork →
      prepareForkId lastBatch executionAt hermezDb =
        .returned fork
          (if lastBatchFork < fork then
            hermezDb.WriteForkIdBlockOnce fork (wrapU64 (executionAt + 1)) else none)
          (if lastBatchFork < fork then [(fork, wrapU64 (executionAt + 1))] else [])) := by
  have hsnd : (allForks.zip allBatches).map (fun e => e.2) = allBatches := by
    have := List.map_snd_zip allForks allBatches (by omega)
    simpa using this
  have hsorted2 : ((allForks.zip allBatches).map (fun e => e.2)).Pairwise (fun a b => a ≤ b) := by
    rw [hsnd]; exact hsorted
  have hnone : (∀ boundary ∈ allBatches, ¬ boundary < wrapU64 (lastBatch + 1)) ↔
      lastBelow (allForks.zip allBatches) (wrapU64 (lastBatch + 1)) = none := by
    rw [lastBelow_none]
    constructor
    · intro h x hx
      exact h x.2 (by rw [← hsnd]; exact List.mem_map_of_mem _ hx)
    · intro h boundary hb
      rw [← hsnd, List.mem_map] at hb
      obtain ⟨x, hx, hxb⟩ := hb
      rw [← hxb]
      exact h x hx
  rw [prepareForkId_unfold lastBatch executionAt hermezDb allForks allBatches hhistory hlen]
  constructor
  · constructor
    · rintro ⟨err, hout⟩
      cases hl : lastBelow (allForks.zip allBatches) (wrapU64 (lastBatch + 1)) with
      | none => exact Or.inl (hnone.mpr hl)
      | some e =>
        obtain ⟨f, b⟩ := e
        rw [hl] at hout
        simp only [Option.map_some', Option.getD_some] at hout
        by_cases hf : f = 0
        · subst hf
          exact Or.inr (Or.inl (lastBelow_IsSelectedFork _ _ 0 b hsorted2 hl))
        · rw [if_neg hf] at hout
          cases hg : hermezDb.GetForkId lastBatch with
          | error e1 => exact Or.inr (Or.inr ⟨e1, rfl⟩)
          | ok lastBatchFork =>
            rw [hg] at hout
            simp only at hout
            split_ifs at hout
            · simp at hout
            · simp only [ForkOutcome.returned.injEq] at hout
              exact absurd hout.1 hf
    · rintro (h | h | ⟨err, h⟩)
      · rw [hnone.mp h]
        exact ⟨_, rfl⟩
      · obtain ⟨b, hb⟩ := IsSelectedFork_lastBelow _ _ _ h
        rw [hb]
        exact ⟨_, rfl⟩
      · rw [h]
        simp only
        split_ifs
        · exact ⟨_, rfl⟩
        · exact ⟨_, rfl⟩
  · intro fork lastBatchFork hsel hne hget
    obtain ⟨b, hb⟩ := IsSelectedFork_lastBelow _ _ _ hsel
    rw [hb, hget]
    simp only [Option.map_some', Option.getD_some, if_neg hne]
    split_ifs <;> rfl

theorem prepareForkId_spec_witness :
    ((∃ err, prepareForkId 150 40 (sampleForkDb 7 false) = .returned 0 (some err) []) ↔
      ((∀ boundary ∈ [0, 100, 200], ¬ boundary < wrapU64 (150 + 1)) ∨
       IsSelectedFork ([7, 9, 11].zip [0, 100, 200]) (wrapU64 (150 + 1)) 0 ∨
       ∃ err, (sampleForkDb 7 false).GetForkId 150 = .error err)) ∧
    prepareForkId 150 40 (sampleForkDb 7 false) = .returned 9 none [(9, 41)] ∧
    prepareForkId 150 40 (sampleForkDb 9 false) = .returned 9 none [] :=
  ⟨(prepareForkId_spec 150 40 (sampleForkDb 7 false) [7, 9, 11] [0, 100, 200] rfl rfl
      (by decide)).1,
   (prepareForkId_spec 150 40 (sampleForkDb 7 false) [7, 9, 11] [0, 100, 200] rfl rfl
      (by decide)).2 9 7 ⟨[(7, 0)], [(11, 200)], 100, rfl, by decide, by decide, by decide⟩
      (by decide) rfl,
   by decide⟩

/-- Counterexample for C28 as stated: the history holds the forks 7, 9 and 11
from the batches 0, 100 and 200 and `lastBatch` is 666, so boundaries are
below `lastBatch + 1` and the fork selected is 11, not 0; but the fork
recorded for batch 666 cannot be read, and `prepareForkId` fails with that
error, returning fork 0. -/
theorem prepareForkId_fails_on_read_error :
    (sampleForkDb 7 false).GetAllForkHistory = .ok ([7, 9, 11], [0, 100, 200]) ∧
    prepareForkId 666 40 (sampleForkDb 7 false) =
      .returned 0 (some (.errorf "read failed")) [] ∧
    (∃ boundary ∈ [0, 100, 200], boundary < 666 + 1) ∧
    IsSelectedFork ([7, 9, 11].zip [0, 100, 200]) (666 + 1) 11 ∧
    ¬ IsSelectedFork ([7, 9, 11].zip [0, 100, 200]) (666 + 1) 0 := by
  refine ⟨rfl, by decide, ⟨0, by decide, by decide⟩,
    ⟨[(7, 0), (9, 100)], [], 200, rfl, by decide, by decide, by decide⟩, ?_⟩
  intro h
  obtain ⟨b, hb⟩ := IsSelectedFork_lastBelow _ _ _ h
  have h11 : lastBelow ([7, 9, 11].zip [0, 100, 200]) (666 + 1) = some (11, 200) := by decide
  rw [h11] at hb
  simp at hb

end ForkId

namespace StreamWriter

open Go Verifier

/-! ## Writing verified blocks to the stream -/

theorem uptoFirstInvalid_cons_valid (r : VerifierResponse) (rest : List VerifierResponse)
    (h : r.Valid = true) : uptoFirstInvalid (r :: rest) = r :: uptoFirstInvalid rest := by
  simp [uptoFirstInvalid, List.takeWhile_cons, List.dropWhile_cons, h]

theorem uptoFirstInvalid_cons_invalid (r : VerifierResponse) (rest : List VerifierResponse)
    (h : r.Valid = false) : uptoFirstInvalid (r :: rest) = [r] := by
  simp [uptoFirstInvalid, List.takeWhile_cons, List.dropWhile_cons, h]

theorem writeLoop_spec (deps : WriterDeps) (forkId : Nat)
    (hread : ∀ n, ∃ b, deps.ReadBlockByNumber n = .ok (some b))
    (hwrite : ∀ call, deps.WriteBlockWithBatchStartToStream call = none) :
    ∀ (responses : List VerifierResponse) (bundles : List VerifierBundle)
      (written : List BlockStatus) (lastBatch : Nat) (calls : List StreamWrite),
      bundles.map (fun b => b.Response) = responses.map some →
      ∃ calls1, writeLoop deps forkId bundles written lastBatch calls =
          .returned (written ++ (uptoFirstInvalid responses).map statusOf) none
            ((((responses.takeWhile (fun r => r.Valid)).map
              (fun r => r.BatchNumber)).getLast?).getD lastBatch)
            (calls ++ calls1) ∧
        calls1.map (fun c => c.batchNumber) =
          (responses.takeWhile (fun r => r.Valid)).map (fun r => r.BatchNumber) := by
  intro responses
  induction responses with
  | nil =>
    intro bundles written lastBatch calls hb
    have : bundles = [] := by simpa using hb
    subst this
    exact ⟨[], by simp [writeLoop, uptoFirstInvalid], rfl⟩
  | cons r rest ih =>
    intro bundles written lastBatch calls hb
    cases bundles with
    | nil => simp at hb
    | cons bundle bundles1 =>
      simp only [List.map_cons, List.cons.injEq] at hb
      obtain ⟨hresp, hrest⟩ := hb
      rw [writeLoop, hresp]
      simp only
      cases hv : r.Valid with
      | false =>
        simp only [Bool.false_eq_true, if_false]
        refine ⟨[], ?_, ?_⟩
        · rw [uptoFirstInvalid_cons_invalid r rest hv]
          simp [List.takeWhile_cons, hv, statusOf]
        · simp [List.takeWhile_cons, hv]
      | true =>
        simp only [if_true]
        obtain ⟨p, hp⟩ := hread (subOneU64 r.BlockNumber)
        obtain ⟨b, hbk⟩ := hread r.BlockNumber
        rw [hp, hbk]
        simp only [hwrite]
        obtain ⟨calls1, h1, h2⟩ := ih bundles1
          (written ++ [{ BlockNumber := r.BlockNumber, Valid := true, Error := r.Error }])
          r.BatchNumber
          (calls ++ [{ forkId := forkId, batchNumber := r.BatchNumber, lastBatch := lastBatch,
                       parentBlock := p, block := b }]) hrest
        refine ⟨{ forkId := forkId, batchNumber := r.BatchNumber, lastBatch := lastBatch,
                  parentBlock := p, block := b } :: calls1, ?_, ?_⟩
        · rw [h1, uptoFirstInvalid_cons_valid r rest hv]
          simp only [List.takeWhile_cons, hv, if_true, List.map_cons, List.append_assoc,
            List.singleton_append, List.getLast?_cons, Option.getD_some, statusOf]
        · simp [List.takeWhile_cons, hv, h2]

/-- C27: for every list of verified bundles, each with its response, and
with the block reads and the stream writes succeeding, `writeBlockDetails`
returns without error one status per bundle, in the order of the bundles, for
the bundles up to and including the first whose response is invalid, and none
for a bundle after it; each status carries the block number, the validity and
the error of its response.  The stream writes it calls for are those of the
valid responses among them, in order, and `lastBatch` ends as the batch
number of the last of these (unchanged if there is none). -/
theorem writeBlockDetails_spec (deps : WriterDeps) (lastBatch forkId : Nat)
    (bundles : List VerifierBundle) (responses : List VerifierResponse)
    (hresponses : bundles.map (fun b => b.Response) = responses.map some)
    (hread : ∀ n, ∃ b, deps.ReadBlockByNumber n = .ok (some b))
    (hwrite : ∀ call, deps.WriteBlockWithBatchStartToStream call = none) :
    ∃ calls, writeBlockDetails deps lastBatch bundles forkId =
        .returned ((uptoFirstInvalid responses).map statusOf) none
          ((((responses.takeWhile (fun r => r.Valid)).map
            (fun r => r.BatchNumber)).getLast?).getD lastBatch)
          calls ∧
      calls.map (fun c => c.batchNumber) =
        (responses.takeWhile (fun r => r.Valid)).map (fun r => r.BatchNumber) ∧
      (∀ r ∈ (uptoFirstInvalid responses).dropLast, r.Valid = true) ∧
      uptoFirstInvalid responses = responses.take (uptoFirstInvalid responses).length := by
  obtain ⟨calls, h1, h2⟩ := writeLoop_spec deps forkId hread hwrite responses bundles [] lastBatch
    [] hresponses
  refine ⟨calls, by simpa [writeBlockDetails] using h1, h2, ?_, ?_⟩
  · intro r hr
    unfold uptoFirstInvalid at hr
    cases hd : (responses.dropWhile (fun r => r.Valid)) with
    | nil =>
      rw [hd] at hr
      simp only [List.take_nil, List.append_nil] at hr
      exact List.mem_takeWhile_imp (List.mem_of_mem_dropLast hr)
    | cons a l =>
      rw [hd] at hr
      have : (responses.takeWhile (fun r => r.Valid) ++ List.take 1 (a :: l)).dropLast =
          responses.takeWhile (fun r => r.Valid) := by
        simp [List.dropLast_append_cons]
      rw [this] at hr
      exact List.mem_takeWhile_imp hr
  · have hsplit := List.takeWhile_append_dropWhile (fun r : VerifierResponse => r.Valid) responses
    unfold uptoFirstInvalid
    generalize responses.takeWhile (fun r => r.Valid) = tw at hsplit
    generalize responses.dropWhile (fun r => r.Valid) = dw at hsplit
    subst hsplit
    cases dw with
    | nil => simp
    | cons a l => simp [List.take_append_eq_append_take]

theorem writeBlockDetails_spec_witness :
    ∃ calls, writeBlockDetails sampleWriterDeps 3
        [sampleBundle 4 true, sampleBundle 5 false, sampleBundle 6 true] 9 =
        .returned
          [{ BlockNumber := 40, Valid := true, Error := none },
           { BlockNumber := 50, Valid := false, Error := some (.errorf "invalid") }]
          none 4 calls ∧
      calls.map (fun c => c.batchNumber) = [4] := by
  obtain ⟨calls, h1, h2, _⟩ := writeBlockDetails_spec sampleWriterDeps 3 9
    [sampleBundle 4 true, sampleBundle 5 false, sampleBundle 6 true]
    [{ BatchNumber := 4, BlockNumber := 40, Valid := true, OriginalCounters := [],
       Witness := none, ExecutorResponse := none, Error := none },
     { BatchNumber := 5, BlockNumber := 50, Valid := false, OriginalCounters := [],
       Witness := none, ExecutorResponse := none, Error := some (.errorf "invalid") },
     { BatchNumber := 6, BlockNumber := 60, Valid := true, OriginalCounters := [],
       Witness := none, ExecutorResponse := none, Error := none }]
    rfl (fun n => ⟨_, rfl⟩) (fun _ => rfl)
  exact ⟨calls, h1, h2⟩

end StreamWriter

namespace Catchup

open Go

/-! ## Truncating the data stream -/

/-- The guard of `TruncateDatastream`: a `truncateBlockNum` at or above the
previous progress makes it fail before any write. -/
theorem TruncateDatastream_guard (deps : TruncateDeps) (truncateBlockNum previousProgress : Nat)
    (hprogress : deps.GetStageProgress = .ok previousProgress)
    (hge : truncateBlockNum ≥ previousProgress) :
    (TruncateDatastream deps truncateBlockNum).1 ≠ none ∧
    (TruncateDatastream deps truncateBlockNum).2 = [] := by
  unfold TruncateDatastream
  rw [hprogress]
  simp [hge]

/-- What a successful `TruncateDatastream` saves for a `truncateBlockNum` of at
least 1: `truncateBlockNum - 1`, which is below the previous progress. -/
theorem TruncateDatastream_success (deps : TruncateDeps) (truncateBlockNum previousProgress : Nat)
    (hprogress : deps.GetStageProgress = .ok previousProgress)
    (hpos : 1 ≤ truncateBlockNum) (hrange : truncateBlockNum < 18446744073709551616)
    (hok : (TruncateDatastream deps truncateBlockNum).1 = none) :
    (TruncateDatastream deps truncateBlockNum).2 =
      [.TruncateBlock truncateBlockNum, .SaveStageProgress (truncateBlockNum - 1)] ∧
    truncateBlockNum - 1 < previousProgress := by
  have hsub : subOneU64 truncateBlockNum = truncateBlockNum - 1 := by
    unfold subOneU64 wrapU64
    omega
  unfold TruncateDatastream at hok ⊢
  rw [hprogress] at hok ⊢
  by_cases hge : truncateBlockNum ≥ previousProgress
  · simp [hge] at hok
  · simp only [if_neg hge] at hok ⊢
    cases ht : deps.TruncateBlock truncateBlockNum with
    | some err => rw [ht] at hok; simp at hok
    | none =>
      simp only [ht] at hok ⊢
      cases hs : deps.SaveStageProgress (subOneU64 truncateBlockNum) with
      | some err => rw [hs] at hok; simp at hok
      | none =>
        simp only [hs, hsub]
        exact ⟨trivial, by omega⟩

/-- C30, on the code: the previous DataStream progress is 5 and
`truncateBlockNum` is 0, which passes the guard.  With the stream truncated
and the progress saved without error, `TruncateDatastream` succeeds, and the
progress it saves is the `uint64` value of `0 - 1`, 18446744073709551615,
which is not lower than the previous progress. -/
theorem TruncateDatastream_zero_saves_max :
    TruncateDatastream (sampleTruncateDeps 5) 0 =
      (none, [.TruncateBlock 0, .SaveStageProgress 18446744073709551615]) ∧
    ¬ (18446744073709551615 < 5) ∧
    TruncateDatastream (sampleTruncateDeps 5) 3 =
      (none, [.TruncateBlock 3, .SaveStageProgress 2]) := by
  refine ⟨by decide, by decide, by decide⟩

end Catchup

namespace PoolLimbo

open Go

/-! ## Flushing the limbo and loading it again -/

/-- A batch appended by `resizeBatches` has a nil map of minimum timestamps. -/
theorem resizeBatches_nil_map (newSize : Int) :
    ∀ b ∈ resizeBatches [] newSize, b.L1InfoTreeMinTimestamps = none := by
  intro b hb
  unfold resizeBatches at hb
  simp only [List.nil_append, List.mem_replicate] at hb
  rw [hb.2]
  rfl

/-- The field for a minimum timestamp cannot be loaded into a batch whose map
is nil. -/
theorem loadBatchField_nil_map (b : LimboBatchDetails) (batchesJ : Nat) (v : Bytes)
    (hmap : b.L1InfoTreeMinTimestamps = none) :
    ∃ msg, loadBatchField b DbKeyBatchesL1InfoTreePrefix batchesJ v = .error msg := by
  unfold loadBatchField
  simp only [show (DbKeyBatchesL1InfoTreePrefix = DbKeyBatchesWitnessPrefix) = False from by decide,
    show (DbKeyBatchesL1InfoTreePrefix = DbKeyBatchesStreamBytesPrefix) = False from by decide,
    if_false, if_true, hmap]
  cases Uint64 v with
  | none => exact ⟨_, rfl⟩
  | some x => exact ⟨_, rfl⟩

/-- C29, on the code: a limbo with one batch whose map of L1-info-tree
minimum timestamps has the entry `1 ↦ 100`.  `flushLockedLimbo` writes the
entry under the key of the field 3 of batch 0; `fromDBLimbo`, loading into a
new limbo, makes batch 0 with `resizeBatches`, whose map is nil, and panics on
the assignment to that map.  Without an entry in the map the same limbo is
restored as it was. -/
theorem fromDBLimbo_panics_on_minimum_timestamps :
    (flushLockedLimbo samplePoolDeps (sampleLimbo (some [(1, 100)]))).toOption.map
        (fun r => r.1.lookup (batchKey 0 DbKeyBatchesL1InfoTreePrefix 1)) =
      some (some (PutUint64 100)) ∧
    flushThenLoad samplePoolDeps (sampleLimbo (some [(1, 100)])) =
      some (.panicked "assignment to entry in nil map") ∧
    (resizeBatches newLimbo.limboBatches 1).map (fun b => b.L1InfoTreeMinTimestamps) = [none] ∧
    flushThenLoad samplePoolDeps (sampleLimbo none) =
      some (.returned none (sampleLimbo none)) := by
  refine ⟨by decide, by decide, by decide, by decide⟩

end PoolLimbo
